import Mathlib

/-!
SoA terrain patch mesh manager.

A shallow embedding of `src/SoA/TerrainPatchMeshManager.cpp`.

* `f64` and `f32` values are exact rationals (no rounding, no NaN).
* A `TerrainPatchMesh*` is a `MeshId`; the mesh objects live in a heap
  `MeshId → Option TerrainPatchMesh`, where `none` is an object that has been
  passed to `delete`.  Dereferencing such a pointer is an error of the model.
* Calls that leave the manager (GPU buffer release, normal-map recycling, draw
  calls, `delete`) are appended to a trace of `Event`s.
* Functions of other translation units (`getClosestPoint`, the horizon and
  frustum tests, glm) are parameters, collected in `Externals`.
-/

namespace SoA

/-- A three-component vector; both `f64v3` and `f32v3` are embedded as this. -/
structure f64v3 where
  x : ℚ
  y : ℚ
  z : ℚ
deriving DecidableEq

/-- The `f32v3` of the source: same embedding as `f64v3`. -/
abbrev f32v3 := f64v3

/-- A quaternion `f64q` (and its `f32q` copy `orientationF32`). -/
structure f64q where
  x : ℚ
  y : ℚ
  z : ℚ
  w : ℚ
deriving DecidableEq

/-- Component-wise difference, glm's `operator-` on vectors. -/
def f64v3.sub (a b : f64v3) : f64v3 := ⟨a.x - b.x, a.y - b.y, a.z - b.z⟩

/-- Modelled from the spec: `selfDot` of soaUtils.h is not among the sources; the
spec calls its result the squared distance, so it is the dot product of the
vector with itself. -/
def selfDot (v : f64v3) : ℚ := v.x * v.x + v.y * v.y + v.z * v.z

/-- A `TerrainPatchMesh*`. -/
abbrev MeshId := Nat

/-- The members of `TerrainPatchMesh` that TerrainPatchMeshManager.cpp reads or
writes.  `m_wvbo` is the GL handle of the water buffer, `0` when there is none. -/
structure TerrainPatchMesh where
  m_wvbo : Nat
  m_shouldDelete : Bool
  m_isRenderable : Bool
  distance2 : ℚ
  m_aabbCenter : f32v3
  m_boundingSphereRadius : ℚ
deriving DecidableEq

/-- The memory holding the mesh objects; `none` marks a deleted object. -/
abbrev Heap := MeshId → Option TerrainPatchMesh

/-- Store `v` at address `m`. -/
def Heap.set (h : Heap) (m : MeshId) (v : Option TerrainPatchMesh) : Heap :=
  fun k => if k = m then v else h k

/-- Calls leaving the manager, in the order they are made. -/
inductive Event where
  /-- The call `vg::GpuMemory::freeBuffer(m->m_wvbo)`. -/
  | freeBuffer (m : MeshId)
  /-- The statement `delete m`. -/
  | deleteMesh (m : MeshId)
  /-- The call `m->recycleNormalMap(m_normalMapRecycler)`. -/
  | recycleNormalMap (m : MeshId)
  /-- The call `m->drawWater(...)`. -/
  | drawWater (m : MeshId)
  /-- The call `m->draw(..., drawSkirts)`. -/
  | draw (m : MeshId) (drawSkirts : Bool)
deriving DecidableEq

/-- Ways a run of the model can fail. -/
inductive Err where
  /-- A member of a deleted mesh object was read. -/
  | useAfterFree (m : MeshId)
  /-- A loop was cut off before its condition became false. -/
  | outOfFuel
deriving DecidableEq

/-- The manager's four lists and two distance caches, with the heap the list
entries point into and the trace of outgoing calls. -/
structure State where
  m_meshes : List MeshId
  m_waterMeshes : List MeshId
  m_farMeshes : List MeshId
  m_farWaterMeshes : List MeshId
  m_closestSphericalDistance2 : ℚ
  m_closestFarDistance2 : ℚ
  heap : Heap
  log : List Event

/-- The value `mesh->distance2` the comparator reads (`0` for a deleted object,
which the sort never meets: the distance loop before it has read every entry). -/
def distance2Of (h : Heap) (m : MeshId) : ℚ :=
  match h m with
  | some o => o.distance2
  | none => 0

/-- The lambda passed to `std::sort` (and `meshComparator`):
`m1->distance2 < m2->distance2`. -/
def meshComparator (h : Heap) (m1 m2 : MeshId) : Bool :=
  decide (distance2Of h m1 < distance2Of h m2)

/-- Insert `x` in front of the first element it compares less than. -/
def sortedInsert {α : Type} (comp : α → α → Bool) (x : α) : List α → List α
  | [] => [x]
  | y :: ys => if comp x y then x :: y :: ys else y :: sortedInsert comp x ys

/-- The model of `std::sort(begin, end, comp)`: an insertion sort.  The standard
fixes only that the result is a rearrangement in which no later element compares
less than an earlier one; the place of elements that compare equal is a choice of
this model. -/
def stdSort {α : Type} (comp : α → α → Bool) : List α → List α
  | [] => []
  | x :: xs => sortedInsert comp x (stdSort comp xs)

/-- The range-for loop of `sortSpericalMeshes` and `sortFarMeshes` (lines 171-176
and 187-192): store each mesh's squared distance and track the minimum. -/
def distanceLoop (getClosestPoint : MeshId → f64v3 → f64v3) (relPos : f64v3) :
    List MeshId → Heap → ℚ → Except Err (Heap × ℚ)
  | [], h, closest => .ok (h, closest)
  | mesh :: rest, h, closest =>
    match h mesh with
    | none => .error (.useAfterFree mesh)
    | some o =>
      let distVec := (getClosestPoint mesh relPos).sub relPos
      let d := selfDot distVec
      distanceLoop getClosestPoint relPos rest (h.set mesh (some { o with distance2 := d }))
        (if d < closest then d else closest)

/-- The function `TerrainPatchMeshManager::sortSpericalMeshes` (lines 168-182).
`DOUBLE_SENTINEL` is a constant of a header that is not among the sources. -/
def sortSpericalMeshes (getClosestPoint : MeshId → f64v3 → f64v3) (DOUBLE_SENTINEL : ℚ)
    (relPos : f64v3) (st : State) : Except Err State :=
  match distanceLoop getClosestPoint relPos st.m_meshes st.heap DOUBLE_SENTINEL with
  | .error e => .error e
  | .ok (h, closest) =>
    .ok { st with
      m_closestSphericalDistance2 := closest
      heap := h
      m_meshes := stdSort (meshComparator h) st.m_meshes }

/-- The function `TerrainPatchMeshManager::sortFarMeshes` (lines 184-198). -/
def sortFarMeshes (getClosestPoint : MeshId → f64v3 → f64v3) (DOUBLE_SENTINEL : ℚ)
    (relPos : f64v3) (st : State) : Except Err State :=
  match distanceLoop getClosestPoint relPos st.m_farMeshes st.heap DOUBLE_SENTINEL with
  | .error e => .error e
  | .ok (h, closest) =>
    .ok { st with
      m_closestFarDistance2 := closest
      heap := h
      m_farMeshes := stdSort (meshComparator h) st.m_farMeshes }

/-- What the file uses from other translation units: the mesh's closest-point
query, the two static horizon tests, the frustum test of the `camera` argument,
glm's quaternion inverse and quaternion-vector product, and
`m_planetGenData->radius`. -/
structure Externals where
  getClosestPoint : MeshId → f64v3 → f64v3
  terrainIsOverHorizon : f64v3 → f64v3 → ℚ → Bool
  farIsOverHorizon : f64v3 → f64v3 → ℚ → Bool
  sphereInFrustum : f32v3 → ℚ → Bool
  inverse : f64q → f64q
  rotate : f64q → f64v3 → f64v3
  planetRadius : ℚ

/-- Modelled from the spec: `vg::GpuMemory::freeBuffer` is not among the sources; it
takes `m->m_wvbo` by reference, and the spec has the handle become empty. -/
def freeBuffer (o : TerrainPatchMesh) : TerrainPatchMesh := { o with m_wvbo := 0 }

/-- The two statements `m = list.back(); list.pop_back();` for the slot `i`. -/
def swapRemove (l : List MeshId) (i : Nat) : List MeshId :=
  match l.getLast? with
  | none => l
  | some b => (l.set i b).dropLast

/-- The index-cursor loop shared by the four sweeps (lines 59-77, 98-133, 230-247,
270-302).  `recycle` is true in the two terrain sweeps, whose deletion branch
starts with `recycleNormalMap`; `visit` is the branch of a mesh that is not
pending deletion.  The first argument bounds the number of iterations.  The cursor
`int i` is a natural number here, which is the same for lists of fewer than `2^31`
entries. -/
def sweepLoop (recycle : Bool) (visit : MeshId → TerrainPatchMesh → List Event) :
    Nat → Nat → List MeshId → Heap → List Event →
      Except Err (List MeshId × Heap × List Event)
  | 0, i, l, h, log => if i < l.length then .error .outOfFuel else .ok (l, h, log)
  | fuel + 1, i, l, h, log =>
    match l[i]? with
    | none => .ok (l, h, log)
    | some m =>
      match h m with
      | none => .error (.useAfterFree m)
      | some o =>
        if o.m_shouldDelete then
          let log1 := if recycle then log ++ [Event.recycleNormalMap m] else log
          if o.m_wvbo ≠ 0 then
            sweepLoop recycle visit fuel i (swapRemove l i)
              (h.set m (some (freeBuffer o))) (log1 ++ [Event.freeBuffer m])
          else
            sweepLoop recycle visit fuel i (swapRemove l i)
              (h.set m none) (log1 ++ [Event.deleteMesh m])
        else
          sweepLoop recycle visit fuel (i + 1) l h (log ++ visit m o)

/-- The loop started as the source starts it: cursor `0`, and as many iterations
allowed as the list has entries. -/
def sweep (recycle : Bool) (visit : MeshId → TerrainPatchMesh → List Event)
    (l : List MeshId) (h : Heap) (log : List Event) :
    Except Err (List MeshId × Heap × List Event) :=
  sweepLoop recycle visit l.length 0 l h log

/-- The else-branch of both water sweeps (lines 72-76, 243-246). -/
def waterVisit (m : MeshId) (_o : TerrainPatchMesh) : List Event := [Event.drawWater m]

/-- The else-branch of the spherical terrain sweep (lines 115-132): horizon test
first, then the frustum test. -/
def sphericalVisit (ext : Externals) (relativePos rotpos : f64v3) (orientationF32 : f64q)
    (drawSkirts : Bool) (m : MeshId) (o : TerrainPatchMesh) : List Event :=
  let closestPoint := ext.getClosestPoint m rotpos
  if !ext.terrainIsOverHorizon rotpos closestPoint ext.planetRadius then
    let relSpherePos := (ext.rotate orientationF32 o.m_aabbCenter).sub relativePos
    if ext.sphereInFrustum relSpherePos o.m_boundingSphereRadius then
      [Event.draw m drawSkirts]
    else []
  else []

/-- The else-branch of the far terrain sweep (lines 286-301): frustum test first,
then the horizon test. -/
def farVisit (ext : Externals) (relativePos : f64v3) (drawSkirts : Bool)
    (m : MeshId) (o : TerrainPatchMesh) : List Event :=
  let relSpherePos := o.m_aabbCenter.sub relativePos
  if ext.sphereInFrustum relSpherePos o.m_boundingSphereRadius then
    let closestPoint := ext.getClosestPoint m relativePos
    if !ext.farIsOverHorizon relativePos closestPoint ext.planetRadius then
      [Event.draw m drawSkirts]
    else []
  else []

/-- The value of `drawSkirts` the terrain sweeps use: initialised to `true`
(lines 30, 208) and cleared by `if (alpha < 1.0f) drawSkirts = false;`
(lines 94, 265). -/
def terrainDrawSkirts (alpha : ℚ) : Bool :=
  let drawSkirts := true
  if alpha < 1 then false else drawSkirts

/-- The block `if (m_waterMeshes.size()) {...}` of `drawSphericalMeshes`
(lines 42-80). -/
def sphericalWaterPass (st : State) : Except Err State :=
  if st.m_waterMeshes.length ≠ 0 then
    match sweep false waterVisit st.m_waterMeshes st.heap st.log with
    | .error e => .error e
    | .ok (l, h, log) => .ok { st with m_waterMeshes := l, heap := h, log := log }
  else .ok st

/-- The block `if (m_meshes.size()) {...}` of `drawSphericalMeshes`
(lines 82-136). -/
def sphericalTerrainPass (ext : Externals) (relativePos : f64v3) (orientation : f64q)
    (alpha : ℚ) (st : State) : Except Err State :=
  let rotpos := ext.rotate (ext.inverse orientation) relativePos
  let orientationF32 := orientation
  if st.m_meshes.length ≠ 0 then
    match sweep true
        (sphericalVisit ext relativePos rotpos orientationF32 (terrainDrawSkirts alpha))
        st.m_meshes st.heap st.log with
    | .error e => .error e
    | .ok (l, h, log) => .ok { st with m_meshes := l, heap := h, log := log }
  else .ok st

/-- The function `TerrainPatchMeshManager::drawSphericalMeshes` (lines 20-137): the water block,
then the terrain block.  Texture binding and uniform uploads touch neither a list
nor a mesh and are left out here; the uploads of `setScatterUniforms` are embedded
on their own, below. -/
def drawSphericalMeshes (ext : Externals) (relativePos : f64v3) (orientation : f64q)
    (alpha : ℚ) (st : State) : Except Err State :=
  match sphericalWaterPass st with
  | .error e => .error e
  | .ok st1 => sphericalTerrainPass ext relativePos orientation alpha st1

/-- The block `if (m_farWaterMeshes.size()) {...}` of `drawFarMeshes`
(lines 212-250). -/
def farWaterPass (st : State) : Except Err State :=
  if st.m_farWaterMeshes.length ≠ 0 then
    match sweep false waterVisit st.m_farWaterMeshes st.heap st.log with
    | .error e => .error e
    | .ok (l, h, log) => .ok { st with m_farWaterMeshes := l, heap := h, log := log }
  else .ok st

/-- The block `if (m_farMeshes.size()) {...}` of `drawFarMeshes` (lines 252-305). -/
def farTerrainPass (ext : Externals) (relativePos : f64v3) (alpha : ℚ) (st : State) :
    Except Err State :=
  if st.m_farMeshes.length ≠ 0 then
    match sweep true (farVisit ext relativePos (terrainDrawSkirts alpha))
        st.m_farMeshes st.heap st.log with
    | .error e => .error e
    | .ok (l, h, log) => .ok { st with m_farMeshes := l, heap := h, log := log }
  else .ok st

/-- The function `TerrainPatchMeshManager::drawFarMeshes` (lines 200-306). -/
def drawFarMeshes (ext : Externals) (relativePos : f64v3) (alpha : ℚ) (st : State) :
    Except Err State :=
  match farWaterPass st with
  | .error e => .error e
  | .ok st1 => farTerrainPass ext relativePos alpha st1

/-- The function `TerrainPatchMeshManager::addMesh` (lines 148-162). -/
def addMesh (mesh : MeshId) (isSpherical : Bool) (st : State) : Except Err State :=
  match st.heap mesh with
  | none => .error (.useAfterFree mesh)
  | some o =>
    let st1 : State :=
      if isSpherical then
        { st with
          m_meshes := st.m_meshes ++ [mesh]
          m_waterMeshes :=
            if o.m_wvbo ≠ 0 then st.m_waterMeshes ++ [mesh] else st.m_waterMeshes }
      else
        { st with
          m_farMeshes := st.m_farMeshes ++ [mesh]
          m_farWaterMeshes :=
            if o.m_wvbo ≠ 0 then st.m_farWaterMeshes ++ [mesh] else st.m_farWaterMeshes }
    .ok { st1 with heap := st1.heap.set mesh (some { o with m_isRenderable := true }) }

/-- Modelled from the spec: the terrain producer is not among the sources; the
spec has it mark a mesh pending-deletion by setting the flag, and nothing else. -/
def markForDeletion (m : MeshId) (st : State) : State :=
  match st.heap m with
  | none => st
  | some o => { st with heap := st.heap.set m (some { o with m_shouldDelete := true }) }

/-- The squared distance the distance loop stores in mesh `m`. -/
def sqDist (getClosestPoint : MeshId → f64v3 → f64v3) (relPos : f64v3) (m : MeshId) : ℚ :=
  selfDot ((getClosestPoint m relPos).sub relPos)

/-- The running minimum the distance loop keeps, started at `c`. -/
def closestAfter (D : MeshId → ℚ) (c : ℚ) (l : List MeshId) : ℚ :=
  l.foldl (fun c m => if D m < c then D m else c) c

/-- The heap after the distance loop over `l`. -/
def heapAfter (D : MeshId → ℚ) (l : List MeshId) (h : Heap) : Heap :=
  fun k => if k ∈ l then (h k).map (fun o => { o with distance2 := D k }) else h k

/-- The meshes of the sorting scenario: mesh `0` at distance 10, mesh `1` at
distance 1, mesh `2` at distance 5 from the origin, none with water. -/
def scenarioMesh : TerrainPatchMesh :=
  { m_wvbo := 0, m_shouldDelete := false, m_isRenderable := false, distance2 := 0,
    m_aabbCenter := ⟨0, 0, 0⟩, m_boundingSphereRadius := 1 }

/-- The closest point of the scenario meshes, on the x axis. -/
def scenarioClosestPoint (m : MeshId) (_p : f64v3) : f64v3 :=
  if m = 0 then ⟨10, 0, 0⟩ else if m = 1 then ⟨1, 0, 0⟩ else ⟨5, 0, 0⟩

/-- Three spherical meshes added in the order 0, 1, 2. -/
def scenarioState : State :=
  { m_meshes := [0, 1, 2], m_waterMeshes := [], m_farMeshes := [2, 0, 1],
    m_farWaterMeshes := [], m_closestSphericalDistance2 := 0, m_closestFarDistance2 := 0,
    heap := fun _ => some scenarioMesh, log := [] }

/-- The terrain list of a run, empty for a failed run. -/
def meshesOf (r : Except Err State) : List MeshId :=
  match r with
  | .ok s => s.m_meshes
  | .error _ => []

/-- The far terrain list of a run, empty for a failed run. -/
def farMeshesOf (r : Except Err State) : List MeshId :=
  match r with
  | .ok s => s.m_farMeshes
  | .error _ => []

/-- What a sweep does to the heap cell of a listed mesh. -/
def sweepCell (c : Option TerrainPatchMesh) : Option TerrainPatchMesh :=
  match c with
  | none => none
  | some o =>
    if o.m_shouldDelete then
      if o.m_wvbo ≠ 0 then some { o with m_wvbo := 0 } else none
    else some o

/-- The heap after a sweep over the meshes `R`. -/
def heapTarget (R : List MeshId) (h : Heap) : Heap :=
  fun k => if k ∈ R then sweepCell (h k) else h k

/-- The calls one iteration makes for mesh `m`, in order. -/
def cellEvents (recycle : Bool) (visit : MeshId → TerrainPatchMesh → List Event)
    (h : Heap) (m : MeshId) : List Event :=
  match h m with
  | none => []
  | some o =>
    if o.m_shouldDelete then
      (if recycle then [Event.recycleNormalMap m] else [])
        ++ [if o.m_wvbo ≠ 0 then Event.freeBuffer m else Event.deleteMesh m]
    else visit m o

/-- The pending-deletion flag of mesh `m`, false for a deleted object. -/
def pending (h : Heap) (m : MeshId) : Bool :=
  match h m with
  | some o => o.m_shouldDelete
  | none => false

/-- The spherical distance cache of a run. -/
def closestSphericalOf (r : Except Err State) : Option ℚ :=
  match r with
  | .ok s => some s.m_closestSphericalDistance2
  | .error _ => none

/-- The list `l2` a sweep leaves of the list `l`, as the sweep is specified: it
holds exactly the entries of `l` that were not pending deletion in the heap `h`,
and it is shorter than `l` by the number of pending entries. -/
def SweptList (l : List MeshId) (h : Heap) (l2 : List MeshId) : Prop :=
  l2.Perm (l.filter (fun m => !pending h m)) ∧
  l2.length + l.countP (pending h) = l.length ∧
  (l.countP (pending h) = 1 → l2.length + 1 = l.length)

/-- A list the manager may hold: no mesh twice, every entry a live object. -/
def ListOk (l : List MeshId) (h : Heap) : Prop :=
  l.Nodup ∧ ∀ m ∈ l, (h m).isSome = true

/-- A heap for the sweep scenarios: mesh 1 has water and is pending deletion,
mesh 2 has no water and is pending deletion, meshes 3 and 4 have water and stay,
every other mesh has no water and stays. -/
def sweepHeap : Heap := fun k =>
  if k = 1 then some { scenarioMesh with m_wvbo := 7, m_shouldDelete := true }
  else if k = 2 then some { scenarioMesh with m_shouldDelete := true }
  else if k = 3 ∨ k = 4 then some { scenarioMesh with m_wvbo := 9 }
  else some scenarioMesh

/-- A state over `sweepHeap`: a spherical tier with the pending mesh 1 last in the
water list and first in the terrain list, and a far tier whose lists hold a single
pending mesh, or a pending mesh behind one that stays. -/
def sweepState : State :=
  { m_meshes := [1, 3, 4, 5], m_waterMeshes := [3, 4, 1], m_farMeshes := [2],
    m_farWaterMeshes := [6, 2], m_closestSphericalDistance2 := 0,
    m_closestFarDistance2 := 0, heap := sweepHeap, log := [] }

/-- Externals for the scenarios: the closest point of the sorting scenario, no
mesh over the horizon, every sphere in the frustum, no rotation. -/
def scenarioExt : Externals :=
  { getClosestPoint := scenarioClosestPoint
    terrainIsOverHorizon := fun _ _ _ => false
    farIsOverHorizon := fun _ _ _ => false
    sphereInFrustum := fun _ _ => true
    inverse := fun q => q
    rotate := fun _ v => v
    planetRadius := 1 }

/-- The four lists of a run, empty for a failed run. -/
def listsOf (r : Except Err State) :
    List MeshId × List MeshId × List MeshId × List MeshId :=
  match r with
  | .ok s => (s.m_meshes, s.m_waterMeshes, s.m_farMeshes, s.m_farWaterMeshes)
  | .error _ => ([], [], [], [])

/-- The mesh a call is made on. -/
def Event.mesh : Event → MeshId
  | .freeBuffer m => m
  | .deleteMesh m => m
  | .recycleNormalMap m => m
  | .drawWater m => m
  | .draw m _ => m

/-- A `visit` branch makes calls on the visited mesh only. -/
def VisitOwn (visit : MeshId → TerrainPatchMesh → List Event) : Prop :=
  ∀ (k : MeshId) (o : TerrainPatchMesh), ∀ e ∈ visit k o, e.mesh = k

/-- A `visit` branch releases nothing: it makes draw calls only. -/
def VisitDraws (visit : MeshId → TerrainPatchMesh → List Event) : Prop :=
  ∀ (k : MeshId) (o : TerrainPatchMesh), ∀ e ∈ visit k o,
    e = Event.drawWater k ∨ ∃ s, e = Event.draw k s

/-- What a water pass does for a pending mesh `m` that still holds its water
buffer: afterwards the handle is empty and the object is still there, no
`delete m` has been added to the trace, `m` has left the water list `W1` (which is
shorter by one when `m` was the only pending entry of `W`), and both terrain lists
are as before. -/
def WaterOnlyEffect (st st1 : State) (m : MeshId) (W W1 : List MeshId) : Prop :=
  (∃ o1, st1.heap m = some o1 ∧ o1.m_wvbo = 0) ∧
  st1.log.count (Event.deleteMesh m) = st.log.count (Event.deleteMesh m) ∧
  m ∉ W1 ∧
  ((∀ k ∈ W, k ≠ m → pending st.heap k = false) → W1.length + 1 = W.length) ∧
  st1.m_meshes = st.m_meshes ∧ st1.m_farMeshes = st.m_farMeshes

/-- The state `sweepState` with the two tiers exchanged. -/
def farSweepState : State :=
  { m_meshes := [2], m_waterMeshes := [6, 2], m_farMeshes := [1, 3, 4, 5],
    m_farWaterMeshes := [3, 4, 1], m_closestSphericalDistance2 := 0,
    m_closestFarDistance2 := 0, heap := sweepHeap, log := [] }

/-- The effect of `addMesh` on the lists of the chosen tier: the mesh is put at the
end of the terrain list `T`, and at the end of the water list `W` exactly when its
water handle is not empty. -/
def Appended (mesh : MeshId) (o : TerrainPatchMesh) (T W T1 W1 : List MeshId) : Prop :=
  T1 = T ++ [mesh] ∧ T1.length = T.length + 1 ∧
  (o.m_wvbo ≠ 0 → W1 = W ++ [mesh]) ∧ (o.m_wvbo = 0 → W1 = W)

/-- The relation the two lists of one tier keep to each other and to the heap:
neither list holds a mesh twice; a mesh of the terrain list `T` is live and is in
the water list `W` exactly when its water handle is not empty; a mesh of the water
list is live, and when it is no longer in the terrain list its handle is empty and
it is pending deletion (the terrain sweep has deferred its deletion). -/
def TierOk (T W : List MeshId) (h : Heap) : Prop :=
  T.Nodup ∧ W.Nodup ∧
  (∀ m ∈ T, ∃ o, h m = some o ∧ (o.m_wvbo ≠ 0 ↔ m ∈ W)) ∧
  (∀ m ∈ W, ∃ o, h m = some o ∧ (m ∉ T → o.m_wvbo = 0 ∧ o.m_shouldDelete = true))

/-- The invariant of the registry over the meshes `A` added so far, for a
spherical tier `T`, `W` and a far tier `FT`, `FW`: each tier satisfies `TierOk`,
no mesh is in lists of both tiers, only added meshes are listed, and an added mesh
that has not been freed is still in some list. -/
def Inv4 (A T W FT FW : List MeshId) (h : Heap) : Prop :=
  TierOk T W h ∧ TierOk FT FW h ∧
  (∀ m, (m ∈ T ∨ m ∈ W) → ¬ (m ∈ FT ∨ m ∈ FW)) ∧
  (∀ m, (m ∈ T ∨ m ∈ W ∨ m ∈ FT ∨ m ∈ FW) → m ∈ A) ∧
  (∀ m ∈ A, (h m).isSome = true → (m ∈ T ∨ m ∈ W ∨ m ∈ FT ∨ m ∈ FW))

/-- The registry invariant of a state. -/
def Inv (A : List MeshId) (st : State) : Prop :=
  Inv4 A st.m_meshes st.m_waterMeshes st.m_farMeshes st.m_farWaterMeshes st.heap

/-- A change of the heap that frees nothing, revives nothing, keeps every water
handle and clears no pending-deletion flag. -/
def HeapStable (h h2 : Heap) : Prop :=
  ∀ m, (h m = none → h2 m = none) ∧
    (∀ o, h m = some o →
      ∃ o2, h2 m = some o2 ∧ o2.m_wvbo = o.m_wvbo ∧
        (o.m_shouldDelete = true → o2.m_shouldDelete = true))

/-- The states the registry can be in, with the meshes added so far: starting from
empty lists, by `addMesh` of a mesh not added before, by the producer marking a
mesh pending-deletion, by a sort, by one of the four passes of the draw functions
(the producer may mark meshes between the water pass and the terrain pass of one
call), or by a whole draw call. -/
inductive Reachable (ext : Externals) (sentinel : ℚ) : List MeshId → State → Prop where
  | init (st : State) (h1 : st.m_meshes = []) (h2 : st.m_waterMeshes = [])
      (h3 : st.m_farMeshes = []) (h4 : st.m_farWaterMeshes = []) : Reachable ext sentinel [] st
  | add (A : List MeshId) (st st1 : State) (mesh : MeshId) (isSpherical : Bool)
      (hr : Reachable ext sentinel A st) (hfresh : mesh ∉ A)
      (hstep : addMesh mesh isSpherical st = .ok st1) : Reachable ext sentinel (mesh :: A) st1
  | mark (A : List MeshId) (st : State) (m : MeshId)
      (hr : Reachable ext sentinel A st) : Reachable ext sentinel A (markForDeletion m st)
  | sortSpherical (A : List MeshId) (st st1 : State) (p : f64v3)
      (hr : Reachable ext sentinel A st)
      (hstep : sortSpericalMeshes ext.getClosestPoint sentinel p st = .ok st1) :
      Reachable ext sentinel A st1
  | sortFar (A : List MeshId) (st st1 : State) (p : f64v3)
      (hr : Reachable ext sentinel A st)
      (hstep : sortFarMeshes ext.getClosestPoint sentinel p st = .ok st1) :
      Reachable ext sentinel A st1
  | waterPass (A : List MeshId) (st st1 : State)
      (hr : Reachable ext sentinel A st)
      (hstep : sphericalWaterPass st = .ok st1) : Reachable ext sentinel A st1
  | terrainPass (A : List MeshId) (st st1 : State) (p : f64v3) (q : f64q) (alpha : ℚ)
      (hr : Reachable ext sentinel A st)
      (hstep : sphericalTerrainPass ext p q alpha st = .ok st1) : Reachable ext sentinel A st1
  | farWater (A : List MeshId) (st st1 : State)
      (hr : Reachable ext sentinel A st)
      (hstep : farWaterPass st = .ok st1) : Reachable ext sentinel A st1
  | farTerrain (A : List MeshId) (st st1 : State) (p : f64v3) (alpha : ℚ)
      (hr : Reachable ext sentinel A st)
      (hstep : farTerrainPass ext p alpha st = .ok st1) : Reachable ext sentinel A st1
  | drawSpherical (A : List MeshId) (st st1 : State) (p : f64v3) (q : f64q) (alpha : ℚ)
      (hr : Reachable ext sentinel A st)
      (hstep : drawSphericalMeshes ext p q alpha st = .ok st1) : Reachable ext sentinel A st1
  | drawFar (A : List MeshId) (st st1 : State) (p : f64v3) (alpha : ℚ)
      (hr : Reachable ext sentinel A st)
      (hstep : drawFarMeshes ext p alpha st = .ok st1) : Reachable ext sentinel A st1

/-- The state of a run that returned, `d` for a failed run. -/
def okState (r : Except Err State) (d : State) : State :=
  match r with
  | .ok s => s
  | .error _ => d

/-- The empty registry over `sweepHeap`. -/
def emptyState : State :=
  { m_meshes := [], m_waterMeshes := [], m_farMeshes := [], m_farWaterMeshes := [],
    m_closestSphericalDistance2 := 0, m_closestFarDistance2 := 0, heap := sweepHeap,
    log := [] }

/-- The empty registry after `addMesh(3, true)`. -/
def reachedState1 : State := okState (addMesh 3 true emptyState) emptyState

/-- Then after `addMesh(1, false)`. -/
def reachedState2 : State := okState (addMesh 1 false reachedState1) emptyState

/-- Then after the far terrain pass, which meets the pending mesh 1 first. -/
def reachedState3 : State :=
  okState (farTerrainPass scenarioExt ⟨0, 0, 0⟩ 1 reachedState2) emptyState

/-- The water-handle invariant for an added mesh `m`: it occurs once in the
terrain list and once in the water list of one tier, and not in the other tier. -/
def InOneTier (st : State) (m : MeshId) : Prop :=
  (st.m_meshes.count m = 1 ∧ st.m_waterMeshes.count m = 1 ∧
    st.m_farMeshes.count m = 0 ∧ st.m_farWaterMeshes.count m = 0) ∨
  (st.m_meshes.count m = 0 ∧ st.m_waterMeshes.count m = 0 ∧
    st.m_farMeshes.count m = 1 ∧ st.m_farWaterMeshes.count m = 1)

/-- Between the states `st` and `st2` the mesh `m` was released for good: the
trace has gained exactly one `delete m` and exactly one `freeBuffer` of its water
buffer, the object is gone, and no list holds `m` any longer. -/
def FreedOnce (st st2 : State) (m : MeshId) : Prop :=
  st2.log.count (Event.deleteMesh m) = st.log.count (Event.deleteMesh m) + 1 ∧
  st2.log.count (Event.freeBuffer m) = st.log.count (Event.freeBuffer m) + 1 ∧
  st2.heap m = none ∧
  m ∉ st2.m_meshes ∧ m ∉ st2.m_waterMeshes ∧ m ∉ st2.m_farMeshes ∧ m ∉ st2.m_farWaterMeshes

/-- The trace of a run, empty for a failed run. -/
def logOf (r : Except Err State) : List Event :=
  match r with
  | .ok s => s.log
  | .error _ => []

/-- Mesh 3 (water handle 9) added to the spherical tier and mesh 4 (water
handle 9) to the far tier, then both marked pending-deletion. -/
def markedState : State :=
  markForDeletion 4 (markForDeletion 3
    (okState (addMesh 4 false reachedState1) emptyState))

/-- The horizon test of the spherical terrain sweep for mesh `m` (lines 117-121):
`rotpos` against the closest point of the mesh. -/
def sphericalOverHorizon (ext : Externals) (relativePos : f64v3) (orientation : f64q)
    (m : MeshId) : Bool :=
  ext.terrainIsOverHorizon (ext.rotate (ext.inverse orientation) relativePos)
    (ext.getClosestPoint m (ext.rotate (ext.inverse orientation) relativePos)) ext.planetRadius

/-- The frustum test of the spherical terrain sweep (lines 125-127). -/
def sphericalInFrustum (ext : Externals) (relativePos : f64v3) (orientation : f64q)
    (o : TerrainPatchMesh) : Bool :=
  ext.sphereInFrustum ((ext.rotate orientation o.m_aabbCenter).sub relativePos)
    o.m_boundingSphereRadius

/-- The horizon test of the far terrain sweep for mesh `m` (lines 294-296). -/
def farOverHorizon (ext : Externals) (relativePos : f64v3) (m : MeshId) : Bool :=
  ext.farIsOverHorizon relativePos (ext.getClosestPoint m relativePos) ext.planetRadius

/-- The frustum test of the far terrain sweep (lines 291-292). -/
def farInFrustum (ext : Externals) (relativePos : f64v3) (o : TerrainPatchMesh) : Bool :=
  ext.sphereInFrustum (o.m_aabbCenter.sub relativePos) o.m_boundingSphereRadius

/-- The rule as the spec words it: a mesh gets a terrain draw call if and only if
its pending-deletion flag is not set, it is not over the horizon, and its bounding
sphere is in the frustum. -/
def shouldDraw (pendingDeletion overHorizon inFrustum : Bool) : Bool :=
  !pendingDeletion && (!overHorizon && inFrustum)

/-- The spec's rule for the mesh at address `m` of the heap `h`. -/
def drawnBy (h : Heap) (overHorizon : MeshId → Bool) (inFrustum : TerrainPatchMesh → Bool)
    (m : MeshId) : Bool :=
  match h m with
  | some o => shouldDraw o.m_shouldDelete (overHorizon m) (inFrustum o)
  | none => false

/-- The terrain draw calls `ev` of a sweep over the list `T` are exactly those of
the spec's rule: one `draw(m, skirts)` for each listed mesh the rule selects, and
no other terrain draw call. -/
def DrawsExactly (T : List MeshId) (h : Heap) (skirts : Bool) (overHorizon : MeshId → Bool)
    (inFrustum : TerrainPatchMesh → Bool) (ev : List Event) : Prop :=
  ∀ (m : MeshId) (s : Bool),
    ev.count (Event.draw m s)
      = if m ∈ T ∧ s = skirts ∧ drawnBy h overHorizon inFrustum m = true then 1 else 0

/-- A heap for the culling scenario: mesh 1 is pending deletion, mesh 3 has a
bounding sphere of radius 3, every other mesh is a plain `scenarioMesh`. -/
def cullHeap : Heap := fun k =>
  if k = 1 then some { scenarioMesh with m_shouldDelete := true }
  else if k = 3 then some { scenarioMesh with m_boundingSphereRadius := 3 }
  else some scenarioMesh

/-- Both terrain lists hold the meshes 1 to 4 of `cullHeap`. -/
def cullState : State :=
  { m_meshes := [1, 2, 3, 4], m_waterMeshes := [], m_farMeshes := [1, 2, 3, 4],
    m_farWaterMeshes := [], m_closestSphericalDistance2 := 0, m_closestFarDistance2 := 0,
    heap := cullHeap, log := [] }

/-- Externals for the culling scenario: the closest point of mesh 2 is beyond the
horizon (`x > 4`), and a bounding sphere is in the frustum when its radius is
below 2. -/
def cullExt : Externals :=
  { getClosestPoint := fun m _ => if m = 2 then ⟨9, 0, 0⟩ else ⟨1, 0, 0⟩
    terrainIsOverHorizon := fun _ cp _ => decide (4 < cp.x)
    farIsOverHorizon := fun _ cp _ => decide (4 < cp.x)
    sphereInFrustum := fun _ r => decide (r < 2)
    inverse := fun q => q
    rotate := fun _ v => v
    planetRadius := 1 }

/-- Meshes 3 and 5 and the pending mesh 1 added to the spherical tier, mesh 4 and
the pending mesh 2 to the far tier. -/
def drawState : State :=
  okState (addMesh 2 false (okState (addMesh 1 true (okState (addMesh 5 true
    (okState (addMesh 4 false reachedState1) emptyState)) emptyState)) emptyState))
    emptyState

/-- The members of `AtmosphereComponent` that `setScatterUniforms` reads. -/
structure AtmosphereComponent where
  invWavelength4 : f32v3
  planetRadius : ℚ
  radius : ℚ
  krEsun : ℚ
  kmEsun : ℚ
  kr4PI : ℚ
  km4PI : ℚ
  scaleDepth : ℚ
  g : ℚ

/-- The value of one `glUniform*` call. -/
inductive UniformValue where
  /-- A value passed to `glUniform1f`. -/
  | float (x : ℚ)
  /-- A value passed to `glUniform1i`. -/
  | int (n : Int)
  /-- A value passed to `glUniform3fv`. -/
  | vec3 (v : f32v3)
deriving DecidableEq

/-- One `glUniform*` call: the program whose uniform location is looked up
(a `vg::GLProgram*`), the name given to `getUniform`, and the value. -/
structure Upload where
  program : Nat
  name : String
  value : UniformValue
deriving DecidableEq

/-- The function `TerrainPatchMeshManager::setScatterUniforms` (lines 308-332), as
the list of the uploads it makes, in order.  `glmLength` is `glm::length`, which
is not among the sources. -/
def setScatterUniforms (glmLength : f32v3 → ℚ) (program : Nat) (relPos : f64v3)
    (aCmp : Option AtmosphereComponent) : List Upload :=
  match aCmp with
  | none => []
  | some a =>
    let relPosF : f32v3 := relPos
    let camHeight := glmLength relPosF
    let scale := 1 / (a.radius - a.planetRadius)
    [ ⟨program, "unCameraPos", .vec3 relPosF⟩,
      ⟨program, "unInvWavelength", .vec3 a.invWavelength4⟩,
      ⟨program, "unCameraHeight2", .float (camHeight * camHeight)⟩,
      ⟨program, "unInnerRadius", .float a.planetRadius⟩,
      ⟨program, "unOuterRadius", .float a.radius⟩,
      ⟨program, "unOuterRadius2", .float (a.radius * a.radius)⟩,
      ⟨program, "unKrESun", .float a.krEsun⟩,
      ⟨program, "unKmESun", .float a.kmEsun⟩,
      ⟨program, "unKr4PI", .float a.kr4PI⟩,
      ⟨program, "unKm4PI", .float a.km4PI⟩,
      ⟨program, "unScale", .float scale⟩,
      ⟨program, "unScaleDepth", .float a.scaleDepth⟩,
      ⟨program, "unScaleOverScaleDepth", .float (scale / a.scaleDepth)⟩,
      ⟨program, "unNumSamples", .int 3⟩,
      ⟨program, "unNumSamplesF", .float 3⟩,
      ⟨program, "unG", .float a.g⟩,
      ⟨program, "unG2", .float (a.g * a.g)⟩ ]

/-- The values uploaded under the name `name`, in order. -/
def uploadsOf (name : String) (ups : List Upload) : List UniformValue :=
  (ups.filter (fun u => u.name == name)).map (fun u => u.value)

/-- An atmosphere for the scattering scenario: inner radius 10, outer radius 12,
scale depth 1/4, asymmetry -3/4. -/
def scenarioAtmosphere : AtmosphereComponent :=
  { invWavelength4 := ⟨1, 2, 3⟩, planetRadius := 10, radius := 12, krEsun := 1, kmEsun := 1,
    kr4PI := 1, km4PI := 1, scaleDepth := 1 / 4, g := -3 / 4 }

/-- The length the scenario's `glm::length` returns: 5 at the position `(3, 4, 0)`,
which is exact, and 7/5 elsewhere, which at `(1, 1, 0)` is a rational near the
square root of 2. -/
def scenarioLength (v : f32v3) : ℚ := if v = ⟨3, 4, 0⟩ then 5 else 7 / 5

/-- The sweep over the list `l` has examined every entry exactly once, as the calls
`ev` it made and the list `kept` it left show: the entries were met in an order
that is a rearrangement of `l`, every call on a listed mesh was made as often as
one iteration for that mesh makes it and no call was made on another mesh, every
pending entry had exactly one of `freeBuffer` and `delete` applied, every entry
that was not pending is still listed, and no pending entry is. -/
def ExaminedOnce (recycle : Bool) (visit : MeshId → TerrainPatchMesh → List Event)
    (l : List MeshId) (h : Heap) (kept : List MeshId) (ev : List Event) : Prop :=
  ∃ order : List MeshId,
    order.Perm l ∧ ev = order.flatMap (cellEvents recycle visit h) ∧
    (∀ m ∈ l, order.count m = 1) ∧
    (∀ e : Event,
      ev.count e = if e.mesh ∈ l then (cellEvents recycle visit h e.mesh).count e else 0) ∧
    (∀ m ∈ l, pending h m = true →
      ev.count (Event.freeBuffer m) + ev.count (Event.deleteMesh m) = 1) ∧
    (∀ m ∈ l, pending h m = false → m ∈ kept) ∧
    (∀ m ∈ kept, pending h m = false)

/-- A heap for the scenario of consecutive removals: the meshes 1, 2 and 4 are
pending deletion and have no water, every other mesh stays. -/
def runHeap : Heap := fun k =>
  if k = 1 ∨ k = 2 ∨ k = 4 then some { scenarioMesh with m_shouldDelete := true }
  else some scenarioMesh

/-- Terrain lists over `runHeap`: the spherical one starts with two pending meshes
and ends with a pending one, the far one ends with a pending mesh. -/
def runState : State :=
  { m_meshes := [1, 2, 3, 5, 4], m_waterMeshes := [], m_farMeshes := [3, 1],
    m_farWaterMeshes := [], m_closestSphericalDistance2 := 0, m_closestFarDistance2 := 0,
    heap := runHeap, log := [] }

/-- The heap `h1` differs from `h` at most in the `distance2` of live meshes: it
frees and revives nothing, and every mesh keeps its water handle, its
pending-deletion flag, its renderable flag and its bounding volume. -/
def SameMembers (h h1 : Heap) : Prop :=
  ∀ m, (h m = none → h1 m = none) ∧
    (∀ o, h m = some o →
      ∃ o1, h1 m = some o1 ∧ o1.m_wvbo = o.m_wvbo ∧
        o1.m_shouldDelete = o.m_shouldDelete ∧ o1.m_isRenderable = o.m_isRenderable ∧
        o1.m_aabbCenter = o.m_aabbCenter ∧
        o1.m_boundingSphereRadius = o.m_boundingSphereRadius)

/-- Whether a run of a loop was cut off by its iteration bound. -/
def ranOutOfFuel {α : Type} (r : Except Err α) : Bool :=
  match r with
  | .error .outOfFuel => true
  | _ => false

/-- In the calls `ev` the normal map of mesh `m` is recycled exactly once and the
mesh object is freed exactly once, the recycling first. -/
def RecycledOnceBeforeFree (m : MeshId) (ev : List Event) : Prop :=
  ev.count (Event.recycleNormalMap m) = 1 ∧ ev.count (Event.deleteMesh m) = 1 ∧
  ∃ pre post, ev = pre ++ Event.recycleNormalMap m :: post ∧ Event.deleteMesh m ∈ post

/-- One range-for loop of the destructor (lines 140-142, 143-145): `delete` every
entry in turn.  Deleting an object that is already deleted is the same error of
the model as reading it. -/
def deleteAll : List MeshId → Heap → List Event → Except Err (Heap × List Event)
  | [], h, log => .ok (h, log)
  | i :: rest, h, log =>
    match h i with
    | none => .error (.useAfterFree i)
    | some _ => deleteAll rest (h.set i none) (log ++ [Event.deleteMesh i])

/-- The destructor `TerrainPatchMeshManager::~TerrainPatchMeshManager`
(lines 139-146): the entries of `m_meshes`, then those of `m_farMeshes`. -/
def destructor (st : State) : Except Err State :=
  match deleteAll st.m_meshes st.heap st.log with
  | .error e => .error e
  | .ok (h1, log1) =>
    match deleteAll st.m_farMeshes h1 log1 with
    | .error e => .error e
    | .ok (h2, log2) => .ok { st with heap := h2, log := log2 }

/-- The heap after `delete` of every mesh of `l`. -/
def heapWithout (l : List MeshId) (h : Heap) : Heap :=
  fun k => if k ∈ l then none else h k

/-- Whether the object at address `m` is live after a run. -/
def liveAfter (r : Except Err State) (m : MeshId) : Bool :=
  match r with
  | .ok s => (s.heap m).isSome
  | .error _ => false

/-- The sorting scenario as the spec gives it: the three meshes in the spherical
tier, no far mesh. -/
def sphericalOnlyState : State :=
  { m_meshes := [0, 1, 2], m_waterMeshes := [], m_farMeshes := [],
    m_farWaterMeshes := [], m_closestSphericalDistance2 := 0, m_closestFarDistance2 := 0,
    heap := fun _ => some scenarioMesh, log := [] }

/-- The same three meshes in the far tier, no spherical mesh. -/
def farOnlyState : State :=
  { m_meshes := [], m_waterMeshes := [], m_farMeshes := [0, 1, 2],
    m_farWaterMeshes := [], m_closestSphericalDistance2 := 0, m_closestFarDistance2 := 0,
    heap := fun _ => some scenarioMesh, log := [] }

/-- The far distance cache of a run. -/
def closestFarOf (r : Except Err State) : Option ℚ :=
  match r with
  | .ok s => some s.m_closestFarDistance2
  | .error _ => none

/-! ## Sorting -/

theorem sortedInsert_perm {α : Type} (comp : α → α → Bool) (x : α) (l : List α) :
    (sortedInsert comp x l).Perm (x :: l) := by
  induction l with
  | nil => simp [sortedInsert]
  | cons y ys ih =>
    unfold sortedInsert
    split
    · exact List.Perm.refl _
    · exact (List.Perm.cons y ih).trans (List.Perm.swap x y ys)

theorem stdSort_perm {α : Type} (comp : α → α → Bool) (l : List α) :
    (stdSort comp l).Perm l := by
  induction l with
  | nil => simp [stdSort]
  | cons x xs ih =>
    unfold stdSort
    exact (sortedInsert_perm comp x _).trans (List.Perm.cons x ih)

theorem sortedInsert_pairwise {α : Type} (key : α → ℚ) (x : α) (l : List α)
    (hl : l.Pairwise (fun a b => key a ≤ key b)) :
    (sortedInsert (fun a b => decide (key a < key b)) x l).Pairwise
      (fun a b => key a ≤ key b) := by
  induction l with
  | nil => simp [sortedInsert]
  | cons y ys ih =>
    unfold sortedInsert
    rw [List.pairwise_cons] at hl
    by_cases hxy : key x < key y
    · simp only [hxy, decide_True, if_true]
      refine List.pairwise_cons.2 ⟨?_, List.pairwise_cons.2 hl⟩
      intro z hz
      rcases List.mem_cons.1 hz with rfl | hz
      · exact le_of_lt hxy
      · exact le_trans (le_of_lt hxy) (hl.1 z hz)
    · simp only [hxy, decide_False, if_false]
      refine List.pairwise_cons.2 ⟨?_, ih hl.2⟩
      intro z hz
      have hz2 := (sortedInsert_perm (fun a b => decide (key a < key b)) x ys).mem_iff.1 hz
      rcases List.mem_cons.1 hz2 with rfl | hz3
      · exact not_lt.1 hxy
      · exact hl.1 z hz3

theorem stdSort_pairwise {α : Type} (key : α → ℚ) (l : List α) :
    (stdSort (fun a b => decide (key a < key b)) l).Pairwise (fun a b => key a ≤ key b) := by
  induction l with
  | nil => simp [stdSort]
  | cons x xs ih =>
    unfold stdSort
    exact sortedInsert_pairwise key x _ ih

theorem closestAfter_le (D : MeshId → ℚ) (l : List MeshId) (c : ℚ) :
    closestAfter D c l ≤ c ∧ ∀ m ∈ l, closestAfter D c l ≤ D m := by
  induction l generalizing c with
  | nil => simp [closestAfter]
  | cons x xs ih =>
    have h1 := ih (if D x < c then D x else c)
    have hstep : closestAfter D c (x :: xs)
        = closestAfter D (if D x < c then D x else c) xs := rfl
    rw [hstep]
    have hmin : (if D x < c then D x else c) ≤ c ∧ (if D x < c then D x else c) ≤ D x := by
      by_cases hx : D x < c
      · simp [hx, le_of_lt hx]
      · simp [hx, not_lt.1 hx]
    refine ⟨le_trans h1.1 hmin.1, ?_⟩
    intro m hm
    rcases List.mem_cons.1 hm with rfl | hm
    · exact le_trans h1.1 hmin.2
    · exact h1.2 m hm

theorem closestAfter_mem (D : MeshId → ℚ) (l : List MeshId) (c : ℚ) :
    closestAfter D c l = c ∨ ∃ m ∈ l, closestAfter D c l = D m := by
  induction l generalizing c with
  | nil => simp [closestAfter]
  | cons x xs ih =>
    have hstep : closestAfter D c (x :: xs)
        = closestAfter D (if D x < c then D x else c) xs := rfl
    rw [hstep]
    rcases ih (if D x < c then D x else c) with h | ⟨m, hm, h⟩
    · by_cases hx : D x < c
      · right
        refine ⟨x, List.mem_cons_self _ _, ?_⟩
        rw [h]; simp [hx]
      · left
        rw [h]; simp [hx]
    · exact Or.inr ⟨m, List.mem_cons_of_mem _ hm, h⟩

theorem distanceLoop_eq (gcp : MeshId → f64v3 → f64v3) (p : f64v3) (l : List MeshId)
    (h : Heap) (c : ℚ) (hlive : ∀ m ∈ l, (h m).isSome = true) :
    distanceLoop gcp p l h c
      = .ok (heapAfter (sqDist gcp p) l h, closestAfter (sqDist gcp p) c l) := by
  induction l generalizing h c with
  | nil =>
    have hh : heapAfter (sqDist gcp p) [] h = h := by
      funext k
      simp [heapAfter]
    simp [distanceLoop, hh, closestAfter]
  | cons x xs ih =>
    have hx := hlive x (List.mem_cons_self _ _)
    obtain ⟨o, ho⟩ := Option.isSome_iff_exists.1 hx
    unfold distanceLoop
    simp only [ho]
    have hlive2 : ∀ m ∈ xs,
        ((h.set x (some { o with distance2 := selfDot ((gcp x p).sub p) })) m).isSome = true := by
      intro m hm
      unfold Heap.set
      by_cases hmx : m = x
      · simp [hmx]
      · simp [hmx, hlive m (List.mem_cons_of_mem _ hm)]
    rw [ih _ _ hlive2]
    have hheap : heapAfter (sqDist gcp p) xs
          (h.set x (some { o with distance2 := selfDot ((gcp x p).sub p) }))
        = heapAfter (sqDist gcp p) (x :: xs) h := by
      funext k
      unfold heapAfter Heap.set
      by_cases hkx : k = x
      · subst hkx
        by_cases hk : k ∈ xs
        · simp [hk, ho, sqDist]
        · simp [hk, ho, sqDist]
      · by_cases hk : k ∈ xs
        · simp [hk, hkx]
        · simp [hk, hkx]
    rw [hheap]
    rfl

theorem distance2Of_heapAfter (D : MeshId → ℚ) (l : List MeshId) (h : Heap) (m : MeshId)
    (hm : m ∈ l) (hlive : (h m).isSome = true) :
    distance2Of (heapAfter D l h) m = D m := by
  obtain ⟨o, ho⟩ := Option.isSome_iff_exists.1 hlive
  simp [distance2Of, heapAfter, hm, ho]

theorem pairwise_adjacent {α : Type} (r : α → α → Prop) (l : List α) (hl : l.Pairwise r)
    (i : Nat) (hi : i + 1 < l.length) :
    r (l.get ⟨i, Nat.lt_of_succ_lt hi⟩) (l.get ⟨i + 1, hi⟩) :=
  List.pairwise_iff_get.1 hl ⟨i, Nat.lt_of_succ_lt hi⟩ ⟨i + 1, hi⟩ (by simp [Fin.lt_def])

/-- What a sort of one tier establishes about the list `l` it works on: the sorted
list is a rearrangement, every entry stores its squared distance, and adjacent
entries are in ascending order. -/
theorem sort_core (gcp : MeshId → f64v3 → f64v3) (p : f64v3) (l : List MeshId) (h : Heap)
    (hlive : ∀ m ∈ l, (h m).isSome = true) :
    (stdSort (meshComparator (heapAfter (sqDist gcp p) l h)) l).Perm l ∧
    (∀ m ∈ stdSort (meshComparator (heapAfter (sqDist gcp p) l h)) l,
      ∃ o, heapAfter (sqDist gcp p) l h m = some o ∧
        o.distance2 = selfDot ((gcp m p).sub p)) ∧
    (∀ (i : Nat)
      (hi : i + 1 < (stdSort (meshComparator (heapAfter (sqDist gcp p) l h)) l).length),
      distance2Of (heapAfter (sqDist gcp p) l h)
          ((stdSort (meshComparator (heapAfter (sqDist gcp p) l h)) l).get
            ⟨i, Nat.lt_of_succ_lt hi⟩)
        ≤ distance2Of (heapAfter (sqDist gcp p) l h)
          ((stdSort (meshComparator (heapAfter (sqDist gcp p) l h)) l).get ⟨i + 1, hi⟩)) := by
  have hperm : (stdSort (meshComparator (heapAfter (sqDist gcp p) l h)) l).Perm l :=
    stdSort_perm _ l
  refine ⟨hperm, ?_, ?_⟩
  · intro m hm
    have hml : m ∈ l := hperm.mem_iff.1 hm
    obtain ⟨o, ho⟩ := Option.isSome_iff_exists.1 (hlive m hml)
    refine ⟨{ o with distance2 := sqDist gcp p m }, ?_, rfl⟩
    simp [heapAfter, hml, ho]
  · intro i hi
    exact pairwise_adjacent
      (fun a b => distance2Of (heapAfter (sqDist gcp p) l h) a
        ≤ distance2Of (heapAfter (sqDist gcp p) l h) b) _
      (stdSort_pairwise (distance2Of (heapAfter (sqDist gcp p) l h)) l) i hi

theorem sortSpericalMeshes_eq (gcp : MeshId → f64v3 → f64v3) (sentinel : ℚ) (p : f64v3)
    (st : State) (hs : ∀ m ∈ st.m_meshes, (st.heap m).isSome = true) :
    sortSpericalMeshes gcp sentinel p st
      = .ok { st with
          m_closestSphericalDistance2 := closestAfter (sqDist gcp p) sentinel st.m_meshes
          heap := heapAfter (sqDist gcp p) st.m_meshes st.heap
          m_meshes :=
            stdSort (meshComparator (heapAfter (sqDist gcp p) st.m_meshes st.heap))
              st.m_meshes } := by
  simp [sortSpericalMeshes, distanceLoop_eq gcp p st.m_meshes st.heap sentinel hs]

theorem sortFarMeshes_eq (gcp : MeshId → f64v3 → f64v3) (sentinel : ℚ) (p : f64v3)
    (st : State) (hf : ∀ m ∈ st.m_farMeshes, (st.heap m).isSome = true) :
    sortFarMeshes gcp sentinel p st
      = .ok { st with
          m_closestFarDistance2 := closestAfter (sqDist gcp p) sentinel st.m_farMeshes
          heap := heapAfter (sqDist gcp p) st.m_farMeshes st.heap
          m_farMeshes :=
            stdSort (meshComparator (heapAfter (sqDist gcp p) st.m_farMeshes st.heap))
              st.m_farMeshes } := by
  simp [sortFarMeshes, distanceLoop_eq gcp p st.m_farMeshes st.heap sentinel hf]

theorem closest_core (D : MeshId → ℚ) (l : List MeshId) (h : Heap) (c : ℚ)
    (hlive : ∀ m ∈ l, (h m).isSome = true) (hne : l ≠ [])
    (hb : ∀ m ∈ l, D m < c) :
    (∃ m ∈ l, closestAfter D c l = D m) ∧
    (∀ m ∈ l, closestAfter D c l ≤ D m) ∧
    (stdSort (meshComparator (heapAfter D l h)) l).head?.map (distance2Of (heapAfter D l h))
      = some (closestAfter D c l) := by
  have hle := closestAfter_le D l c
  have hex : ∃ m ∈ l, closestAfter D c l = D m := by
    rcases closestAfter_mem D l c with heq | hex
    · obtain ⟨m0, hm0⟩ := List.exists_mem_of_ne_nil l hne
      have h1 := hle.2 m0 hm0
      have h2 := hb m0 hm0
      rw [heq] at h1
      exact absurd h2 (not_lt.2 h1)
    · exact hex
  refine ⟨hex, hle.2, ?_⟩
  have hperm : (stdSort (meshComparator (heapAfter D l h)) l).Perm l := stdSort_perm _ l
  have hpw : (stdSort (meshComparator (heapAfter D l h)) l).Pairwise
      (fun a b => distance2Of (heapAfter D l h) a ≤ distance2Of (heapAfter D l h) b) :=
    stdSort_pairwise (distance2Of (heapAfter D l h)) l
  have hd : ∀ m ∈ l, distance2Of (heapAfter D l h) m = D m :=
    fun m hm => distance2Of_heapAfter D l h m hm (hlive m hm)
  cases hl1 : stdSort (meshComparator (heapAfter D l h)) l with
  | nil =>
    rw [hl1] at hperm
    exact absurd hperm.symm.eq_nil hne
  | cons a t =>
    rw [hl1] at hperm hpw
    have ha : a ∈ l := hperm.mem_iff.1 (List.mem_cons_self _ _)
    obtain ⟨m1, hm1, hm1eq⟩ := hex
    have h1 : D a ≤ D m1 := by
      rcases List.mem_cons.1 (hperm.mem_iff.2 hm1) with heq | hmt
      · rw [heq]
      · have := (List.pairwise_cons.1 hpw).1 m1 hmt
        rwa [hd a ha, hd m1 hm1] at this
    have h2 : closestAfter D c l ≤ D a := hle.2 a ha
    simp only [List.head?_cons, Option.map_some', hd a ha]
    rw [hm1eq] at h2 ⊢
    exact congrArg some (le_antisymm h1 h2)

/-- C1: when every entry of the terrain lists points to a live mesh,
`sortSpericalMeshes` (and `sortFarMeshes` on the far list) returns, the list after
the call is a permutation of the list before it, each listed mesh stores the
squared length of `getClosestPoint(p) - p`, and the stored values of adjacent
entries are in ascending order. -/
theorem sort_sorted_permutation (gcp : MeshId → f64v3 → f64v3) (sentinel : ℚ) (p : f64v3)
    (st : State)
    (hs : ∀ m ∈ st.m_meshes, (st.heap m).isSome = true)
    (hf : ∀ m ∈ st.m_farMeshes, (st.heap m).isSome = true) :
    (∃ st1, sortSpericalMeshes gcp sentinel p st = .ok st1 ∧
      st1.m_meshes.Perm st.m_meshes ∧
      (∀ m ∈ st1.m_meshes,
        ∃ o, st1.heap m = some o ∧ o.distance2 = selfDot ((gcp m p).sub p)) ∧
      (∀ (i : Nat) (hi : i + 1 < st1.m_meshes.length),
        distance2Of st1.heap (st1.m_meshes.get ⟨i, Nat.lt_of_succ_lt hi⟩)
          ≤ distance2Of st1.heap (st1.m_meshes.get ⟨i + 1, hi⟩))) ∧
    (∃ st2, sortFarMeshes gcp sentinel p st = .ok st2 ∧
      st2.m_farMeshes.Perm st.m_farMeshes ∧
      (∀ m ∈ st2.m_farMeshes,
        ∃ o, st2.heap m = some o ∧ o.distance2 = selfDot ((gcp m p).sub p)) ∧
      (∀ (i : Nat) (hi : i + 1 < st2.m_farMeshes.length),
        distance2Of st2.heap (st2.m_farMeshes.get ⟨i, Nat.lt_of_succ_lt hi⟩)
          ≤ distance2Of st2.heap (st2.m_farMeshes.get ⟨i + 1, hi⟩))) := by
  constructor
  · exact ⟨_, sortSpericalMeshes_eq gcp sentinel p st hs,
      sort_core gcp p st.m_meshes st.heap hs⟩
  · exact ⟨_, sortFarMeshes_eq gcp sentinel p st hf,
      sort_core gcp p st.m_farMeshes st.heap hf⟩

/-- C1, the scenario: meshes at distances 10, 1 and 5 from the origin end in the
order 1, 5, 10 (meshes 1, 2, 0), in both tiers. -/
theorem sort_sorted_permutation_witness :
    (∀ m ∈ scenarioState.m_meshes, (scenarioState.heap m).isSome = true) ∧
    (∀ m ∈ scenarioState.m_farMeshes, (scenarioState.heap m).isSome = true) ∧
    meshesOf (sortSpericalMeshes scenarioClosestPoint 1000000 ⟨0, 0, 0⟩ scenarioState)
      = [1, 2, 0] ∧
    farMeshesOf (sortFarMeshes scenarioClosestPoint 1000000 ⟨0, 0, 0⟩ scenarioState)
      = [1, 2, 0] ∧
    (∃ st1, sortSpericalMeshes scenarioClosestPoint 1000000 ⟨0, 0, 0⟩ scenarioState = .ok st1 ∧
      st1.m_meshes.Perm scenarioState.m_meshes ∧
      (∀ m ∈ st1.m_meshes, ∃ o, st1.heap m = some o ∧
        o.distance2 = selfDot ((scenarioClosestPoint m ⟨0, 0, 0⟩).sub ⟨0, 0, 0⟩)) ∧
      (∀ (i : Nat) (hi : i + 1 < st1.m_meshes.length),
        distance2Of st1.heap (st1.m_meshes.get ⟨i, Nat.lt_of_succ_lt hi⟩)
          ≤ distance2Of st1.heap (st1.m_meshes.get ⟨i + 1, hi⟩))) :=
  ⟨by decide, by decide, by decide!, by decide!,
    (sort_sorted_permutation scenarioClosestPoint 1000000 ⟨0, 0, 0⟩ scenarioState
      (by decide) (by decide)).1⟩

/-- C2: for a non-empty spherical terrain list of live meshes whose squared
distances are all below `DOUBLE_SENTINEL`, `sortSpericalMeshes` returns, and
afterwards the cache `m_closestSphericalDistance2` is the squared distance of some
listed mesh, is at most the squared distance of every listed mesh, and is the
`distance2` of the first entry of the sorted list, whatever the far lists hold.
The same holds for `sortFarMeshes`, the far terrain list and
`m_closestFarDistance2`, whatever the spherical lists hold. -/
theorem sort_closest_is_minimum (gcp : MeshId → f64v3 → f64v3) (sentinel : ℚ) (p : f64v3)
    (st : State) :
    ((∀ m ∈ st.m_meshes, (st.heap m).isSome = true) → st.m_meshes ≠ [] →
      (∀ m ∈ st.m_meshes, selfDot ((gcp m p).sub p) < sentinel) →
      ∃ st1, sortSpericalMeshes gcp sentinel p st = .ok st1 ∧
        (∃ m ∈ st.m_meshes, st1.m_closestSphericalDistance2 = selfDot ((gcp m p).sub p)) ∧
        (∀ m ∈ st.m_meshes, st1.m_closestSphericalDistance2 ≤ selfDot ((gcp m p).sub p)) ∧
        st1.m_meshes.head?.map (distance2Of st1.heap)
          = some st1.m_closestSphericalDistance2) ∧
    ((∀ m ∈ st.m_farMeshes, (st.heap m).isSome = true) → st.m_farMeshes ≠ [] →
      (∀ m ∈ st.m_farMeshes, selfDot ((gcp m p).sub p) < sentinel) →
      ∃ st2, sortFarMeshes gcp sentinel p st = .ok st2 ∧
        (∃ m ∈ st.m_farMeshes, st2.m_closestFarDistance2 = selfDot ((gcp m p).sub p)) ∧
        (∀ m ∈ st.m_farMeshes, st2.m_closestFarDistance2 ≤ selfDot ((gcp m p).sub p)) ∧
        st2.m_farMeshes.head?.map (distance2Of st2.heap)
          = some st2.m_closestFarDistance2) := by
  constructor
  · intro hs hsne hsb
    exact ⟨_, sortSpericalMeshes_eq gcp sentinel p st hs,
      closest_core (sqDist gcp p) st.m_meshes st.heap sentinel hs hsne hsb⟩
  · intro hf hfne hfb
    exact ⟨_, sortFarMeshes_eq gcp sentinel p st hf,
      closest_core (sqDist gcp p) st.m_farMeshes st.heap sentinel hf hfne hfb⟩

/-- C2, the scenario: three spherical meshes at distances 10, 1 and 5 from the
origin and no far mesh; after `sortSpericalMeshes` the list is in the order
1, 5, 10 and the cache is 1.  With the same three meshes in the far tier and no
spherical mesh, `sortFarMeshes` gives the far cache 1. -/
theorem sort_closest_is_minimum_witness :
    meshesOf (sortSpericalMeshes scenarioClosestPoint 1000000 ⟨0, 0, 0⟩ sphericalOnlyState)
      = [1, 2, 0] ∧
    closestSphericalOf
        (sortSpericalMeshes scenarioClosestPoint 1000000 ⟨0, 0, 0⟩ sphericalOnlyState)
      = some 1 ∧
    closestFarOf (sortFarMeshes scenarioClosestPoint 1000000 ⟨0, 0, 0⟩ farOnlyState)
      = some 1 ∧
    (∃ st1,
      sortSpericalMeshes scenarioClosestPoint 1000000 ⟨0, 0, 0⟩ sphericalOnlyState
        = .ok st1 ∧
      (∃ m ∈ sphericalOnlyState.m_meshes, st1.m_closestSphericalDistance2
        = selfDot ((scenarioClosestPoint m ⟨0, 0, 0⟩).sub ⟨0, 0, 0⟩)) ∧
      (∀ m ∈ sphericalOnlyState.m_meshes, st1.m_closestSphericalDistance2
        ≤ selfDot ((scenarioClosestPoint m ⟨0, 0, 0⟩).sub ⟨0, 0, 0⟩)) ∧
      st1.m_meshes.head?.map (distance2Of st1.heap)
        = some st1.m_closestSphericalDistance2) ∧
    (∃ st2, sortFarMeshes scenarioClosestPoint 1000000 ⟨0, 0, 0⟩ farOnlyState = .ok st2 ∧
      (∃ m ∈ farOnlyState.m_farMeshes, st2.m_closestFarDistance2
        = selfDot ((scenarioClosestPoint m ⟨0, 0, 0⟩).sub ⟨0, 0, 0⟩)) ∧
      (∀ m ∈ farOnlyState.m_farMeshes, st2.m_closestFarDistance2
        ≤ selfDot ((scenarioClosestPoint m ⟨0, 0, 0⟩).sub ⟨0, 0, 0⟩)) ∧
      st2.m_farMeshes.head?.map (distance2Of st2.heap)
        = some st2.m_closestFarDistance2) :=
  ⟨by decide!, by decide!, by decide!,
    (sort_closest_is_minimum scenarioClosestPoint 1000000 ⟨0, 0, 0⟩ sphericalOnlyState).1
      (by decide) (by decide) (by decide!),
    (sort_closest_is_minimum scenarioClosestPoint 1000000 ⟨0, 0, 0⟩ farOnlyState).2
      (by decide) (by decide) (by decide!)⟩

/-! ## The index-cursor sweep -/

theorem swapRemove_append (pre post : List MeshId) (m : MeshId) :
    ∃ post2, swapRemove (pre ++ m :: post) pre.length = pre ++ post2 ∧ post2.Perm post := by
  rcases List.eq_nil_or_concat post with hp | ⟨mid, b, hp⟩
  · subst hp
    refine ⟨[], ?_, List.Perm.refl _⟩
    simp [swapRemove]
  · rw [List.concat_eq_append] at hp
    subst hp
    refine ⟨b :: mid, ?_, (List.perm_append_singleton b mid).symm⟩
    have hlast : (pre ++ m :: (mid ++ [b])).getLast? = some b := by
      have e : pre ++ m :: (mid ++ [b]) = (pre ++ m :: mid) ++ [b] := by simp
      rw [e, List.getLast?_append]
      simp
    have hdrop : (b :: (mid ++ [b])).dropLast = b :: mid := by
      have e : b :: (mid ++ [b]) = (b :: mid) ++ [b] := by simp
      rw [e, List.dropLast_concat]
    unfold swapRemove
    rw [hlast]
    simp [hdrop]

theorem heapTarget_nil (h : Heap) : heapTarget [] h = h := by
  funext k
  simp [heapTarget]


theorem Heap.set_same (h : Heap) (m : MeshId) (v : Option TerrainPatchMesh) :
    h.set m v m = v := by
  simp [Heap.set]

theorem Heap.set_other (h : Heap) (m k : MeshId) (v : Option TerrainPatchMesh) (hk : k ≠ m) :
    h.set m v k = h k := by
  simp [Heap.set, hk]

theorem heapTarget_step (h : Heap) (m : MeshId) (post post2 : List MeshId)
    (hm : m ∉ post) (hperm : post2.Perm post) :
    heapTarget post2 (h.set m (sweepCell (h m))) = heapTarget (m :: post) h := by
  funext k
  unfold heapTarget
  by_cases hk : k = m
  · subst hk
    have : k ∉ post2 := fun hc => hm (hperm.mem_iff.1 hc)
    simp [this, Heap.set_same]
  · have hiff : k ∈ post2 ↔ k ∈ post := hperm.mem_iff
    by_cases hkp : k ∈ post
    · simp [hiff.2 hkp, hkp, hk, Heap.set_other]
    · have : k ∉ post2 := fun hc => hkp (hiff.1 hc)
      simp [this, hkp, hk, Heap.set_other]

theorem sweepLoop_delete (recycle : Bool) (visit : MeshId → TerrainPatchMesh → List Event)
    (fuel i : Nat) (l : List MeshId) (h : Heap) (log : List Event) (m : MeshId)
    (o : TerrainPatchMesh) (hget : l[i]? = some m) (ho : h m = some o)
    (hdel : o.m_shouldDelete = true) :
    sweepLoop recycle visit (fuel + 1) i l h log
      = sweepLoop recycle visit fuel i (swapRemove l i) (h.set m (sweepCell (h m)))
          (log ++ cellEvents recycle visit h m) := by
  rw [sweepLoop]
  simp only [hget, ho, hdel, if_true, sweepCell, cellEvents, freeBuffer]
  by_cases hw : o.m_wvbo = 0 <;> cases recycle <;> simp [hw]

theorem sweepLoop_keep (recycle : Bool) (visit : MeshId → TerrainPatchMesh → List Event)
    (fuel i : Nat) (l : List MeshId) (h : Heap) (log : List Event) (m : MeshId)
    (o : TerrainPatchMesh) (hget : l[i]? = some m) (ho : h m = some o)
    (hdel : o.m_shouldDelete = false) :
    sweepLoop recycle visit (fuel + 1) i l h log
      = sweepLoop recycle visit fuel (i + 1) l h (log ++ cellEvents recycle visit h m) := by
  rw [sweepLoop]
  simp [hget, ho, hdel, cellEvents]

theorem sweepLoop_spec (recycle : Bool) (visit : MeshId → TerrainPatchMesh → List Event) :
    ∀ (fuel : Nat) (pre rest : List MeshId) (h : Heap) (log : List Event),
      rest.Nodup → (∀ m ∈ rest, (h m).isSome = true) → rest.length ≤ fuel →
      ∃ (kept order : List MeshId),
        sweepLoop recycle visit fuel pre.length (pre ++ rest) h log
          = .ok (pre ++ kept, heapTarget rest h,
              log ++ order.flatMap (cellEvents recycle visit h)) ∧
        order.Perm rest ∧ kept.Perm (rest.filter (fun m => !pending h m)) := by
  intro fuel
  induction fuel with
  | zero =>
    intro pre rest h log _ _ hfuel
    have hr : rest = [] := List.eq_nil_of_length_eq_zero (Nat.le_zero.1 hfuel)
    subst hr
    exact ⟨[], [], by simp [sweepLoop, heapTarget_nil], List.Perm.refl _, by simp⟩
  | succ n ih =>
    intro pre rest h log hnd hlive hfuel
    cases rest with
    | nil =>
      exact ⟨[], [], by simp [sweepLoop, heapTarget_nil], List.Perm.refl _, by simp⟩
    | cons m post =>
      have hget : (pre ++ m :: post)[pre.length]? = some m := by
        rw [List.getElem?_append_right (Nat.le_refl _)]
        simp
      obtain ⟨o, ho⟩ := Option.isSome_iff_exists.1 (hlive m (List.mem_cons_self _ _))
      have hmp : m ∉ post := (List.nodup_cons.1 hnd).1
      have hndp : post.Nodup := (List.nodup_cons.1 hnd).2
      have hlen : post.length ≤ n := Nat.le_of_succ_le_succ hfuel
      cases hdel : o.m_shouldDelete with
      | true =>
        obtain ⟨post2, hsw, hperm2⟩ := swapRemove_append pre post m
        rw [sweepLoop_delete recycle visit n _ _ h log m o hget ho hdel, hsw]
        have hne : ∀ k ∈ post2, k ≠ m := fun k hk hkm => hmp (hkm ▸ hperm2.mem_iff.1 hk)
        have hlive2 : ∀ k ∈ post2, ((h.set m (sweepCell (h m))) k).isSome = true := by
          intro k hk
          rw [Heap.set_other _ _ _ _ (hne k hk)]
          exact hlive k (List.mem_cons_of_mem _ (hperm2.mem_iff.1 hk))
        obtain ⟨kept, order, heq, hord, hkept⟩ :=
          ih pre post2 (h.set m (sweepCell (h m))) (log ++ cellEvents recycle visit h m)
            (hperm2.nodup_iff.2 hndp) hlive2 (hperm2.length_eq ▸ hlen)
        refine ⟨kept, m :: order, ?_, List.Perm.cons m (hord.trans hperm2), ?_⟩
        · rw [heq, heapTarget_step h m post post2 hmp hperm2]
          have hev : order.flatMap (cellEvents recycle visit (h.set m (sweepCell (h m))))
              = order.flatMap (cellEvents recycle visit h) := by
            apply List.flatMap_congr
            intro k hk
            have hkm : k ≠ m := hne k (hord.mem_iff.1 hk)
            simp [cellEvents, Heap.set_other _ _ _ _ hkm]
          rw [hev]
          simp [List.append_assoc]
        · have hpm : pending h m = true := by simp [pending, ho, hdel]
          have hf1 : (m :: post).filter (fun k => !pending h k)
              = post.filter (fun k => !pending h k) := by
            simp [List.filter_cons, hpm]
          have hf2 : post2.filter (fun k => !pending (h.set m (sweepCell (h m))) k)
              = post2.filter (fun k => !pending h k) := by
            apply List.filter_congr
            intro k hk
            simp [pending, Heap.set_other _ _ _ _ (hne k hk)]
          rw [hf1]
          rw [hf2] at hkept
          exact hkept.trans (hperm2.filter _)
      | false =>
        rw [sweepLoop_keep recycle visit n _ _ h log m o hget ho hdel]
        have hpre : pre ++ m :: post = (pre ++ [m]) ++ post := by simp
        have hlen2 : pre.length + 1 = (pre ++ [m]).length := by simp
        rw [hpre, hlen2]
        obtain ⟨kept, order, heq, hord, hkept⟩ :=
          ih (pre ++ [m]) post h (log ++ cellEvents recycle visit h m) hndp
            (fun k hk => hlive k (List.mem_cons_of_mem _ hk)) hlen
        refine ⟨m :: kept, m :: order, ?_, List.Perm.cons m hord, ?_⟩
        · rw [heq]
          have hcell : sweepCell (h m) = h m := by simp [sweepCell, ho, hdel]
          have hset : h.set m (sweepCell (h m)) = h := by
            funext k
            by_cases hk : k = m
            · subst hk; simp [Heap.set_same, hcell]
            · simp [Heap.set_other _ _ _ _ hk]
          have ht := heapTarget_step h m post post hmp (List.Perm.refl _)
          rw [hset] at ht
          rw [ht]
          simp [List.append_assoc]
        · have hpm : pending h m = false := by simp [pending, ho, hdel]
          simp only [List.filter_cons, hpm, Bool.not_false, if_true]
          exact List.Perm.cons m hkept

theorem sweep_spec (recycle : Bool) (visit : MeshId → TerrainPatchMesh → List Event)
    (l : List MeshId) (h : Heap) (log : List Event) (hok : ListOk l h) :
    ∃ (kept order : List MeshId),
      sweep recycle visit l h log
        = .ok (kept, heapTarget l h, log ++ order.flatMap (cellEvents recycle visit h)) ∧
      order.Perm l ∧ kept.Perm (l.filter (fun m => !pending h m)) := by
  obtain ⟨kept, order, heq, hord, hkept⟩ :=
    sweepLoop_spec recycle visit l.length [] l h log hok.1 hok.2 (Nat.le_refl _)
  exact ⟨kept, order, by simpa [sweep] using heq, hord, hkept⟩

theorem sweptList_of_perm (l : List MeshId) (h : Heap) (kept : List MeshId)
    (hkept : kept.Perm (l.filter (fun m => !pending h m))) : SweptList l h kept := by
  have hlen : kept.length + l.countP (pending h) = l.length := by
    rw [hkept.length_eq, ← List.countP_eq_length_filter,
      List.length_eq_countP_add_countP (pending h) l]
    have : List.countP (fun m => !pending h m) l
        = List.countP (fun a => decide ¬pending h a = true) l := by
      apply List.countP_congr
      intro a _
      simp
    omega
  exact ⟨hkept, hlen, fun h1 => by omega⟩

theorem sphericalWaterPass_spec (st : State) (hok : ListOk st.m_waterMeshes st.heap) :
    ∃ (kept order : List MeshId),
      sphericalWaterPass st
        = .ok { st with
            m_waterMeshes := kept
            heap := heapTarget st.m_waterMeshes st.heap
            log := st.log ++ order.flatMap (cellEvents false waterVisit st.heap) } ∧
      order.Perm st.m_waterMeshes ∧
      kept.Perm (st.m_waterMeshes.filter (fun m => !pending st.heap m)) := by
  obtain ⟨kept, order, heq, hord, hkept⟩ :=
    sweep_spec false waterVisit st.m_waterMeshes st.heap st.log hok
  by_cases hlen : st.m_waterMeshes.length ≠ 0
  · exact ⟨kept, order, by simp [sphericalWaterPass, hlen, heq], hord, hkept⟩
  · have hnil : st.m_waterMeshes = [] := List.eq_nil_of_length_eq_zero (not_not.1 hlen)
    refine ⟨[], [], ?_, by simp [hnil], by simp [hnil]⟩
    cases st
    simp only at hnil
    subst hnil
    simp [sphericalWaterPass, heapTarget_nil]

theorem sphericalTerrainPass_spec (ext : Externals) (relativePos : f64v3) (orientation : f64q)
    (alpha : ℚ) (st : State) (hok : ListOk st.m_meshes st.heap) :
    ∃ (kept order : List MeshId),
      sphericalTerrainPass ext relativePos orientation alpha st
        = .ok { st with
            m_meshes := kept
            heap := heapTarget st.m_meshes st.heap
            log := st.log ++ order.flatMap (cellEvents true
              (sphericalVisit ext relativePos (ext.rotate (ext.inverse orientation) relativePos)
                orientation (terrainDrawSkirts alpha)) st.heap) } ∧
      order.Perm st.m_meshes ∧
      kept.Perm (st.m_meshes.filter (fun m => !pending st.heap m)) := by
  obtain ⟨kept, order, heq, hord, hkept⟩ :=
    sweep_spec true
      (sphericalVisit ext relativePos (ext.rotate (ext.inverse orientation) relativePos)
        orientation (terrainDrawSkirts alpha)) st.m_meshes st.heap st.log hok
  by_cases hlen : st.m_meshes.length ≠ 0
  · exact ⟨kept, order, by simp [sphericalTerrainPass, hlen, heq], hord, hkept⟩
  · have hnil : st.m_meshes = [] := List.eq_nil_of_length_eq_zero (not_not.1 hlen)
    refine ⟨[], [], ?_, by simp [hnil], by simp [hnil]⟩
    cases st
    simp only at hnil
    subst hnil
    simp [sphericalTerrainPass, heapTarget_nil]

theorem farWaterPass_spec (st : State) (hok : ListOk st.m_farWaterMeshes st.heap) :
    ∃ (kept order : List MeshId),
      farWaterPass st
        = .ok { st with
            m_farWaterMeshes := kept
            heap := heapTarget st.m_farWaterMeshes st.heap
            log := st.log ++ order.flatMap (cellEvents false waterVisit st.heap) } ∧
      order.Perm st.m_farWaterMeshes ∧
      kept.Perm (st.m_farWaterMeshes.filter (fun m => !pending st.heap m)) := by
  obtain ⟨kept, order, heq, hord, hkept⟩ :=
    sweep_spec false waterVisit st.m_farWaterMeshes st.heap st.log hok
  by_cases hlen : st.m_farWaterMeshes.length ≠ 0
  · exact ⟨kept, order, by simp [farWaterPass, hlen, heq], hord, hkept⟩
  · have hnil : st.m_farWaterMeshes = [] := List.eq_nil_of_length_eq_zero (not_not.1 hlen)
    refine ⟨[], [], ?_, by simp [hnil], by simp [hnil]⟩
    cases st
    simp only at hnil
    subst hnil
    simp [farWaterPass, heapTarget_nil]

theorem farTerrainPass_spec (ext : Externals) (relativePos : f64v3) (alpha : ℚ) (st : State)
    (hok : ListOk st.m_farMeshes st.heap) :
    ∃ (kept order : List MeshId),
      farTerrainPass ext relativePos alpha st
        = .ok { st with
            m_farMeshes := kept
            heap := heapTarget st.m_farMeshes st.heap
            log := st.log ++ order.flatMap (cellEvents true
              (farVisit ext relativePos (terrainDrawSkirts alpha)) st.heap) } ∧
      order.Perm st.m_farMeshes ∧
      kept.Perm (st.m_farMeshes.filter (fun m => !pending st.heap m)) := by
  obtain ⟨kept, order, heq, hord, hkept⟩ :=
    sweep_spec true (farVisit ext relativePos (terrainDrawSkirts alpha))
      st.m_farMeshes st.heap st.log hok
  by_cases hlen : st.m_farMeshes.length ≠ 0
  · exact ⟨kept, order, by simp [farTerrainPass, hlen, heq], hord, hkept⟩
  · have hnil : st.m_farMeshes = [] := List.eq_nil_of_length_eq_zero (not_not.1 hlen)
    refine ⟨[], [], ?_, by simp [hnil], by simp [hnil]⟩
    cases st
    simp only at hnil
    subst hnil
    simp [farTerrainPass, heapTarget_nil]

/-- C4: for each of the four lists, when it holds no mesh twice and only live
meshes, its sweep returns, and the list after the sweep is a permutation of the
entries of the original list that were not pending deletion; its length is the
original length minus the number of pending entries, so one pending entry makes
it shorter by exactly one. -/
theorem sweep_keeps_exactly_unflagged (ext : Externals) (relativePos : f64v3)
    (orientation : f64q) (alpha : ℚ) (st : State)
    (hw : ListOk st.m_waterMeshes st.heap) (ht : ListOk st.m_meshes st.heap)
    (hfw : ListOk st.m_farWaterMeshes st.heap) (hft : ListOk st.m_farMeshes st.heap) :
    (∃ st1, sphericalWaterPass st = .ok st1 ∧
      SweptList st.m_waterMeshes st.heap st1.m_waterMeshes) ∧
    (∃ st1, sphericalTerrainPass ext relativePos orientation alpha st = .ok st1 ∧
      SweptList st.m_meshes st.heap st1.m_meshes) ∧
    (∃ st1, farWaterPass st = .ok st1 ∧
      SweptList st.m_farWaterMeshes st.heap st1.m_farWaterMeshes) ∧
    (∃ st1, farTerrainPass ext relativePos alpha st = .ok st1 ∧
      SweptList st.m_farMeshes st.heap st1.m_farMeshes) := by
  refine ⟨?_, ?_, ?_, ?_⟩
  · obtain ⟨kept, order, heq, _, hkept⟩ := sphericalWaterPass_spec st hw
    exact ⟨_, heq, sweptList_of_perm _ _ _ hkept⟩
  · obtain ⟨kept, order, heq, _, hkept⟩ :=
      sphericalTerrainPass_spec ext relativePos orientation alpha st ht
    exact ⟨_, heq, sweptList_of_perm _ _ _ hkept⟩
  · obtain ⟨kept, order, heq, _, hkept⟩ := farWaterPass_spec st hfw
    exact ⟨_, heq, sweptList_of_perm _ _ _ hkept⟩
  · obtain ⟨kept, order, heq, _, hkept⟩ := farTerrainPass_spec ext relativePos alpha st hft
    exact ⟨_, heq, sweptList_of_perm _ _ _ hkept⟩

/-- C4, the scenarios: a pending mesh that is the last entry (spherical water
list), the first of several (spherical terrain list), the second of two (far water
list) and the only entry (far terrain list) each leave a list shorter by one. -/
theorem sweep_keeps_exactly_unflagged_witness :
    listsOf (sphericalWaterPass sweepState) = ([1, 3, 4, 5], [3, 4], [2], [6, 2]) ∧
    listsOf (sphericalTerrainPass scenarioExt ⟨0, 0, 0⟩ ⟨0, 0, 0, 1⟩ 1 sweepState)
      = ([5, 3, 4], [3, 4, 1], [2], [6, 2]) ∧
    listsOf (farWaterPass sweepState) = ([1, 3, 4, 5], [3, 4, 1], [2], [6]) ∧
    listsOf (farTerrainPass scenarioExt ⟨0, 0, 0⟩ 1 sweepState)
      = ([1, 3, 4, 5], [3, 4, 1], [], [6, 2]) ∧
    ((∃ st1, sphericalWaterPass sweepState = .ok st1 ∧
      SweptList sweepState.m_waterMeshes sweepState.heap st1.m_waterMeshes) ∧
    (∃ st1, sphericalTerrainPass scenarioExt ⟨0, 0, 0⟩ ⟨0, 0, 0, 1⟩ 1 sweepState = .ok st1 ∧
      SweptList sweepState.m_meshes sweepState.heap st1.m_meshes) ∧
    (∃ st1, farWaterPass sweepState = .ok st1 ∧
      SweptList sweepState.m_farWaterMeshes sweepState.heap st1.m_farWaterMeshes) ∧
    (∃ st1, farTerrainPass scenarioExt ⟨0, 0, 0⟩ 1 sweepState = .ok st1 ∧
      SweptList sweepState.m_farMeshes sweepState.heap st1.m_farMeshes)) :=
  ⟨by decide!, by decide!, by decide!, by decide!,
    sweep_keeps_exactly_unflagged scenarioExt ⟨0, 0, 0⟩ ⟨0, 0, 0, 1⟩ 1 sweepState
      ⟨by decide, by decide⟩ ⟨by decide, by decide⟩ ⟨by decide, by decide⟩
      ⟨by decide, by decide⟩⟩

/-! ## Counting the calls of a sweep -/

theorem waterVisit_draws : VisitDraws waterVisit := by
  intro k o e he
  simp [waterVisit] at he
  exact Or.inl he

theorem sphericalVisit_draws (ext : Externals) (relativePos rotpos : f64v3) (q : f64q)
    (s : Bool) : VisitDraws (sphericalVisit ext relativePos rotpos q s) := by
  intro k o e he
  unfold sphericalVisit at he
  simp only at he
  split at he
  · split at he
    · simp at he
      exact Or.inr ⟨s, he⟩
    · simp at he
  · simp at he

theorem farVisit_draws (ext : Externals) (relativePos : f64v3) (s : Bool) :
    VisitDraws (farVisit ext relativePos s) := by
  intro k o e he
  unfold farVisit at he
  simp only at he
  split at he
  · split at he
    · simp at he
      exact Or.inr ⟨s, he⟩
    · simp at he
  · simp at he

theorem VisitDraws.own {visit : MeshId → TerrainPatchMesh → List Event}
    (hv : VisitDraws visit) : VisitOwn visit := by
  intro k o e he
  rcases hv k o e he with h | ⟨s, h⟩ <;> simp [h, Event.mesh]

theorem cellEvents_mesh (recycle : Bool) (visit : MeshId → TerrainPatchMesh → List Event)
    (hv : VisitOwn visit) (h : Heap) (k : MeshId) :
    ∀ e ∈ cellEvents recycle visit h k, e.mesh = k := by
  intro e he
  unfold cellEvents at he
  cases hk : h k with
  | none => simp [hk] at he
  | some o =>
    simp only [hk] at he
    by_cases hd : o.m_shouldDelete = true
    · simp only [hd, if_true] at he
      rcases List.mem_append.1 he with h1 | h1
      · cases recycle
        · simp at h1
        · simp at h1; simp [h1, Event.mesh]
      · simp at h1
        by_cases hw : o.m_wvbo = 0 <;> simp [hw] at h1 <;> simp [h1, Event.mesh]
    · simp only [hd] at he
      exact hv k o e he

theorem count_flatMap_own (f : MeshId → List Event) (e : Event) (l : List MeshId)
    (hnd : l.Nodup) (hown : ∀ k ∈ l, ∀ x ∈ f k, x.mesh = k) :
    (l.flatMap f).count e = if e.mesh ∈ l then (f e.mesh).count e else 0 := by
  induction l with
  | nil => simp
  | cons a t ih =>
    have hat : a ∉ t := (List.nodup_cons.1 hnd).1
    have iht := ih (List.nodup_cons.1 hnd).2 (fun k hk => hown k (List.mem_cons_of_mem _ hk))
    rw [List.flatMap_cons, List.count_append, iht]
    by_cases hea : e.mesh = a
    · have het : e.mesh ∉ t := hea ▸ hat
      simp [hea, hat]
    · have h0 : (f a).count e = 0 := by
        apply List.count_eq_zero.2
        intro hmem
        exact hea (hown a (List.mem_cons_self _ _) e hmem)
      have hne : ¬ (e.mesh = a ∨ e.mesh ∈ t) ↔ e.mesh ∉ t := by
        constructor
        · intro hh ht; exact hh (Or.inr ht)
        · intro hh hc; rcases hc with hc | hc
          · exact hea hc
          · exact hh hc
      by_cases het : e.mesh ∈ t
      · simp [h0, het, hea]
      · simp [h0, het, hea]

/-- The number of times a call `e` is made by a sweep over the duplicate-free
list `l`, in whatever order the entries are met. -/
theorem count_sweep_events (recycle : Bool) (visit : MeshId → TerrainPatchMesh → List Event)
    (hv : VisitOwn visit) (h : Heap) (l order : List MeshId) (hnd : l.Nodup)
    (hord : order.Perm l) (e : Event) :
    (order.flatMap (cellEvents recycle visit h)).count e
      = if e.mesh ∈ l then (cellEvents recycle visit h e.mesh).count e else 0 := by
  rw [count_flatMap_own _ e order (hord.nodup_iff.2 hnd)
    (fun k _ => cellEvents_mesh recycle visit hv h k)]
  by_cases hm : e.mesh ∈ l
  · simp [hm, hord.mem_iff.2 hm]
  · have : e.mesh ∉ order := fun hc => hm (hord.mem_iff.1 hc)
    simp [hm, this]

theorem countP_pending_single (W : List MeshId) (h : Heap) (m : MeshId) (hnd : W.Nodup)
    (hmem : m ∈ W) (hp : pending h m = true)
    (hothers : ∀ k ∈ W, k ≠ m → pending h k = false) :
    W.countP (pending h) = 1 := by
  have hcongr : W.countP (pending h) = W.countP (fun k => k == m) := by
    apply List.countP_congr
    intro k hk
    by_cases hkm : k = m
    · subst hkm; simp [hp]
    · simp [hothers k hk hkm, hkm]
  rw [hcongr]
  exact List.count_eq_one_of_mem hnd hmem

theorem water_core (W kept order : List MeshId) (h : Heap) (m : MeshId) (o : TerrainPatchMesh)
    (hok : ListOk W h) (hmem : m ∈ W) (hm : h m = some o) (hw : o.m_wvbo ≠ 0)
    (hd : o.m_shouldDelete = true) (hord : order.Perm W)
    (hkept : kept.Perm (W.filter (fun k => !pending h k))) :
    heapTarget W h m = some { o with m_wvbo := 0 } ∧
    (order.flatMap (cellEvents false waterVisit h)).count (Event.deleteMesh m) = 0 ∧
    m ∉ kept ∧
    ((∀ k ∈ W, k ≠ m → pending h k = false) → kept.length + 1 = W.length) := by
  have hp : pending h m = true := by simp [pending, hm, hd]
  refine ⟨?_, ?_, ?_, ?_⟩
  · simp [heapTarget, hmem, hm, sweepCell, hd, hw]
  · rw [count_sweep_events false waterVisit waterVisit_draws.own h W order hok.1 hord]
    simp [Event.mesh, hmem, cellEvents, hm, hd, hw]
  · intro hc
    have := hkept.mem_iff.1 hc
    simp [hp] at this
  · intro hothers
    have h1 := (sweptList_of_perm W h kept hkept).2.2
    exact h1 (countP_pending_single W h m hok.1 hmem hp hothers)

/-- C5: for a live mesh `m` that holds a water buffer and is pending deletion, the
water pass of its tier, run alone over a duplicate-free water list of live meshes,
returns; afterwards the handle of `m` is empty, the mesh object is not freed, `m`
is no longer in the water list (which is one shorter when `m` was its only pending
entry), and the terrain lists are unchanged, so a terrain list that held `m` still
holds it. -/
theorem water_pass_alone (st : State) (m : MeshId) (o : TerrainPatchMesh)
    (hm : st.heap m = some o) (hw : o.m_wvbo ≠ 0) (hd : o.m_shouldDelete = true) :
    (ListOk st.m_waterMeshes st.heap → m ∈ st.m_waterMeshes →
      ∃ st1, sphericalWaterPass st = .ok st1 ∧
        WaterOnlyEffect st st1 m st.m_waterMeshes st1.m_waterMeshes ∧
        st1.m_farWaterMeshes = st.m_farWaterMeshes ∧
        (m ∈ st.m_meshes → m ∈ st1.m_meshes)) ∧
    (ListOk st.m_farWaterMeshes st.heap → m ∈ st.m_farWaterMeshes →
      ∃ st1, farWaterPass st = .ok st1 ∧
        WaterOnlyEffect st st1 m st.m_farWaterMeshes st1.m_farWaterMeshes ∧
        st1.m_waterMeshes = st.m_waterMeshes ∧
        (m ∈ st.m_farMeshes → m ∈ st1.m_farMeshes)) := by
  constructor
  · intro hok hmem
    obtain ⟨kept, order, heq, hord, hkept⟩ := sphericalWaterPass_spec st hok
    obtain ⟨c1, c2, c3, c4⟩ :=
      water_core st.m_waterMeshes kept order st.heap m o hok hmem hm hw hd hord hkept
    refine ⟨_, heq, ⟨⟨_, c1, rfl⟩, ?_, c3, c4, rfl, rfl⟩, rfl, fun hx => hx⟩
    simp [List.count_append, c2]
  · intro hok hmem
    obtain ⟨kept, order, heq, hord, hkept⟩ := farWaterPass_spec st hok
    obtain ⟨c1, c2, c3, c4⟩ :=
      water_core st.m_farWaterMeshes kept order st.heap m o hok hmem hm hw hd hord hkept
    refine ⟨_, heq, ⟨⟨_, c1, rfl⟩, ?_, c3, c4, rfl, rfl⟩, rfl, fun hx => hx⟩
    simp [List.count_append, c2]

/-- C5, the scenario: mesh 1 holds water buffer 7 and is pending deletion; the
water pass alone empties its handle and takes it out of the water list only. -/
theorem water_pass_alone_witness :
    (∃ st1, sphericalWaterPass sweepState = .ok st1 ∧
      WaterOnlyEffect sweepState st1 1 sweepState.m_waterMeshes st1.m_waterMeshes ∧
      st1.m_farWaterMeshes = sweepState.m_farWaterMeshes ∧
      ((1 : MeshId) ∈ sweepState.m_meshes → (1 : MeshId) ∈ st1.m_meshes)) ∧
    (∃ st1, farWaterPass farSweepState = .ok st1 ∧
      WaterOnlyEffect farSweepState st1 1 farSweepState.m_farWaterMeshes
        st1.m_farWaterMeshes ∧
      st1.m_waterMeshes = farSweepState.m_waterMeshes ∧
      ((1 : MeshId) ∈ farSweepState.m_farMeshes → (1 : MeshId) ∈ st1.m_farMeshes)) :=
  ⟨(water_pass_alone sweepState 1 { scenarioMesh with m_wvbo := 7, m_shouldDelete := true }
      (by decide) (by decide) (by decide)).1 ⟨by decide, by decide⟩ (by decide),
    (water_pass_alone farSweepState 1
      { scenarioMesh with m_wvbo := 7, m_shouldDelete := true }
      (by decide) (by decide) (by decide)).2 ⟨by decide, by decide⟩ (by decide)⟩

/-! ## addMesh -/

/-- C7: for a live mesh, `addMesh(mesh, isSpherical)` returns; it appends the mesh
to the terrain list of the chosen tier (whether or not the mesh is already there),
appends it to that tier's water list exactly when the water handle is not empty,
sets the renderable flag and changes no other member of the mesh, and leaves the
two lists of the other tier and every other mesh unchanged. -/
theorem addMesh_appends (mesh : MeshId) (isSpherical : Bool) (st : State)
    (o : TerrainPatchMesh) (hm : st.heap mesh = some o) :
    ∃ st1, addMesh mesh isSpherical st = .ok st1 ∧
      (isSpherical = true →
        Appended mesh o st.m_meshes st.m_waterMeshes st1.m_meshes st1.m_waterMeshes ∧
        st1.m_farMeshes = st.m_farMeshes ∧ st1.m_farWaterMeshes = st.m_farWaterMeshes) ∧
      (isSpherical = false →
        Appended mesh o st.m_farMeshes st.m_farWaterMeshes st1.m_farMeshes
          st1.m_farWaterMeshes ∧
        st1.m_meshes = st.m_meshes ∧ st1.m_waterMeshes = st.m_waterMeshes) ∧
      st1.heap mesh = some { o with m_isRenderable := true } ∧
      (∀ k, k ≠ mesh → st1.heap k = st.heap k) := by
  cases isSpherical with
  | true =>
    refine ⟨_, by simp only [addMesh, hm]; rfl, ?_, ?_, ?_, ?_⟩
    · intro _
      refine ⟨⟨rfl, by simp, ?_, ?_⟩, rfl, rfl⟩
      · intro hw; simp [hw]
      · intro hw; simp [hw]
    · intro hc; cases hc
    · simp [Heap.set_same]
    · intro k hk; simp [Heap.set_other _ _ _ _ hk]
  | false =>
    refine ⟨_, by simp only [addMesh, hm]; rfl, ?_, ?_, ?_, ?_⟩
    · intro hc; cases hc
    · intro _
      refine ⟨⟨rfl, by simp, ?_, ?_⟩, rfl, rfl⟩
      · intro hw; simp [hw]
      · intro hw; simp [hw]
    · simp [Heap.set_same]
    · intro k hk; simp [Heap.set_other _ _ _ _ hk]

/-- C7, the scenarios: mesh 1 (water handle 7) added to the spherical tier a second
time is appended to both spherical lists again; mesh 5 (no water) added to the far
tier is appended to the far terrain list only. -/
theorem addMesh_appends_witness :
    listsOf (addMesh 1 true sweepState) = ([1, 3, 4, 5, 1], [3, 4, 1, 1], [2], [6, 2]) ∧
    listsOf (addMesh 5 false sweepState) = ([1, 3, 4, 5], [3, 4, 1], [2, 5], [6, 2]) ∧
    (∃ st1, addMesh 5 false sweepState = .ok st1 ∧
      (false = true →
        Appended 5 scenarioMesh sweepState.m_meshes sweepState.m_waterMeshes st1.m_meshes
          st1.m_waterMeshes ∧
        st1.m_farMeshes = sweepState.m_farMeshes ∧
        st1.m_farWaterMeshes = sweepState.m_farWaterMeshes) ∧
      (false = false →
        Appended 5 scenarioMesh sweepState.m_farMeshes sweepState.m_farWaterMeshes
          st1.m_farMeshes st1.m_farWaterMeshes ∧
        st1.m_meshes = sweepState.m_meshes ∧ st1.m_waterMeshes = sweepState.m_waterMeshes) ∧
      st1.heap 5 = some { scenarioMesh with m_isRenderable := true } ∧
      (∀ k, k ≠ 5 → st1.heap k = sweepState.heap k)) :=
  ⟨by decide, by decide, addMesh_appends 5 false sweepState scenarioMesh (by decide)⟩

/-! ## The two lists of a tier -/

theorem TierOk.terrain {T W : List MeshId} {h : Heap} (hok : TierOk T W h) : ListOk T h :=
  ⟨hok.1, fun m hm => by
    obtain ⟨o, ho, _⟩ := hok.2.2.1 m hm
    simp [ho]⟩

theorem TierOk.water {T W : List MeshId} {h : Heap} (hok : TierOk T W h) : ListOk W h :=
  ⟨hok.2.1, fun m hm => by
    obtain ⟨o, ho, _⟩ := hok.2.2.2 m hm
    simp [ho]⟩

theorem mem_kept_iff (l kept : List MeshId) (h : Heap)
    (hkept : kept.Perm (l.filter (fun m => !pending h m))) (k : MeshId) :
    k ∈ kept ↔ k ∈ l ∧ pending h k = false := by
  rw [hkept.mem_iff, List.mem_filter]
  simp

theorem kept_nodup (l kept : List MeshId) (h : Heap) (hnd : l.Nodup)
    (hkept : kept.Perm (l.filter (fun m => !pending h m))) : kept.Nodup :=
  hkept.nodup_iff.2 (hnd.filter _)

theorem tierOk_waterSweep (T W kept : List MeshId) (h : Heap) (hok : TierOk T W h)
    (hkept : kept.Perm (W.filter (fun m => !pending h m))) :
    TierOk T kept (heapTarget W h) := by
  obtain ⟨hT, hW, h3, h4⟩ := hok
  have hmem := mem_kept_iff W kept h hkept
  refine ⟨hT, kept_nodup W kept h hW hkept, ?_, ?_⟩
  · intro m hm
    obtain ⟨o, ho, hiff⟩ := h3 m hm
    by_cases hmW : m ∈ W
    · have hw : o.m_wvbo ≠ 0 := hiff.2 hmW
      cases hd : o.m_shouldDelete with
      | true =>
        refine ⟨{ o with m_wvbo := 0 }, by simp [heapTarget, hmW, ho, sweepCell, hd, hw], ?_⟩
        have : m ∉ kept := by
          intro hc
          have := ((hmem m).1 hc).2
          simp [pending, ho, hd] at this
        simp [this]
      | false =>
        refine ⟨o, by simp [heapTarget, hmW, ho, sweepCell, hd], ?_⟩
        have : m ∈ kept := (hmem m).2 ⟨hmW, by simp [pending, ho, hd]⟩
        simp [this, hw]
    · refine ⟨o, by simp [heapTarget, hmW, ho], ?_⟩
      have h1 : m ∉ kept := fun hc => hmW ((hmem m).1 hc).1
      have h2 : o.m_wvbo = 0 := by
        by_contra hc
        exact hmW (hiff.1 hc)
      simp [h1, h2]
  · intro m hm
    obtain ⟨hmW, hp⟩ := (hmem m).1 hm
    obtain ⟨o, ho, himp⟩ := h4 m hmW
    have hd : o.m_shouldDelete = false := by simpa [pending, ho] using hp
    refine ⟨o, by simp [heapTarget, hmW, ho, sweepCell, hd], ?_⟩
    intro hmT
    have := (himp hmT).2
    rw [hd] at this
    cases this

theorem tierOk_terrainSweep (T W kept : List MeshId) (h : Heap) (hok : TierOk T W h)
    (hkept : kept.Perm (T.filter (fun m => !pending h m))) :
    TierOk kept W (heapTarget T h) := by
  obtain ⟨hT, hW, h3, h4⟩ := hok
  have hmem := mem_kept_iff T kept h hkept
  refine ⟨kept_nodup T kept h hT hkept, hW, ?_, ?_⟩
  · intro m hm
    obtain ⟨hmT, hp⟩ := (hmem m).1 hm
    obtain ⟨o, ho, hiff⟩ := h3 m hmT
    have hd : o.m_shouldDelete = false := by simpa [pending, ho] using hp
    exact ⟨o, by simp [heapTarget, hmT, ho, sweepCell, hd], hiff⟩
  · intro m hm
    obtain ⟨o, ho, himp⟩ := h4 m hm
    by_cases hmT : m ∈ T
    · obtain ⟨o2, ho2, hiff⟩ := h3 m hmT
      have ho3 : o2 = o := by
        rw [ho] at ho2
        exact (Option.some.inj ho2).symm
      subst ho3
      have hw : o2.m_wvbo ≠ 0 := hiff.2 hm
      cases hd : o2.m_shouldDelete with
      | true =>
        refine ⟨{ o2 with m_wvbo := 0 },
          by simp [heapTarget, hmT, ho, sweepCell, hd, hw], ?_⟩
        intro _
        exact ⟨rfl, hd⟩
      | false =>
        refine ⟨o2, by simp [heapTarget, hmT, ho, sweepCell, hd], ?_⟩
        intro hc
        exact absurd ((hmem m).2 ⟨hmT, by simp [pending, ho, hd]⟩) hc
    · refine ⟨o, by simp [heapTarget, hmT, ho], ?_⟩
      intro _
      exact himp hmT

theorem tierOk_frame (T W : List MeshId) (h h2 : Heap) (hok : TierOk T W h)
    (hsame : ∀ m, (m ∈ T ∨ m ∈ W) → ∀ o, h m = some o →
      ∃ o2, h2 m = some o2 ∧ o2.m_wvbo = o.m_wvbo ∧
        (o.m_shouldDelete = true → o2.m_shouldDelete = true)) :
    TierOk T W h2 := by
  obtain ⟨hT, hW, h3, h4⟩ := hok
  refine ⟨hT, hW, ?_, ?_⟩
  · intro m hm
    obtain ⟨o, ho, hiff⟩ := h3 m hm
    obtain ⟨o2, ho2, hw, _⟩ := hsame m (Or.inl hm) o ho
    exact ⟨o2, ho2, by rw [hw]; exact hiff⟩
  · intro m hm
    obtain ⟨o, ho, himp⟩ := h4 m hm
    obtain ⟨o2, ho2, hw, hd⟩ := hsame m (Or.inr hm) o ho
    refine ⟨o2, ho2, fun hmT => ?_⟩
    obtain ⟨a, b⟩ := himp hmT
    exact ⟨by rw [hw]; exact a, hd b⟩

/-! ## The registry invariant -/

theorem inv4_symm (A T W FT FW : List MeshId) (h : Heap) (hinv : Inv4 A T W FT FW h) :
    Inv4 A FT FW T W h := by
  obtain ⟨h1, h2, h3, h4, h5⟩ := hinv
  refine ⟨h2, h1, ?_, ?_, ?_⟩
  · intro m hm hc
    exact h3 m hc hm
  · intro m hm
    apply h4 m
    tauto
  · intro m hm hl
    have := h5 m hm hl
    tauto

theorem heapTarget_not_mem (R : List MeshId) (h : Heap) (m : MeshId) (hm : m ∉ R) :
    heapTarget R h m = h m := by
  simp [heapTarget, hm]

theorem heapTarget_isSome (R : List MeshId) (h : Heap) (m : MeshId)
    (hl : (heapTarget R h m).isSome = true) : (h m).isSome = true := by
  by_cases hm : m ∈ R
  · cases hc : h m with
    | none => simp [heapTarget, hm, hc, sweepCell] at hl
    | some o => simp
  · rwa [heapTarget_not_mem R h m hm] at hl

theorem inv4_waterSweep (A T W FT FW kept : List MeshId) (h : Heap)
    (hinv : Inv4 A T W FT FW h) (hkept : kept.Perm (W.filter (fun m => !pending h m))) :
    Inv4 A T kept FT FW (heapTarget W h) := by
  obtain ⟨h1, h2, h3, h4, h5⟩ := hinv
  have hmem := mem_kept_iff W kept h hkept
  refine ⟨tierOk_waterSweep T W kept h h1 hkept, ?_, ?_, ?_, ?_⟩
  · apply tierOk_frame FT FW h _ h2
    intro m hm o ho
    have hmW : m ∉ W := fun hc => h3 m (Or.inr hc) hm
    exact ⟨o, by rw [heapTarget_not_mem W h m hmW]; exact ho, rfl, fun x => x⟩
  · intro m hm
    apply h3 m
    rcases hm with hm | hm
    · exact Or.inl hm
    · exact Or.inr ((hmem m).1 hm).1
  · intro m hm
    apply h4 m
    rcases hm with hm | hm | hm | hm
    · exact Or.inl hm
    · exact Or.inr (Or.inl ((hmem m).1 hm).1)
    · exact Or.inr (Or.inr (Or.inl hm))
    · exact Or.inr (Or.inr (Or.inr hm))
  · intro m hm hl
    rcases h5 m hm (heapTarget_isSome W h m hl) with hx | hx | hx | hx
    · exact Or.inl hx
    · by_cases hmT : m ∈ T
      · exact Or.inl hmT
      · obtain ⟨o, ho, himp⟩ := h1.2.2.2 m hx
        obtain ⟨hw, hd⟩ := himp hmT
        simp [heapTarget, hx, ho, sweepCell, hd, hw] at hl
    · exact Or.inr (Or.inr (Or.inl hx))
    · exact Or.inr (Or.inr (Or.inr hx))

theorem inv4_terrainSweep (A T W FT FW kept : List MeshId) (h : Heap)
    (hinv : Inv4 A T W FT FW h) (hkept : kept.Perm (T.filter (fun m => !pending h m))) :
    Inv4 A kept W FT FW (heapTarget T h) := by
  obtain ⟨h1, h2, h3, h4, h5⟩ := hinv
  have hmem := mem_kept_iff T kept h hkept
  refine ⟨tierOk_terrainSweep T W kept h h1 hkept, ?_, ?_, ?_, ?_⟩
  · apply tierOk_frame FT FW h _ h2
    intro m hm o ho
    have hmT : m ∉ T := fun hc => h3 m (Or.inl hc) hm
    exact ⟨o, by rw [heapTarget_not_mem T h m hmT]; exact ho, rfl, fun x => x⟩
  · intro m hm
    apply h3 m
    rcases hm with hm | hm
    · exact Or.inl ((hmem m).1 hm).1
    · exact Or.inr hm
  · intro m hm
    apply h4 m
    rcases hm with hm | hm | hm | hm
    · exact Or.inl ((hmem m).1 hm).1
    · exact Or.inr (Or.inl hm)
    · exact Or.inr (Or.inr (Or.inl hm))
    · exact Or.inr (Or.inr (Or.inr hm))
  · intro m hm hl
    rcases h5 m hm (heapTarget_isSome T h m hl) with hx | hx | hx | hx
    · by_cases hmW : m ∈ W
      · exact Or.inr (Or.inl hmW)
      · obtain ⟨o, ho, hiff⟩ := h1.2.2.1 m hx
        have hw : o.m_wvbo = 0 := by
          by_contra hc
          exact hmW (hiff.1 hc)
        cases hd : o.m_shouldDelete with
        | true => simp [heapTarget, hx, ho, sweepCell, hd, hw] at hl
        | false => exact Or.inl ((hmem m).2 ⟨hx, by simp [pending, ho, hd]⟩)
    · exact Or.inr (Or.inl hx)
    · exact Or.inr (Or.inr (Or.inl hx))
    · exact Or.inr (Or.inr (Or.inr hx))

theorem inv4_frame (A T W FT FW : List MeshId) (h h2 : Heap) (hinv : Inv4 A T W FT FW h)
    (hst : HeapStable h h2) : Inv4 A T W FT FW h2 := by
  obtain ⟨h1, h2a, h3, h4, h5⟩ := hinv
  refine ⟨tierOk_frame T W h h2 h1 (fun m _ o ho => (hst m).2 o ho),
    tierOk_frame FT FW h h2 h2a (fun m _ o ho => (hst m).2 o ho), h3, h4, ?_⟩
  intro m hm hl
  apply h5 m hm
  cases hc : h m with
  | none => rw [(hst m).1 hc] at hl; simp at hl
  | some o => simp

theorem tierOk_perm (T T2 W : List MeshId) (h : Heap) (hok : TierOk T W h)
    (hperm : T2.Perm T) : TierOk T2 W h := by
  obtain ⟨hT, hW, h3, h4⟩ := hok
  refine ⟨hperm.nodup_iff.2 hT, hW, fun m hm => h3 m (hperm.mem_iff.1 hm), ?_⟩
  intro m hm
  obtain ⟨o, ho, himp⟩ := h4 m hm
  exact ⟨o, ho, fun hc => himp (fun hx => hc (hperm.mem_iff.2 hx))⟩

theorem inv4_perm (A T T2 W FT FW : List MeshId) (h : Heap) (hinv : Inv4 A T W FT FW h)
    (hperm : T2.Perm T) : Inv4 A T2 W FT FW h := by
  obtain ⟨h1, h2, h3, h4, h5⟩ := hinv
  have hiff : ∀ m, m ∈ T2 ↔ m ∈ T := fun m => hperm.mem_iff
  refine ⟨tierOk_perm T T2 W h h1 hperm, h2, ?_, ?_, ?_⟩
  · intro m hm
    apply h3 m
    rw [hiff] at hm
    exact hm
  · intro m hm
    apply h4 m
    rw [hiff] at hm
    exact hm
  · intro m hm hl
    rw [hiff]
    exact h5 m hm hl

theorem inv4_append (A T W FT FW : List MeshId) (h : Heap) (m : MeshId) (o : TerrainPatchMesh)
    (hinv : Inv4 A T W FT FW h) (hfresh : m ∉ A) (ho : h m = some o) :
    Inv4 (m :: A) (T ++ [m]) (if o.m_wvbo ≠ 0 then W ++ [m] else W) FT FW h := by
  obtain ⟨h1, h2, h3, h4, h5⟩ := hinv
  have hmT : m ∉ T := fun hc => hfresh (h4 m (Or.inl hc))
  have hmW : m ∉ W := fun hc => hfresh (h4 m (Or.inr (Or.inl hc)))
  have hmFT : m ∉ FT := fun hc => hfresh (h4 m (Or.inr (Or.inr (Or.inl hc))))
  have hmFW : m ∉ FW := fun hc => hfresh (h4 m (Or.inr (Or.inr (Or.inr hc))))
  have hW2 : ∀ k, k ∈ (if o.m_wvbo ≠ 0 then W ++ [m] else W) ↔
      (k ∈ W ∨ (k = m ∧ o.m_wvbo ≠ 0)) := by
    intro k
    by_cases hw : o.m_wvbo = 0
    · simp [hw]
    · simp [hw]
  obtain ⟨hT, hW, c3, c4⟩ := h1
  refine ⟨⟨?_, ?_, ?_, ?_⟩, h2, ?_, ?_, ?_⟩
  · rw [List.nodup_append]
    refine ⟨hT, by simp, ?_⟩
    intro a ha hb
    simp at hb
    exact hmT (hb ▸ ha)
  · by_cases hw : o.m_wvbo = 0
    · simpa [hw] using hW
    · simp only [ne_eq, hw, not_false_eq_true, if_true]
      rw [List.nodup_append]
      refine ⟨hW, by simp, ?_⟩
      intro a ha hb
      simp at hb
      exact hmW (hb ▸ ha)
  · intro k hk
    rcases List.mem_append.1 hk with hk | hk
    · obtain ⟨o2, ho2, hiff⟩ := c3 k hk
      refine ⟨o2, ho2, ?_⟩
      rw [hW2, hiff]
      have hkm : k ≠ m := fun hc => hmT (hc ▸ hk)
      simp [hkm]
    · simp at hk
      subst hk
      refine ⟨o, ho, ?_⟩
      rw [hW2]
      simp [hmW]
  · intro k hk
    rcases (hW2 k).1 hk with hk | ⟨hk, _⟩
    · obtain ⟨o2, ho2, himp⟩ := c4 k hk
      exact ⟨o2, ho2, fun hc => himp (fun hx => hc (List.mem_append_left _ hx))⟩
    · subst hk
      exact ⟨o, ho, fun hc => absurd (List.mem_append_right _ (List.mem_singleton_self k)) hc⟩
  · intro k hk
    rcases hk with hk | hk
    · rcases List.mem_append.1 hk with hk | hk
      · exact h3 k (Or.inl hk)
      · simp at hk
        subst hk
        intro hc
        rcases hc with hc | hc
        · exact hmFT hc
        · exact hmFW hc
    · rcases (hW2 k).1 hk with hk | ⟨hk, _⟩
      · exact h3 k (Or.inr hk)
      · subst hk
        intro hc
        rcases hc with hc | hc
        · exact hmFT hc
        · exact hmFW hc
  · intro k hk
    rcases hk with hk | hk | hk | hk
    · rcases List.mem_append.1 hk with hk | hk
      · exact List.mem_cons_of_mem _ (h4 k (Or.inl hk))
      · simp at hk
        subst hk
        exact List.mem_cons_self _ _
    · rcases (hW2 k).1 hk with hk | ⟨hk, _⟩
      · exact List.mem_cons_of_mem _ (h4 k (Or.inr (Or.inl hk)))
      · subst hk
        exact List.mem_cons_self _ _
    · exact List.mem_cons_of_mem _ (h4 k (Or.inr (Or.inr (Or.inl hk))))
    · exact List.mem_cons_of_mem _ (h4 k (Or.inr (Or.inr (Or.inr hk))))
  · intro k hk hl
    rcases List.mem_cons.1 hk with hk | hk
    · subst hk
      exact Or.inl (List.mem_append_right _ (List.mem_singleton_self k))
    · rcases h5 k hk hl with hx | hx | hx | hx
      · exact Or.inl (List.mem_append_left _ hx)
      · exact Or.inr (Or.inl ((hW2 k).2 (Or.inl hx)))
      · exact Or.inr (Or.inr (Or.inl hx))
      · exact Or.inr (Or.inr (Or.inr hx))

theorem heapStable_set (h : Heap) (m : MeshId) (o o2 : TerrainPatchMesh) (ho : h m = some o)
    (hw : o2.m_wvbo = o.m_wvbo) (hd : o.m_shouldDelete = true → o2.m_shouldDelete = true) :
    HeapStable h (h.set m (some o2)) := by
  intro k
  by_cases hk : k = m
  · subst hk
    refine ⟨fun hc => (by rw [ho] at hc; cases hc), ?_⟩
    intro o3 ho3
    rw [ho] at ho3
    cases ho3
    exact ⟨o2, Heap.set_same _ _ _, hw, hd⟩
  · rw [Heap.set_other _ _ _ _ hk]
    exact ⟨fun hc => hc, fun o3 ho3 => ⟨o3, ho3, rfl, fun x => x⟩⟩

theorem heapStable_heapAfter (D : MeshId → ℚ) (l : List MeshId) (h : Heap) :
    HeapStable h (heapAfter D l h) := by
  intro k
  unfold heapAfter
  by_cases hk : k ∈ l
  · refine ⟨fun hc => by simp [hk, hc], ?_⟩
    intro o ho
    exact ⟨{ o with distance2 := D k }, by simp [hk, ho], rfl, fun x => x⟩
  · simp only [hk, if_false]
    exact ⟨fun hc => hc, fun o ho => ⟨o, ho, rfl, fun x => x⟩⟩

theorem sphericalWaterPass_inv (A : List MeshId) (st : State) (hinv : Inv A st) :
    ∃ (kept order : List MeshId),
      sphericalWaterPass st
        = .ok { st with
            m_waterMeshes := kept
            heap := heapTarget st.m_waterMeshes st.heap
            log := st.log ++ order.flatMap (cellEvents false waterVisit st.heap) } ∧
      order.Perm st.m_waterMeshes ∧
      kept.Perm (st.m_waterMeshes.filter (fun m => !pending st.heap m)) ∧
      Inv A { st with
            m_waterMeshes := kept
            heap := heapTarget st.m_waterMeshes st.heap
            log := st.log ++ order.flatMap (cellEvents false waterVisit st.heap) } := by
  obtain ⟨kept, order, heq, hord, hkept⟩ := sphericalWaterPass_spec st hinv.1.water
  exact ⟨kept, order, heq, hord, hkept, inv4_waterSweep _ _ _ _ _ _ _ hinv hkept⟩

theorem sphericalTerrainPass_inv (ext : Externals) (p : f64v3) (q : f64q) (alpha : ℚ)
    (A : List MeshId) (st : State) (hinv : Inv A st) :
    ∃ (kept order : List MeshId),
      sphericalTerrainPass ext p q alpha st
        = .ok { st with
            m_meshes := kept
            heap := heapTarget st.m_meshes st.heap
            log := st.log ++ order.flatMap (cellEvents true
              (sphericalVisit ext p (ext.rotate (ext.inverse q) p) q (terrainDrawSkirts alpha))
              st.heap) } ∧
      order.Perm st.m_meshes ∧
      kept.Perm (st.m_meshes.filter (fun m => !pending st.heap m)) ∧
      Inv A { st with
            m_meshes := kept
            heap := heapTarget st.m_meshes st.heap
            log := st.log ++ order.flatMap (cellEvents true
              (sphericalVisit ext p (ext.rotate (ext.inverse q) p) q (terrainDrawSkirts alpha))
              st.heap) } := by
  obtain ⟨kept, order, heq, hord, hkept⟩ :=
    sphericalTerrainPass_spec ext p q alpha st hinv.1.terrain
  exact ⟨kept, order, heq, hord, hkept, inv4_terrainSweep _ _ _ _ _ _ _ hinv hkept⟩

theorem farWaterPass_inv (A : List MeshId) (st : State) (hinv : Inv A st) :
    ∃ (kept order : List MeshId),
      farWaterPass st
        = .ok { st with
            m_farWaterMeshes := kept
            heap := heapTarget st.m_farWaterMeshes st.heap
            log := st.log ++ order.flatMap (cellEvents false waterVisit st.heap) } ∧
      order.Perm st.m_farWaterMeshes ∧
      kept.Perm (st.m_farWaterMeshes.filter (fun m => !pending st.heap m)) ∧
      Inv A { st with
            m_farWaterMeshes := kept
            heap := heapTarget st.m_farWaterMeshes st.heap
            log := st.log ++ order.flatMap (cellEvents false waterVisit st.heap) } := by
  obtain ⟨kept, order, heq, hord, hkept⟩ := farWaterPass_spec st hinv.2.1.water
  exact ⟨kept, order, heq, hord, hkept,
    inv4_symm _ _ _ _ _ _ (inv4_waterSweep _ _ _ _ _ _ _ (inv4_symm _ _ _ _ _ _ hinv) hkept)⟩

theorem farTerrainPass_inv (ext : Externals) (p : f64v3) (alpha : ℚ)
    (A : List MeshId) (st : State) (hinv : Inv A st) :
    ∃ (kept order : List MeshId),
      farTerrainPass ext p alpha st
        = .ok { st with
            m_farMeshes := kept
            heap := heapTarget st.m_farMeshes st.heap
            log := st.log ++ order.flatMap (cellEvents true
              (farVisit ext p (terrainDrawSkirts alpha)) st.heap) } ∧
      order.Perm st.m_farMeshes ∧
      kept.Perm (st.m_farMeshes.filter (fun m => !pending st.heap m)) ∧
      Inv A { st with
            m_farMeshes := kept
            heap := heapTarget st.m_farMeshes st.heap
            log := st.log ++ order.flatMap (cellEvents true
              (farVisit ext p (terrainDrawSkirts alpha)) st.heap) } := by
  obtain ⟨kept, order, heq, hord, hkept⟩ := farTerrainPass_spec ext p alpha st hinv.2.1.terrain
  exact ⟨kept, order, heq, hord, hkept,
    inv4_symm _ _ _ _ _ _ (inv4_terrainSweep _ _ _ _ _ _ _ (inv4_symm _ _ _ _ _ _ hinv) hkept)⟩

theorem inv_of_ok {A : List MeshId} {r : Except Err State} {st1 st2 : State}
    (heq : r = .ok st2) (hinv : Inv A st2) (hstep : r = .ok st1) : Inv A st1 := by
  rw [heq] at hstep
  cases hstep
  exact hinv

theorem drawSphericalMeshes_inv (ext : Externals) (p : f64v3) (q : f64q) (alpha : ℚ)
    (A : List MeshId) (st : State) (hinv : Inv A st) :
    ∃ st1 st2, sphericalWaterPass st = .ok st1 ∧
      sphericalTerrainPass ext p q alpha st1 = .ok st2 ∧
      drawSphericalMeshes ext p q alpha st = .ok st2 ∧ Inv A st1 ∧ Inv A st2 := by
  obtain ⟨k1, o1, heq1, _, _, hinv1⟩ := sphericalWaterPass_inv A st hinv
  obtain ⟨k2, o2, heq2, _, _, hinv2⟩ := sphericalTerrainPass_inv ext p q alpha A _ hinv1
  exact ⟨_, _, heq1, heq2, by simp only [drawSphericalMeshes, heq1, heq2], hinv1, hinv2⟩

theorem drawFarMeshes_inv (ext : Externals) (p : f64v3) (alpha : ℚ)
    (A : List MeshId) (st : State) (hinv : Inv A st) :
    ∃ st1 st2, farWaterPass st = .ok st1 ∧
      farTerrainPass ext p alpha st1 = .ok st2 ∧
      drawFarMeshes ext p alpha st = .ok st2 ∧ Inv A st1 ∧ Inv A st2 := by
  obtain ⟨k1, o1, heq1, _, _, hinv1⟩ := farWaterPass_inv A st hinv
  obtain ⟨k2, o2, heq2, _, _, hinv2⟩ := farTerrainPass_inv ext p alpha A _ hinv1
  exact ⟨_, _, heq1, heq2, by simp only [drawFarMeshes, heq1, heq2], hinv1, hinv2⟩

theorem sortSpericalMeshes_inv (gcp : MeshId → f64v3 → f64v3) (sentinel : ℚ) (p : f64v3)
    (A : List MeshId) (st : State) (hinv : Inv A st) :
    ∃ st1, sortSpericalMeshes gcp sentinel p st = .ok st1 ∧ Inv A st1 := by
  refine ⟨_, sortSpericalMeshes_eq gcp sentinel p st hinv.1.terrain.2, ?_⟩
  exact inv4_perm _ _ _ _ _ _ _
    (inv4_frame _ _ _ _ _ _ _ hinv (heapStable_heapAfter _ _ _)) (stdSort_perm _ _)

theorem sortFarMeshes_inv (gcp : MeshId → f64v3 → f64v3) (sentinel : ℚ) (p : f64v3)
    (A : List MeshId) (st : State) (hinv : Inv A st) :
    ∃ st1, sortFarMeshes gcp sentinel p st = .ok st1 ∧ Inv A st1 := by
  refine ⟨_, sortFarMeshes_eq gcp sentinel p st hinv.2.1.terrain.2, ?_⟩
  exact inv4_symm _ _ _ _ _ _ (inv4_perm _ _ _ _ _ _ _
    (inv4_frame _ _ _ _ _ _ _ (inv4_symm _ _ _ _ _ _ hinv) (heapStable_heapAfter _ _ _))
    (stdSort_perm _ _))

theorem markForDeletion_inv (A : List MeshId) (st : State) (m : MeshId) (hinv : Inv A st) :
    Inv A (markForDeletion m st) := by
  unfold markForDeletion
  cases hm : st.heap m with
  | none => exact hinv
  | some o =>
    exact inv4_frame _ _ _ _ _ _ _ hinv (heapStable_set st.heap m o _ hm rfl (fun _ => rfl))

theorem addMesh_inv (A : List MeshId) (st : State) (mesh : MeshId) (isSpherical : Bool)
    (o : TerrainPatchMesh) (hinv : Inv A st) (hfresh : mesh ∉ A)
    (ho : st.heap mesh = some o) :
    ∃ st1, addMesh mesh isSpherical st = .ok st1 ∧ Inv (mesh :: A) st1 := by
  have hst := heapStable_set st.heap mesh o { o with m_isRenderable := true } ho rfl
    (fun x => x)
  cases isSpherical with
  | true =>
    refine ⟨_, by simp only [addMesh, ho]; rfl, ?_⟩
    exact inv4_frame _ _ _ _ _ _ _ (inv4_append _ _ _ _ _ _ mesh o hinv hfresh ho) hst
  | false =>
    refine ⟨_, by simp only [addMesh, ho]; rfl, ?_⟩
    exact inv4_frame _ _ _ _ _ _ _ (inv4_symm _ _ _ _ _ _
      (inv4_append _ _ _ _ _ _ mesh o (inv4_symm _ _ _ _ _ _ hinv) hfresh ho)) hst

theorem addMesh_live (mesh : MeshId) (isSpherical : Bool) (st st1 : State)
    (hstep : addMesh mesh isSpherical st = .ok st1) : ∃ o, st.heap mesh = some o := by
  cases hm : st.heap mesh with
  | none => simp [addMesh, hm] at hstep
  | some o => exact ⟨o, rfl⟩

theorem reachable_inv (ext : Externals) (sentinel : ℚ) (A : List MeshId) (st : State)
    (hr : Reachable ext sentinel A st) : Inv A st := by
  induction hr with
  | init st h1 h2 h3 h4 =>
    unfold Inv
    rw [h1, h2, h3, h4]
    simp [Inv4, TierOk]
  | add A st st1 mesh isSpherical _ hfresh hstep ih =>
    obtain ⟨o, ho⟩ := addMesh_live mesh isSpherical st st1 hstep
    obtain ⟨st2, heq, hinv⟩ := addMesh_inv A st mesh isSpherical o ih hfresh ho
    exact inv_of_ok heq hinv hstep
  | mark A st m _ ih => exact markForDeletion_inv A st m ih
  | sortSpherical A st st1 p _ hstep ih =>
    obtain ⟨st2, heq, hinv⟩ := sortSpericalMeshes_inv ext.getClosestPoint sentinel p A st ih
    exact inv_of_ok heq hinv hstep
  | sortFar A st st1 p _ hstep ih =>
    obtain ⟨st2, heq, hinv⟩ := sortFarMeshes_inv ext.getClosestPoint sentinel p A st ih
    exact inv_of_ok heq hinv hstep
  | waterPass A st st1 _ hstep ih =>
    obtain ⟨k, o, heq, _, _, hinv⟩ := sphericalWaterPass_inv A st ih
    exact inv_of_ok heq hinv hstep
  | terrainPass A st st1 p q alpha _ hstep ih =>
    obtain ⟨k, o, heq, _, _, hinv⟩ := sphericalTerrainPass_inv ext p q alpha A st ih
    exact inv_of_ok heq hinv hstep
  | farWater A st st1 _ hstep ih =>
    obtain ⟨k, o, heq, _, _, hinv⟩ := farWaterPass_inv A st ih
    exact inv_of_ok heq hinv hstep
  | farTerrain A st st1 p alpha _ hstep ih =>
    obtain ⟨k, o, heq, _, _, hinv⟩ := farTerrainPass_inv ext p alpha A st ih
    exact inv_of_ok heq hinv hstep
  | drawSpherical A st st1 p q alpha _ hstep ih =>
    obtain ⟨s1, s2, _, _, heq, _, hinv⟩ := drawSphericalMeshes_inv ext p q alpha A st ih
    exact inv_of_ok heq hinv hstep
  | drawFar A st st1 p alpha _ hstep ih =>
    obtain ⟨s1, s2, _, _, heq, _, hinv⟩ := drawFarMeshes_inv ext p alpha A st ih
    exact inv_of_ok heq hinv hstep

theorem inv4_counts (A T W FT FW : List MeshId) (h : Heap) (hinv : Inv4 A T W FT FW h)
    (m : MeshId) (o : TerrainPatchMesh) (ho : h m = some o) (hw : o.m_wvbo ≠ 0)
    (hheld : m ∈ T ∨ m ∈ W) :
    T.count m = 1 ∧ W.count m = 1 ∧ FT.count m = 0 ∧ FW.count m = 0 := by
  obtain ⟨h1, _, h3, _, _⟩ := hinv
  have hmT : m ∈ T := by
    rcases hheld with hx | hx
    · exact hx
    · by_contra hc
      obtain ⟨o2, ho2, himp⟩ := h1.2.2.2 m hx
      rw [ho] at ho2
      cases ho2
      exact hw (himp hc).1
  have hmW : m ∈ W := by
    obtain ⟨o2, ho2, hiff⟩ := h1.2.2.1 m hmT
    rw [ho] at ho2
    cases ho2
    exact hiff.1 hw
  have hfar := h3 m (Or.inl hmT)
  exact ⟨List.count_eq_one_of_mem h1.1 hmT, List.count_eq_one_of_mem h1.2.1 hmW,
    List.count_eq_zero_of_not_mem (fun hc => hfar (Or.inl hc)),
    List.count_eq_zero_of_not_mem (fun hc => hfar (Or.inr hc))⟩

/-- C6: in every state reachable from the empty registry (each mesh added at most
once), every added mesh that has not been freed and holds a water buffer occurs
exactly once in the terrain list and exactly once in the water list of one tier,
and in no list of the other tier; and from every such state both sorts and both
draw calls return. -/
theorem water_mesh_in_one_tier (ext : Externals) (sentinel : ℚ) (A : List MeshId) (st : State)
    (hr : Reachable ext sentinel A st) :
    (∀ m ∈ A, ∀ o, st.heap m = some o → o.m_wvbo ≠ 0 → InOneTier st m) ∧
    (∀ p, ∃ st1, sortSpericalMeshes ext.getClosestPoint sentinel p st = .ok st1) ∧
    (∀ p, ∃ st1, sortFarMeshes ext.getClosestPoint sentinel p st = .ok st1) ∧
    (∀ p q alpha, ∃ st1, drawSphericalMeshes ext p q alpha st = .ok st1) ∧
    (∀ p alpha, ∃ st1, drawFarMeshes ext p alpha st = .ok st1) := by
  have hinv := reachable_inv ext sentinel A st hr
  refine ⟨?_, ?_, ?_, ?_, ?_⟩
  · intro m hm o ho hw
    have hlive : (st.heap m).isSome = true := by simp [ho]
    rcases hinv.2.2.2.2 m hm hlive with hx | hx | hx | hx
    · exact Or.inl (inv4_counts _ _ _ _ _ _ hinv m o ho hw (Or.inl hx))
    · exact Or.inl (inv4_counts _ _ _ _ _ _ hinv m o ho hw (Or.inr hx))
    · have := inv4_counts _ _ _ _ _ _ (inv4_symm _ _ _ _ _ _ hinv) m o ho hw (Or.inl hx)
      exact Or.inr ⟨this.2.2.1, this.2.2.2, this.1, this.2.1⟩
    · have := inv4_counts _ _ _ _ _ _ (inv4_symm _ _ _ _ _ _ hinv) m o ho hw (Or.inr hx)
      exact Or.inr ⟨this.2.2.1, this.2.2.2, this.1, this.2.1⟩
  · intro p
    obtain ⟨st1, h1, _⟩ := sortSpericalMeshes_inv ext.getClosestPoint sentinel p A st hinv
    exact ⟨st1, h1⟩
  · intro p
    obtain ⟨st1, h1, _⟩ := sortFarMeshes_inv ext.getClosestPoint sentinel p A st hinv
    exact ⟨st1, h1⟩
  · intro p q alpha
    obtain ⟨_, st2, _, _, h1, _⟩ := drawSphericalMeshes_inv ext p q alpha A st hinv
    exact ⟨st2, h1⟩
  · intro p alpha
    obtain ⟨_, st2, _, _, h1, _⟩ := drawFarMeshes_inv ext p alpha A st hinv
    exact ⟨st2, h1⟩

/-- C6, the scenario: mesh 3 (water handle 9) is added to the spherical tier and
mesh 1 (water handle 7, pending deletion) to the far tier; after the far terrain
pass has deferred mesh 1, mesh 3 is once in each spherical list, and mesh 1, whose
handle is now empty, is left in the far water list only. -/
theorem water_mesh_in_one_tier_witness :
    listsOf (.ok reachedState3) = ([3], [3], [], [1]) ∧
    InOneTier reachedState3 3 ∧
    (∃ o, reachedState3.heap 1 = some o ∧ o.m_wvbo = 0) :=
  ⟨by decide,
    (water_mesh_in_one_tier scenarioExt 1000000 [1, 3] reachedState3
      (Reachable.farTerrain [1, 3] reachedState2 reachedState3 ⟨0, 0, 0⟩ 1
        (Reachable.add [3] reachedState1 reachedState2 1 false
          (Reachable.add [] emptyState reachedState1 3 true
            (Reachable.init emptyState rfl rfl rfl rfl) (by decide) rfl)
          (by decide) rfl)
        rfl)).1 3 (by decide) { scenarioMesh with m_wvbo := 9, m_isRenderable := true }
      (by decide!) (by decide),
    ⟨_, rfl, rfl⟩⟩

/-! ## Deferred deletion -/

theorem core_defer (recycle : Bool) (visit : MeshId → TerrainPatchMesh → List Event)
    (hv : VisitDraws visit) (l kept order : List MeshId) (h : Heap) (m : MeshId)
    (o : TerrainPatchMesh) (hnd : l.Nodup) (hmem : m ∈ l) (hm : h m = some o)
    (hw : o.m_wvbo ≠ 0) (hd : o.m_shouldDelete = true) (hord : order.Perm l)
    (hkept : kept.Perm (l.filter (fun k => !pending h k))) :
    heapTarget l h m = some { o with m_wvbo := 0 } ∧
    (order.flatMap (cellEvents recycle visit h)).count (Event.deleteMesh m) = 0 ∧
    (order.flatMap (cellEvents recycle visit h)).count (Event.freeBuffer m) = 1 ∧
    m ∉ kept := by
  refine ⟨?_, ?_, ?_, ?_⟩
  · simp [heapTarget, hmem, hm, sweepCell, hd, hw]
  · rw [count_sweep_events recycle visit hv.own h l order hnd hord]
    cases recycle <;> simp [Event.mesh, hmem, cellEvents, hm, hd, hw]
  · rw [count_sweep_events recycle visit hv.own h l order hnd hord]
    cases recycle <;> simp [Event.mesh, hmem, cellEvents, hm, hd, hw]
  · intro hc
    have := ((mem_kept_iff l kept h hkept m).1 hc).2
    simp [pending, hm, hd] at this

theorem core_delete (recycle : Bool) (visit : MeshId → TerrainPatchMesh → List Event)
    (hv : VisitDraws visit) (l kept order : List MeshId) (h : Heap) (m : MeshId)
    (o : TerrainPatchMesh) (hnd : l.Nodup) (hmem : m ∈ l) (hm : h m = some o)
    (hw : o.m_wvbo = 0) (hd : o.m_shouldDelete = true) (hord : order.Perm l)
    (hkept : kept.Perm (l.filter (fun k => !pending h k))) :
    heapTarget l h m = none ∧
    (order.flatMap (cellEvents recycle visit h)).count (Event.deleteMesh m) = 1 ∧
    (order.flatMap (cellEvents recycle visit h)).count (Event.freeBuffer m) = 0 ∧
    m ∉ kept := by
  refine ⟨?_, ?_, ?_, ?_⟩
  · simp [heapTarget, hmem, hm, sweepCell, hd, hw]
  · rw [count_sweep_events recycle visit hv.own h l order hnd hord]
    cases recycle <;> simp [Event.mesh, hmem, cellEvents, hm, hd, hw]
  · rw [count_sweep_events recycle visit hv.own h l order hnd hord]
    cases recycle <;> simp [Event.mesh, hmem, cellEvents, hm, hd, hw]
  · intro hc
    have := ((mem_kept_iff l kept h hkept m).1 hc).2
    simp [pending, hm, hd] at this

theorem core_absent (recycle : Bool) (visit : MeshId → TerrainPatchMesh → List Event)
    (hv : VisitDraws visit) (l kept order : List MeshId) (h : Heap) (m : MeshId)
    (hnd : l.Nodup) (hmem : m ∉ l) (hord : order.Perm l)
    (hkept : kept.Perm (l.filter (fun k => !pending h k))) :
    heapTarget l h m = h m ∧
    (order.flatMap (cellEvents recycle visit h)).count (Event.deleteMesh m) = 0 ∧
    (order.flatMap (cellEvents recycle visit h)).count (Event.freeBuffer m) = 0 ∧
    m ∉ kept := by
  refine ⟨heapTarget_not_mem l h m hmem, ?_, ?_, ?_⟩
  · rw [count_sweep_events recycle visit hv.own h l order hnd hord]
    simp [Event.mesh, hmem]
  · rw [count_sweep_events recycle visit hv.own h l order hnd hord]
    simp [Event.mesh, hmem]
  · intro hc
    exact hmem ((mem_kept_iff l kept h hkept m).1 hc).1

theorem drawSphericalMeshes_of (ext : Externals) (p : f64v3) (q : f64q) (alpha : ℚ)
    (st st1 st2 : State) (h1 : sphericalWaterPass st = .ok st1)
    (h2 : sphericalTerrainPass ext p q alpha st1 = .ok st2) :
    drawSphericalMeshes ext p q alpha st = .ok st2 := by
  simp only [drawSphericalMeshes, h1, h2]

theorem drawFarMeshes_of (ext : Externals) (p : f64v3) (alpha : ℚ)
    (st st1 st2 : State) (h1 : farWaterPass st = .ok st1)
    (h2 : farTerrainPass ext p alpha st1 = .ok st2) :
    drawFarMeshes ext p alpha st = .ok st2 := by
  simp only [drawFarMeshes, h1, h2]

/-- Scenario A on the spherical tier: the pending mesh is met by the water pass
and then by the terrain pass of one `drawSphericalMeshes` call. -/
theorem spherical_water_first (ext : Externals) (p : f64v3) (q : f64q) (alpha : ℚ)
    (A : List MeshId) (st : State) (hinv : Inv A st) (m : MeshId) (o : TerrainPatchMesh)
    (ho : st.heap m = some o) (hw : o.m_wvbo ≠ 0) (hd : o.m_shouldDelete = true)
    (hmT : m ∈ st.m_meshes) :
    ∃ st2, drawSphericalMeshes ext p q alpha st = .ok st2 ∧ FreedOnce st st2 m := by
  have hmW : m ∈ st.m_waterMeshes := by
    obtain ⟨o2, ho2, hiff⟩ := hinv.1.2.2.1 m hmT
    rw [ho] at ho2
    cases ho2
    exact hiff.1 hw
  have hfar := hinv.2.2.1 m (Or.inl hmT)
  obtain ⟨k1, o1, heq1, hord1, hkept1, hinv1⟩ := sphericalWaterPass_inv A st hinv
  obtain ⟨a1, a2, a3, a4⟩ := core_defer false waterVisit waterVisit_draws st.m_waterMeshes
    k1 o1 st.heap m o hinv.1.2.1 hmW ho hw hd hord1 hkept1
  obtain ⟨k2, o2, heq2, hord2, hkept2, _⟩ :=
    sphericalTerrainPass_inv ext p q alpha A _ hinv1
  obtain ⟨b1, b2, b3, b4⟩ := core_delete true
    (sphericalVisit ext p (ext.rotate (ext.inverse q) p) q (terrainDrawSkirts alpha))
    (sphericalVisit_draws _ _ _ _ _) st.m_meshes k2 o2
    (heapTarget st.m_waterMeshes st.heap) m { o with m_wvbo := 0 } hinv.1.1 hmT a1 rfl hd
    hord2 hkept2
  refine ⟨_, drawSphericalMeshes_of _ _ _ _ _ _ _ heq1 heq2, ?_, ?_, b1, b4, a4,
    fun hc => hfar (Or.inl hc), fun hc => hfar (Or.inr hc)⟩
  · show ((st.log ++ _) ++ _).count _ = _
    rw [List.count_append, List.count_append, a2, b2]
  · show ((st.log ++ _) ++ _).count _ = _
    rw [List.count_append, List.count_append, a3, b3]

/-- Scenario B on the spherical tier: the pending mesh is met by the terrain pass
of one call and then by the water pass of the next `drawSphericalMeshes` call. -/
theorem spherical_terrain_first (ext : Externals) (p p2 : f64v3) (q q2 : f64q)
    (alpha alpha2 : ℚ) (A : List MeshId) (st : State) (hinv : Inv A st) (m : MeshId)
    (o : TerrainPatchMesh) (ho : st.heap m = some o) (hw : o.m_wvbo ≠ 0)
    (hd : o.m_shouldDelete = true) (hmT : m ∈ st.m_meshes) :
    ∃ st1 st2, sphericalTerrainPass ext p q alpha st = .ok st1 ∧
      drawSphericalMeshes ext p2 q2 alpha2 st1 = .ok st2 ∧ FreedOnce st st2 m := by
  have hmW : m ∈ st.m_waterMeshes := by
    obtain ⟨o2, ho2, hiff⟩ := hinv.1.2.2.1 m hmT
    rw [ho] at ho2
    cases ho2
    exact hiff.1 hw
  have hfar := hinv.2.2.1 m (Or.inl hmT)
  obtain ⟨k1, o1, heq1, hord1, hkept1, hinv1⟩ :=
    sphericalTerrainPass_inv ext p q alpha A st hinv
  obtain ⟨a1, a2, a3, a4⟩ := core_defer true
    (sphericalVisit ext p (ext.rotate (ext.inverse q) p) q (terrainDrawSkirts alpha))
    (sphericalVisit_draws _ _ _ _ _) st.m_meshes k1 o1 st.heap m o hinv.1.1 hmT ho hw hd
    hord1 hkept1
  obtain ⟨k2, o2, heq2, hord2, hkept2, hinv2⟩ := sphericalWaterPass_inv A _ hinv1
  obtain ⟨b1, b2, b3, b4⟩ := core_delete false waterVisit waterVisit_draws
    st.m_waterMeshes k2 o2 (heapTarget st.m_meshes st.heap) m { o with m_wvbo := 0 }
    hinv.1.2.1 hmW a1 rfl hd hord2 hkept2
  obtain ⟨k3, o3, heq3, hord3, hkept3, _⟩ :=
    sphericalTerrainPass_inv ext p2 q2 alpha2 A _ hinv2
  obtain ⟨c1, c2, c3, c4⟩ := core_absent true
    (sphericalVisit ext p2 (ext.rotate (ext.inverse q2) p2) q2 (terrainDrawSkirts alpha2))
    (sphericalVisit_draws _ _ _ _ _) k1 k3 o3
    (heapTarget st.m_waterMeshes (heapTarget st.m_meshes st.heap)) m hinv1.1.1 a4
    hord3 hkept3
  refine ⟨_, _, heq1, drawSphericalMeshes_of _ _ _ _ _ _ _ heq2 heq3, ?_, ?_, c1.trans b1,
    c4, b4, fun hc => hfar (Or.inl hc), fun hc => hfar (Or.inr hc)⟩
  · show (((st.log ++ _) ++ _) ++ _).count _ = _
    rw [List.count_append, List.count_append, List.count_append, a2, b2, c2]
  · show (((st.log ++ _) ++ _) ++ _).count _ = _
    rw [List.count_append, List.count_append, List.count_append, a3, b3, c3]

/-- Scenario A on the far tier. -/
theorem far_water_first (ext : Externals) (p : f64v3) (alpha : ℚ)
    (A : List MeshId) (st : State) (hinv : Inv A st) (m : MeshId) (o : TerrainPatchMesh)
    (ho : st.heap m = some o) (hw : o.m_wvbo ≠ 0) (hd : o.m_shouldDelete = true)
    (hmT : m ∈ st.m_farMeshes) :
    ∃ st2, drawFarMeshes ext p alpha st = .ok st2 ∧ FreedOnce st st2 m := by
  have hmW : m ∈ st.m_farWaterMeshes := by
    obtain ⟨o2, ho2, hiff⟩ := hinv.2.1.2.2.1 m hmT
    rw [ho] at ho2
    cases ho2
    exact hiff.1 hw
  have hsph : ¬ (m ∈ st.m_meshes ∨ m ∈ st.m_waterMeshes) :=
    fun hc => hinv.2.2.1 m hc (Or.inl hmT)
  obtain ⟨k1, o1, heq1, hord1, hkept1, hinv1⟩ := farWaterPass_inv A st hinv
  obtain ⟨a1, a2, a3, a4⟩ := core_defer false waterVisit waterVisit_draws
    st.m_farWaterMeshes k1 o1 st.heap m o hinv.2.1.2.1 hmW ho hw hd hord1 hkept1
  obtain ⟨k2, o2, heq2, hord2, hkept2, _⟩ := farTerrainPass_inv ext p alpha A _ hinv1
  obtain ⟨b1, b2, b3, b4⟩ := core_delete true (farVisit ext p (terrainDrawSkirts alpha))
    (farVisit_draws _ _ _) st.m_farMeshes k2 o2
    (heapTarget st.m_farWaterMeshes st.heap) m { o with m_wvbo := 0 } hinv.2.1.1 hmT a1 rfl
    hd hord2 hkept2
  refine ⟨_, drawFarMeshes_of _ _ _ _ _ _ heq1 heq2, ?_, ?_, b1,
    fun hc => hsph (Or.inl hc), fun hc => hsph (Or.inr hc), b4, a4⟩
  · show ((st.log ++ _) ++ _).count _ = _
    rw [List.count_append, List.count_append, a2, b2]
  · show ((st.log ++ _) ++ _).count _ = _
    rw [List.count_append, List.count_append, a3, b3]

/-- Scenario B on the far tier. -/
theorem far_terrain_first (ext : Externals) (p p2 : f64v3) (alpha alpha2 : ℚ)
    (A : List MeshId) (st : State) (hinv : Inv A st) (m : MeshId)
    (o : TerrainPatchMesh) (ho : st.heap m = some o) (hw : o.m_wvbo ≠ 0)
    (hd : o.m_shouldDelete = true) (hmT : m ∈ st.m_farMeshes) :
    ∃ st1 st2, farTerrainPass ext p alpha st = .ok st1 ∧
      drawFarMeshes ext p2 alpha2 st1 = .ok st2 ∧ FreedOnce st st2 m := by
  have hmW : m ∈ st.m_farWaterMeshes := by
    obtain ⟨o2, ho2, hiff⟩ := hinv.2.1.2.2.1 m hmT
    rw [ho] at ho2
    cases ho2
    exact hiff.1 hw
  have hsph : ¬ (m ∈ st.m_meshes ∨ m ∈ st.m_waterMeshes) :=
    fun hc => hinv.2.2.1 m hc (Or.inl hmT)
  obtain ⟨k1, o1, heq1, hord1, hkept1, hinv1⟩ := farTerrainPass_inv ext p alpha A st hinv
  obtain ⟨a1, a2, a3, a4⟩ := core_defer true (farVisit ext p (terrainDrawSkirts alpha))
    (farVisit_draws _ _ _) st.m_farMeshes k1 o1 st.heap m o hinv.2.1.1 hmT ho hw hd
    hord1 hkept1
  obtain ⟨k2, o2, heq2, hord2, hkept2, hinv2⟩ := farWaterPass_inv A _ hinv1
  obtain ⟨b1, b2, b3, b4⟩ := core_delete false waterVisit waterVisit_draws
    st.m_farWaterMeshes k2 o2 (heapTarget st.m_farMeshes st.heap) m { o with m_wvbo := 0 }
    hinv.2.1.2.1 hmW a1 rfl hd hord2 hkept2
  obtain ⟨k3, o3, heq3, hord3, hkept3, _⟩ := farTerrainPass_inv ext p2 alpha2 A _ hinv2
  obtain ⟨c1, c2, c3, c4⟩ := core_absent true (farVisit ext p2 (terrainDrawSkirts alpha2))
    (farVisit_draws _ _ _) k1 k3 o3
    (heapTarget st.m_farWaterMeshes (heapTarget st.m_farMeshes st.heap)) m hinv1.2.1.1 a4
    hord3 hkept3
  refine ⟨_, _, heq1, drawFarMeshes_of _ _ _ _ _ _ heq2 heq3, ?_, ?_, c1.trans b1,
    fun hc => hsph (Or.inl hc), fun hc => hsph (Or.inr hc), c4, b4⟩
  · show (((st.log ++ _) ++ _) ++ _).count _ = _
    rw [List.count_append, List.count_append, List.count_append, a2, b2, c2]
  · show (((st.log ++ _) ++ _) ++ _).count _ = _
    rw [List.count_append, List.count_append, List.count_append, a3, b3, c3]

/-- C3: in a reachable state, let `m` be a live mesh in a terrain list that holds a
water buffer and is pending deletion.  Whether the flag is met by the water pass
and then the terrain pass of one draw call, or by the terrain pass and then by
the next draw call (whose water pass comes first), every pass returns, so none
reads a freed object; the passes together add exactly one `delete m` and exactly
one `freeBuffer` of the buffer of `m` to the trace, and leave `m` in no list.  This
holds for `drawSphericalMeshes` and for `drawFarMeshes`. -/
theorem no_double_free (ext : Externals) (sentinel : ℚ) (A : List MeshId) (st : State)
    (hr : Reachable ext sentinel A st) (m : MeshId) (o : TerrainPatchMesh)
    (ho : st.heap m = some o) (hw : o.m_wvbo ≠ 0) (hd : o.m_shouldDelete = true)
    (p p2 : f64v3) (q q2 : f64q) (alpha alpha2 : ℚ) :
    (m ∈ st.m_meshes →
      (∃ st2, drawSphericalMeshes ext p q alpha st = .ok st2 ∧ FreedOnce st st2 m) ∧
      (∃ st1 st2, sphericalTerrainPass ext p q alpha st = .ok st1 ∧
        drawSphericalMeshes ext p2 q2 alpha2 st1 = .ok st2 ∧ FreedOnce st st2 m)) ∧
    (m ∈ st.m_farMeshes →
      (∃ st2, drawFarMeshes ext p alpha st = .ok st2 ∧ FreedOnce st st2 m) ∧
      (∃ st1 st2, farTerrainPass ext p alpha st = .ok st1 ∧
        drawFarMeshes ext p2 alpha2 st1 = .ok st2 ∧ FreedOnce st st2 m)) := by
  have hinv := reachable_inv ext sentinel A st hr
  exact ⟨fun hm => ⟨spherical_water_first ext p q alpha A st hinv m o ho hw hd hm,
      spherical_terrain_first ext p p2 q q2 alpha alpha2 A st hinv m o ho hw hd hm⟩,
    fun hm => ⟨far_water_first ext p alpha A st hinv m o ho hw hd hm,
      far_terrain_first ext p p2 alpha alpha2 A st hinv m o ho hw hd hm⟩⟩

theorem markedState_reachable : Reachable scenarioExt 1000000 [4, 3] markedState :=
  Reachable.mark [4, 3] _ 4
    (Reachable.mark [4, 3] _ 3
      (Reachable.add [3] reachedState1 _ 4 false
        (Reachable.add [] emptyState reachedState1 3 true
          (Reachable.init emptyState rfl rfl rfl rfl) (by decide) rfl)
        (by decide) rfl))

/-- C3, the scenario: meshes 3 and 4 hold a water buffer, were added once and then
marked.  In either order of the passes the trace shows one `freeBuffer` and one
`delete` per mesh. -/
theorem no_double_free_witness :
    logOf (drawSphericalMeshes scenarioExt ⟨0, 0, 0⟩ ⟨0, 0, 0, 1⟩ 1 markedState)
      = [Event.freeBuffer 3, Event.recycleNormalMap 3, Event.deleteMesh 3] ∧
    logOf (drawSphericalMeshes scenarioExt ⟨0, 0, 0⟩ ⟨0, 0, 0, 1⟩ 1
        (okState (sphericalTerrainPass scenarioExt ⟨0, 0, 0⟩ ⟨0, 0, 0, 1⟩ 1 markedState)
          emptyState))
      = [Event.recycleNormalMap 3, Event.freeBuffer 3, Event.deleteMesh 3] ∧
    ((∃ st2, drawSphericalMeshes scenarioExt ⟨0, 0, 0⟩ ⟨0, 0, 0, 1⟩ 1 markedState = .ok st2 ∧
        FreedOnce markedState st2 3) ∧
      (∃ st1 st2,
        sphericalTerrainPass scenarioExt ⟨0, 0, 0⟩ ⟨0, 0, 0, 1⟩ 1 markedState = .ok st1 ∧
        drawSphericalMeshes scenarioExt ⟨0, 0, 0⟩ ⟨0, 0, 0, 1⟩ 1 st1 = .ok st2 ∧
        FreedOnce markedState st2 3)) ∧
    ((∃ st2, drawFarMeshes scenarioExt ⟨0, 0, 0⟩ 1 markedState = .ok st2 ∧
        FreedOnce markedState st2 4) ∧
      (∃ st1 st2, farTerrainPass scenarioExt ⟨0, 0, 0⟩ 1 markedState = .ok st1 ∧
        drawFarMeshes scenarioExt ⟨0, 0, 0⟩ 1 st1 = .ok st2 ∧
        FreedOnce markedState st2 4)) :=
  ⟨by decide!, by decide!,
    (no_double_free scenarioExt 1000000 [4, 3] markedState markedState_reachable 3
      { scenarioMesh with m_wvbo := 9, m_isRenderable := true, m_shouldDelete := true }
      (by decide!) (by decide) rfl ⟨0, 0, 0⟩ ⟨0, 0, 0⟩ ⟨0, 0, 0, 1⟩ ⟨0, 0, 0, 1⟩ 1 1).1
      (by decide),
    (no_double_free scenarioExt 1000000 [4, 3] markedState markedState_reachable 4
      { scenarioMesh with m_wvbo := 9, m_isRenderable := true, m_shouldDelete := true }
      (by decide!) (by decide) rfl ⟨0, 0, 0⟩ ⟨0, 0, 0⟩ ⟨0, 0, 0, 1⟩ ⟨0, 0, 0, 1⟩ 1 1).2
      (by decide)⟩

/-! ## Culling and skirts -/

theorem horizon_first_bool (a b : Bool) (e : Event) :
    (if (!a) = true then (if b = true then [e] else []) else [])
      = if shouldDraw false a b = true then [e] else [] := by
  cases a <;> cases b <;> simp [shouldDraw]

theorem frustum_first_bool (a b : Bool) (e : Event) :
    (if b = true then (if (!a) = true then [e] else []) else [])
      = if shouldDraw false a b = true then [e] else [] := by
  cases a <;> cases b <;> simp [shouldDraw]

theorem sphericalVisit_eq (ext : Externals) (p : f64v3) (q : f64q) (s : Bool) (m : MeshId)
    (o : TerrainPatchMesh) :
    sphericalVisit ext p (ext.rotate (ext.inverse q) p) q s m o
      = if shouldDraw false (sphericalOverHorizon ext p q m) (sphericalInFrustum ext p q o)
          = true
        then [Event.draw m s] else [] :=
  horizon_first_bool _ _ _

theorem farVisit_eq (ext : Externals) (p : f64v3) (s : Bool) (m : MeshId)
    (o : TerrainPatchMesh) :
    farVisit ext p s m o
      = if shouldDraw false (farOverHorizon ext p m) (farInFrustum ext p o) = true
        then [Event.draw m s] else [] :=
  frustum_first_bool _ _ _

theorem count_draw_cell (visit : MeshId → TerrainPatchMesh → List Event) (skirts : Bool)
    (overHorizon : MeshId → Bool) (inFrustum : TerrainPatchMesh → Bool)
    (hvis : ∀ m o, visit m o
      = if shouldDraw false (overHorizon m) (inFrustum o) = true
        then [Event.draw m skirts] else [])
    (recycle : Bool) (h : Heap) (m : MeshId) (s : Bool) :
    (cellEvents recycle visit h m).count (Event.draw m s)
      = if s = skirts ∧ drawnBy h overHorizon inFrustum m = true then 1 else 0 := by
  unfold cellEvents drawnBy
  cases hm : h m with
  | none => simp
  | some o =>
    simp only
    by_cases hd : o.m_shouldDelete = true
    · simp only [hd, if_true]
      cases recycle <;> by_cases hw : o.m_wvbo = 0 <;> simp [hw, shouldDraw]
    · have hd2 : o.m_shouldDelete = false := by simpa using hd
      simp only [hd2, Bool.false_eq_true, if_false]
      rw [hvis]
      by_cases hs : shouldDraw false (overHorizon m) (inFrustum o) = true
      · by_cases hss : s = skirts
        · subst hss
          simp [hs]
        · have : skirts ≠ s := fun hc => hss hc.symm
          simp [hs, hss, this]
      · simp [hs]

theorem draws_exactly (visit : MeshId → TerrainPatchMesh → List Event) (skirts : Bool)
    (overHorizon : MeshId → Bool) (inFrustum : TerrainPatchMesh → Bool)
    (hvis : ∀ m o, visit m o
      = if shouldDraw false (overHorizon m) (inFrustum o) = true
        then [Event.draw m skirts] else [])
    (hv : VisitDraws visit) (recycle : Bool) (h : Heap) (T order : List MeshId)
    (hnd : T.Nodup) (hord : order.Perm T) :
    DrawsExactly T h skirts overHorizon inFrustum
      (order.flatMap (cellEvents recycle visit h)) := by
  intro m s
  rw [count_sweep_events recycle visit hv.own h T order hnd hord]
  simp only [Event.mesh]
  rw [count_draw_cell visit skirts overHorizon inFrustum hvis]
  by_cases hm : m ∈ T
  · simp [hm]
  · simp [hm]

theorem DrawsExactly.skirts {T : List MeshId} {h : Heap} {skirts : Bool}
    {overHorizon : MeshId → Bool} {inFrustum : TerrainPatchMesh → Bool} {ev : List Event}
    (hd : DrawsExactly T h skirts overHorizon inFrustum ev) (m : MeshId) (s : Bool)
    (hmem : Event.draw m s ∈ ev) : s = skirts := by
  have h1 := hd m s
  have h2 : 0 < ev.count (Event.draw m s) := List.count_pos_iff.2 hmem
  by_contra hc
  simp [hc] at h1
  omega

theorem no_draw_in_water (h : Heap) (order : List MeshId) (m : MeshId) (s : Bool) :
    Event.draw m s ∉ order.flatMap (cellEvents false waterVisit h) := by
  intro hc
  obtain ⟨k, _, hk⟩ := List.mem_flatMap.1 hc
  unfold cellEvents at hk
  cases hm : h k with
  | none => simp [hm] at hk
  | some o =>
    simp only [hm] at hk
    cases hd : o.m_shouldDelete with
    | true => by_cases hw : o.m_wvbo = 0 <;> simp [hd, hw] at hk
    | false => simp [hd, waterVisit] at hk

theorem drawState_reachable : Reachable scenarioExt 1000000 [2, 1, 5, 4, 3] drawState :=
  Reachable.add [1, 5, 4, 3] _ _ 2 false
    (Reachable.add [5, 4, 3] _ _ 1 true
      (Reachable.add [4, 3] _ _ 5 true
        (Reachable.add [3] reachedState1 _ 4 false
          (Reachable.add [] emptyState reachedState1 3 true
            (Reachable.init emptyState rfl rfl rfl rfl) (by decide) rfl)
          (by decide) rfl)
        (by decide) rfl)
      (by decide) rfl)
    (by decide) rfl

theorem terrain_passes_draw_exactly (ext : Externals) (p : f64v3) (q : f64q) (alpha : ℚ)
    (st : State) (ht : ListOk st.m_meshes st.heap) (hft : ListOk st.m_farMeshes st.heap) :
    (∃ st1 ev, sphericalTerrainPass ext p q alpha st = .ok st1 ∧ st1.log = st.log ++ ev ∧
      DrawsExactly st.m_meshes st.heap (terrainDrawSkirts alpha)
        (sphericalOverHorizon ext p q) (sphericalInFrustum ext p q) ev) ∧
    (∃ st1 ev, farTerrainPass ext p alpha st = .ok st1 ∧ st1.log = st.log ++ ev ∧
      DrawsExactly st.m_farMeshes st.heap (terrainDrawSkirts alpha)
        (farOverHorizon ext p) (farInFrustum ext p) ev) := by
  constructor
  · obtain ⟨kept, order, heq, hord, _⟩ := sphericalTerrainPass_spec ext p q alpha st ht
    exact ⟨_, _, heq, rfl, draws_exactly _ _ _ _
      (fun m o => sphericalVisit_eq ext p q _ m o) (sphericalVisit_draws _ _ _ _ _)
      true st.heap st.m_meshes order ht.1 hord⟩
  · obtain ⟨kept, order, heq, hord, _⟩ := farTerrainPass_spec ext p alpha st hft
    exact ⟨_, _, heq, rfl, draws_exactly _ _ _ _
      (fun m o => farVisit_eq ext p _ m o) (farVisit_draws _ _ _)
      true st.heap st.m_farMeshes order hft.1 hord⟩

/-- C10: over duplicate-free terrain lists of live meshes, the terrain pass of
each tier returns, and its terrain draw calls are exactly those of the spec's
rule: a listed mesh gets one draw call if and only if it is not pending deletion,
not over the horizon and in the frustum, and no other mesh gets one.  The
horizon-first branch of the spherical sweep and the frustum-first branch of the
far sweep both compute that conjunction of their two tests. -/
theorem draw_iff_both_tests (ext : Externals) (p : f64v3) (q : f64q) (alpha : ℚ) (st : State)
    (ht : ListOk st.m_meshes st.heap) (hft : ListOk st.m_farMeshes st.heap) :
    (∃ st1 ev, sphericalTerrainPass ext p q alpha st = .ok st1 ∧ st1.log = st.log ++ ev ∧
      DrawsExactly st.m_meshes st.heap (terrainDrawSkirts alpha)
        (sphericalOverHorizon ext p q) (sphericalInFrustum ext p q) ev) ∧
    (∃ st1 ev, farTerrainPass ext p alpha st = .ok st1 ∧ st1.log = st.log ++ ev ∧
      DrawsExactly st.m_farMeshes st.heap (terrainDrawSkirts alpha)
        (farOverHorizon ext p) (farInFrustum ext p) ev) ∧
    (∀ m o s, sphericalVisit ext p (ext.rotate (ext.inverse q) p) q s m o
      = if shouldDraw false (sphericalOverHorizon ext p q m) (sphericalInFrustum ext p q o)
          = true
        then [Event.draw m s] else []) ∧
    (∀ m o s, farVisit ext p s m o
      = if shouldDraw false (farOverHorizon ext p m) (farInFrustum ext p o) = true
        then [Event.draw m s] else []) := by
  obtain ⟨h1, h2⟩ := terrain_passes_draw_exactly ext p q alpha st ht hft
  exact ⟨h1, h2, fun m o s => sphericalVisit_eq ext p q s m o,
    fun m o s => farVisit_eq ext p s m o⟩

/-- C10, the scenario: of the meshes 1 (pending deletion), 2 (over the horizon),
3 (outside the frustum) and 4, only mesh 4 is drawn, in both tiers. -/
theorem draw_iff_both_tests_witness :
    logOf (sphericalTerrainPass cullExt ⟨0, 0, 0⟩ ⟨0, 0, 0, 1⟩ 1 cullState)
      = [Event.recycleNormalMap 1, Event.deleteMesh 1, Event.draw 4 true] ∧
    logOf (farTerrainPass cullExt ⟨0, 0, 0⟩ 1 cullState)
      = [Event.recycleNormalMap 1, Event.deleteMesh 1, Event.draw 4 true] ∧
    (∃ st1 ev, sphericalTerrainPass cullExt ⟨0, 0, 0⟩ ⟨0, 0, 0, 1⟩ 1 cullState = .ok st1 ∧
      st1.log = cullState.log ++ ev ∧
      DrawsExactly cullState.m_meshes cullState.heap (terrainDrawSkirts 1)
        (sphericalOverHorizon cullExt ⟨0, 0, 0⟩ ⟨0, 0, 0, 1⟩)
        (sphericalInFrustum cullExt ⟨0, 0, 0⟩ ⟨0, 0, 0, 1⟩) ev) :=
  ⟨by decide!, by decide!,
    (draw_iff_both_tests cullExt ⟨0, 0, 0⟩ ⟨0, 0, 0, 1⟩ 1 cullState
      ⟨by decide, by decide⟩ ⟨by decide, by decide⟩).1⟩

/-- C8 as amended: over duplicate-free terrain lists of live meshes, the terrain
pass of each tier returns, and every terrain draw call it makes has
`drawSkirts = false` when `alpha < 1` and `drawSkirts = true` when `1 ≤ alpha`. -/
theorem skirts_iff_alpha_not_below_one (ext : Externals) (p : f64v3) (q : f64q) (alpha : ℚ)
    (st : State) (ht : ListOk st.m_meshes st.heap) (hft : ListOk st.m_farMeshes st.heap) :
    (∃ st1 ev, sphericalTerrainPass ext p q alpha st = .ok st1 ∧ st1.log = st.log ++ ev ∧
      ∀ m s, Event.draw m s ∈ ev → (alpha < 1 → s = false) ∧ (1 ≤ alpha → s = true)) ∧
    (∃ st1 ev, farTerrainPass ext p alpha st = .ok st1 ∧ st1.log = st.log ++ ev ∧
      ∀ m s, Event.draw m s ∈ ev → (alpha < 1 → s = false) ∧ (1 ≤ alpha → s = true)) := by
  have hsk : ∀ s, s = terrainDrawSkirts alpha →
      (alpha < 1 → s = false) ∧ (1 ≤ alpha → s = true) := by
    intro s hs
    subst hs
    constructor
    · intro ha; simp [terrainDrawSkirts, ha]
    · intro ha; simp [terrainDrawSkirts, not_lt.2 ha]
  obtain ⟨⟨st1, ev1, h1, h2, h3⟩, ⟨st2, ev2, h4, h5, h6⟩⟩ :=
    terrain_passes_draw_exactly ext p q alpha st ht hft
  exact ⟨⟨st1, ev1, h1, h2, fun m s hm => hsk s (h3.skirts m s hm)⟩,
    ⟨st2, ev2, h4, h5, fun m s hm => hsk s (h6.skirts m s hm)⟩⟩

/-- C8, the scenario: with `alpha = 1` the meshes 3 and 5 are drawn with skirts,
with `alpha = 1/2` without. -/
theorem skirts_iff_alpha_not_below_one_witness :
    logOf (sphericalTerrainPass scenarioExt ⟨0, 0, 0⟩ ⟨0, 0, 0, 1⟩ 1 drawState)
      = [Event.draw 3 true, Event.draw 5 true, Event.recycleNormalMap 1,
          Event.freeBuffer 1] ∧
    logOf (sphericalTerrainPass scenarioExt ⟨0, 0, 0⟩ ⟨0, 0, 0, 1⟩ (1 / 2) drawState)
      = [Event.draw 3 false, Event.draw 5 false, Event.recycleNormalMap 1,
          Event.freeBuffer 1] ∧
    (∃ st1 ev,
      sphericalTerrainPass scenarioExt ⟨0, 0, 0⟩ ⟨0, 0, 0, 1⟩ (1 / 2) drawState = .ok st1 ∧
      st1.log = drawState.log ++ ev ∧
      ∀ m s, Event.draw m s ∈ ev →
        (((1 : ℚ) / 2 < 1 → s = false) ∧ (1 ≤ (1 : ℚ) / 2 → s = true))) :=
  ⟨by decide!, by decide!,
    (skirts_iff_alpha_not_below_one scenarioExt ⟨0, 0, 0⟩ ⟨0, 0, 0, 1⟩ (1 / 2) drawState
      ⟨by decide, by decide⟩ ⟨by decide, by decide⟩).1⟩

/-- C8 as stated fails above full opacity: with `alpha = 2`, which differs from 1,
the terrain pass of either tier draws a mesh with `drawSkirts = true`. -/
theorem skirts_drawn_above_one :
    (2 : ℚ) ≠ 1 ∧
    ¬ (∀ m s, Event.draw m s ∈
        logOf (sphericalTerrainPass scenarioExt ⟨0, 0, 0⟩ ⟨0, 0, 0, 1⟩ 2 drawState) →
        s = false) ∧
    ¬ (∀ m s, Event.draw m s ∈ logOf (farTerrainPass scenarioExt ⟨0, 0, 0⟩ 2 drawState) →
        s = false) := by
  refine ⟨by norm_num, ?_, ?_⟩
  · intro hc
    have h1 : Event.draw 3 true ∈
        logOf (sphericalTerrainPass scenarioExt ⟨0, 0, 0⟩ ⟨0, 0, 0, 1⟩ 2 drawState) := by
      decide!
    exact Bool.noConfusion (hc 3 true h1)
  · intro hc
    have h1 : Event.draw 4 true ∈
        logOf (farTerrainPass scenarioExt ⟨0, 0, 0⟩ 2 drawState) := by
      decide!
    exact Bool.noConfusion (hc 4 true h1)

/-- C9: in a state satisfying the registry invariant, for every `alpha` below 1
`drawSphericalMeshes` and `drawFarMeshes` return, and every terrain draw call they
make has `drawSkirts = false`, whatever the members of the meshes are. -/
theorem no_skirts_below_one (ext : Externals) (p : f64v3) (q : f64q) (alpha : ℚ)
    (A : List MeshId) (st : State) (halpha : alpha < 1) (hinv : Inv A st) :
    (∃ st2 ev, drawSphericalMeshes ext p q alpha st = .ok st2 ∧ st2.log = st.log ++ ev ∧
      ∀ m s, Event.draw m s ∈ ev → s = false) ∧
    (∃ st2 ev, drawFarMeshes ext p alpha st = .ok st2 ∧ st2.log = st.log ++ ev ∧
      ∀ m s, Event.draw m s ∈ ev → s = false) := by
  have hsk : terrainDrawSkirts alpha = false := by simp [terrainDrawSkirts, halpha]
  constructor
  · obtain ⟨k1, o1, heq1, _, _, hinv1⟩ := sphericalWaterPass_inv A st hinv
    obtain ⟨k2, o2, heq2, hord2, _⟩ :=
      sphericalTerrainPass_spec ext p q alpha _ hinv1.1.terrain
    refine ⟨_, _, drawSphericalMeshes_of _ _ _ _ _ _ _ heq1 heq2,
      List.append_assoc _ _ _, ?_⟩
    intro m s hm
    rcases List.mem_append.1 hm with hm | hm
    · exact absurd hm (no_draw_in_water _ _ m s)
    · have := (draws_exactly _ _ _ _ (fun m o => sphericalVisit_eq ext p q _ m o)
        (sphericalVisit_draws _ _ _ _ _) true _ _ o2 hinv1.1.1 hord2).skirts m s hm
      rw [this, hsk]
  · obtain ⟨k1, o1, heq1, _, _, hinv1⟩ := farWaterPass_inv A st hinv
    obtain ⟨k2, o2, heq2, hord2, _⟩ := farTerrainPass_spec ext p alpha _ hinv1.2.1.terrain
    refine ⟨_, _, drawFarMeshes_of _ _ _ _ _ _ heq1 heq2, List.append_assoc _ _ _, ?_⟩
    intro m s hm
    rcases List.mem_append.1 hm with hm | hm
    · exact absurd hm (no_draw_in_water _ _ m s)
    · have := (draws_exactly _ _ _ _ (fun m o => farVisit_eq ext p _ m o)
        (farVisit_draws _ _ _) true _ _ o2 hinv1.2.1.1 hord2).skirts m s hm
      rw [this, hsk]

/-- C9, the scenario: `alpha = 0.5`; the meshes 3 and 5 of the spherical tier and
mesh 4 of the far tier are drawn without skirts. -/
theorem no_skirts_below_one_witness :
    logOf (drawSphericalMeshes scenarioExt ⟨0, 0, 0⟩ ⟨0, 0, 0, 1⟩ (1 / 2) drawState)
      = [Event.drawWater 3, Event.freeBuffer 1, Event.draw 3 false, Event.draw 5 false,
          Event.recycleNormalMap 1, Event.deleteMesh 1] ∧
    logOf (drawFarMeshes scenarioExt ⟨0, 0, 0⟩ (1 / 2) drawState)
      = [Event.drawWater 4, Event.draw 4 false, Event.recycleNormalMap 2,
          Event.deleteMesh 2] ∧
    ((∃ st2 ev, drawSphericalMeshes scenarioExt ⟨0, 0, 0⟩ ⟨0, 0, 0, 1⟩ (1 / 2) drawState
        = .ok st2 ∧ st2.log = drawState.log ++ ev ∧
        ∀ m s, Event.draw m s ∈ ev → s = false) ∧
      (∃ st2 ev, drawFarMeshes scenarioExt ⟨0, 0, 0⟩ (1 / 2) drawState = .ok st2 ∧
        st2.log = drawState.log ++ ev ∧
        ∀ m s, Event.draw m s ∈ ev → s = false)) :=
  ⟨by decide!, by decide!,
    no_skirts_below_one scenarioExt ⟨0, 0, 0⟩ ⟨0, 0, 0, 1⟩ (1 / 2) [2, 1, 5, 4, 3] drawState
      (by decide!) (reachable_inv scenarioExt 1000000 [2, 1, 5, 4, 3] drawState
        drawState_reachable)⟩

/-! ## Scattering uniforms -/

/-- C11: `setScatterUniforms` makes no upload when the atmosphere parameter set is
absent.  When it is present, with outer radius different from the inner radius and
non-zero scale depth, then at every position it makes 17 uploads, all to the given
program, and uploads exactly once each: `unCameraHeight2` = the square of the
length of the position (`camHeight * camHeight`, with `camHeight` what
`glm::length` returns), `unOuterRadius2` = `radius * radius`, `unScale` =
`1 / (radius - planetRadius)` (the inverse of the radius difference),
`unScaleOverScaleDepth` = `unScale / scaleDepth`, `unNumSamples` = 3,
`unNumSamplesF` = 3 and `unG2` = `g * g`.  Where `glm::length` is exact, the value of
`unCameraHeight2` is the dot product of the position with itself.  The uploads are
a function of the arguments alone. -/
theorem setScatterUniforms_values (glmLength : f32v3 → ℚ) (program : Nat) (relPos : f64v3)
    (a : AtmosphereComponent) (hr : a.radius ≠ a.planetRadius) (hs : a.scaleDepth ≠ 0) :
    setScatterUniforms glmLength program relPos none = [] ∧
    (setScatterUniforms glmLength program relPos (some a)).length = 17 ∧
    (∀ u ∈ setScatterUniforms glmLength program relPos (some a), u.program = program) ∧
    uploadsOf "unCameraHeight2" (setScatterUniforms glmLength program relPos (some a))
      = [.float (glmLength relPos * glmLength relPos)] ∧
    (glmLength relPos * glmLength relPos = selfDot relPos →
      uploadsOf "unCameraHeight2" (setScatterUniforms glmLength program relPos (some a))
        = [.float (selfDot relPos)]) ∧
    uploadsOf "unOuterRadius2" (setScatterUniforms glmLength program relPos (some a))
      = [.float (a.radius * a.radius)] ∧
    uploadsOf "unScale" (setScatterUniforms glmLength program relPos (some a))
      = [.float (1 / (a.radius - a.planetRadius))] ∧
    1 / (a.radius - a.planetRadius) * (a.radius - a.planetRadius) = 1 ∧
    uploadsOf "unScaleOverScaleDepth" (setScatterUniforms glmLength program relPos (some a))
      = [.float (1 / (a.radius - a.planetRadius) / a.scaleDepth)] ∧
    1 / (a.radius - a.planetRadius) / a.scaleDepth * a.scaleDepth
      = 1 / (a.radius - a.planetRadius) ∧
    uploadsOf "unNumSamples" (setScatterUniforms glmLength program relPos (some a))
      = [.int 3] ∧
    uploadsOf "unNumSamplesF" (setScatterUniforms glmLength program relPos (some a))
      = [.float 3] ∧
    uploadsOf "unG2" (setScatterUniforms glmLength program relPos (some a))
      = [.float (a.g * a.g)] := by
  have hd : a.radius - a.planetRadius ≠ 0 := sub_ne_zero.2 hr
  refine ⟨rfl, rfl, ?_, ?_, ?_, ?_, ?_, ?_, ?_, ?_, ?_, ?_, ?_⟩
  · intro u hu
    simp [setScatterUniforms] at hu
    rcases hu with h | h | h | h | h | h | h | h | h | h | h | h | h | h | h | h | h <;>
      rw [h]
  · simp [setScatterUniforms, uploadsOf]
  · intro hlen
    simp [setScatterUniforms, uploadsOf, hlen]
  · simp [setScatterUniforms, uploadsOf]
  · simp [setScatterUniforms, uploadsOf]
  · field_simp
  · simp [setScatterUniforms, uploadsOf]
  · field_simp
    ring
  · simp [setScatterUniforms, uploadsOf]
  · simp [setScatterUniforms, uploadsOf]
  · simp [setScatterUniforms, uploadsOf]

/-- C11, the scenario: inner radius 10, outer radius 12, scale depth 1/4,
`g = -3/4`.  At the position `(3, 4, 0)`, of length 5, `unCameraHeight2` is 25, the
dot product; at `(1, 1, 0)`, where the length returned is 7/5, all 17 uploads are
made as well and `unCameraHeight2` is 49/25. -/
theorem setScatterUniforms_values_witness :
    uploadsOf "unCameraHeight2"
        (setScatterUniforms scenarioLength 7 ⟨3, 4, 0⟩ (some scenarioAtmosphere))
      = [.float 25] ∧
    uploadsOf "unCameraHeight2"
        (setScatterUniforms scenarioLength 7 ⟨1, 1, 0⟩ (some scenarioAtmosphere))
      = [.float (49 / 25)] ∧
    uploadsOf "unScale"
        (setScatterUniforms scenarioLength 7 ⟨1, 1, 0⟩ (some scenarioAtmosphere))
      = [.float (1 / 2)] ∧
    uploadsOf "unScaleOverScaleDepth"
        (setScatterUniforms scenarioLength 7 ⟨1, 1, 0⟩ (some scenarioAtmosphere))
      = [.float 2] ∧
    uploadsOf "unG2"
        (setScatterUniforms scenarioLength 7 ⟨1, 1, 0⟩ (some scenarioAtmosphere))
      = [.float (9 / 16)] ∧
    (setScatterUniforms scenarioLength 7 ⟨1, 1, 0⟩ none = [] ∧
      (setScatterUniforms scenarioLength 7 ⟨1, 1, 0⟩ (some scenarioAtmosphere)).length
        = 17) ∧
    uploadsOf "unCameraHeight2"
        (setScatterUniforms scenarioLength 7 ⟨3, 4, 0⟩ (some scenarioAtmosphere))
      = [.float (selfDot ⟨3, 4, 0⟩)] :=
  ⟨by decide!, by decide!, by decide!, by decide!, by decide!,
    ⟨(setScatterUniforms_values scenarioLength 7 ⟨1, 1, 0⟩ scenarioAtmosphere
        (by decide!) (by decide!)).1,
      (setScatterUniforms_values scenarioLength 7 ⟨1, 1, 0⟩ scenarioAtmosphere
        (by decide!) (by decide!)).2.1⟩,
    (setScatterUniforms_values scenarioLength 7 ⟨3, 4, 0⟩ scenarioAtmosphere
      (by decide!) (by decide!)).2.2.2.2.1 (by decide!)⟩

/-! ## Every entry is examined once -/

theorem swapRemove_slot (l : List MeshId) (i : Nat) (h : i + 1 < l.length) :
    (swapRemove l i)[i]? = l.getLast? := by
  have hi : i < l.length := by omega
  cases hl : l.getLast? with
  | none =>
    rw [List.getLast?_eq_none_iff] at hl
    subst hl
    simp at hi
  | some b =>
    unfold swapRemove
    rw [hl]
    simp only
    rw [List.dropLast_eq_take, List.getElem?_take]
    simp
    refine ⟨by omega, ?_⟩
    rw [List.getElem?_eq_getElem (by simpa using hi)]
    simp

theorem examinedOnce_of (recycle : Bool) (visit : MeshId → TerrainPatchMesh → List Event)
    (hv : VisitDraws visit) (l kept order : List MeshId) (h : Heap) (hok : ListOk l h)
    (hord : order.Perm l) (hkept : kept.Perm (l.filter (fun m => !pending h m))) :
    ExaminedOnce recycle visit l h kept (order.flatMap (cellEvents recycle visit h)) := by
  have hcount := count_sweep_events recycle visit hv.own h l order hok.1 hord
  have hmem := mem_kept_iff l kept h hkept
  refine ⟨order, hord, rfl, ?_, hcount, ?_, ?_, ?_⟩
  · intro m hm
    rw [hord.count_eq]
    exact List.count_eq_one_of_mem hok.1 hm
  · intro m hm hp
    obtain ⟨o, ho⟩ := Option.isSome_iff_exists.1 (hok.2 m hm)
    have hd : o.m_shouldDelete = true := by simpa [pending, ho] using hp
    rw [hcount, hcount]
    by_cases hw : o.m_wvbo = 0 <;> cases recycle <;>
      simp [Event.mesh, hm, cellEvents, ho, hd, hw]
  · intro m hm hp
    exact (hmem m).2 ⟨hm, hp⟩
  · intro m hm
    exact ((hmem m).1 hm).2

theorem count_drawWater (l order : List MeshId) (h : Heap) (hok : ListOk l h)
    (hord : order.Perm l) (m : MeshId) (hm : m ∈ l) (hp : pending h m = false) :
    (order.flatMap (cellEvents false waterVisit h)).count (Event.drawWater m) = 1 := by
  obtain ⟨o, ho⟩ := Option.isSome_iff_exists.1 (hok.2 m hm)
  have hd : o.m_shouldDelete = false := by simpa [pending, ho] using hp
  rw [count_sweep_events false waterVisit waterVisit_draws.own h l order hok.1 hord]
  simp [Event.mesh, hm, cellEvents, ho, hd, waterVisit]

theorem count_recycle (visit : MeshId → TerrainPatchMesh → List Event)
    (hv : VisitDraws visit) (l order : List MeshId) (h : Heap) (hok : ListOk l h)
    (hord : order.Perm l) (m : MeshId) (hm : m ∈ l) (hp : pending h m = true) :
    (order.flatMap (cellEvents true visit h)).count (Event.recycleNormalMap m) = 1 := by
  obtain ⟨o, ho⟩ := Option.isSome_iff_exists.1 (hok.2 m hm)
  have hd : o.m_shouldDelete = true := by simpa [pending, ho] using hp
  rw [count_sweep_events true visit hv.own h l order hok.1 hord]
  by_cases hw : o.m_wvbo = 0 <;> simp [Event.mesh, hm, cellEvents, ho, hd, hw]

/-- C12: over duplicate-free lists of live meshes each of the four sweeps returns
and examines every entry of the original list exactly once (`ExaminedOnce`): every
mesh that is not pending gets its draw branch once (in a water sweep one
`drawWater`), every pending mesh gets the free-or-defer rule once (in a terrain
sweep after one `recycleNormalMap`), and no pending mesh is left in the list.  In an
iteration that removes the entry at the cursor the loop goes on with the same
cursor, and unless that entry was the last one the slot now holds the former last
entry, which is therefore examined next. -/
theorem sweep_examines_each_once (ext : Externals) (p : f64v3) (q : f64q) (alpha : ℚ)
    (st : State)
    (hw : ListOk st.m_waterMeshes st.heap) (ht : ListOk st.m_meshes st.heap)
    (hfw : ListOk st.m_farWaterMeshes st.heap) (hft : ListOk st.m_farMeshes st.heap) :
    (∃ st1 ev, sphericalWaterPass st = .ok st1 ∧ st1.log = st.log ++ ev ∧
      ExaminedOnce false waterVisit st.m_waterMeshes st.heap st1.m_waterMeshes ev ∧
      (∀ m ∈ st.m_waterMeshes, pending st.heap m = false →
        ev.count (Event.drawWater m) = 1)) ∧
    (∃ st1 ev, sphericalTerrainPass ext p q alpha st = .ok st1 ∧ st1.log = st.log ++ ev ∧
      ExaminedOnce true
        (sphericalVisit ext p (ext.rotate (ext.inverse q) p) q (terrainDrawSkirts alpha))
        st.m_meshes st.heap st1.m_meshes ev ∧
      (∀ m ∈ st.m_meshes, pending st.heap m = true →
        ev.count (Event.recycleNormalMap m) = 1)) ∧
    (∃ st1 ev, farWaterPass st = .ok st1 ∧ st1.log = st.log ++ ev ∧
      ExaminedOnce false waterVisit st.m_farWaterMeshes st.heap st1.m_farWaterMeshes ev ∧
      (∀ m ∈ st.m_farWaterMeshes, pending st.heap m = false →
        ev.count (Event.drawWater m) = 1)) ∧
    (∃ st1 ev, farTerrainPass ext p alpha st = .ok st1 ∧ st1.log = st.log ++ ev ∧
      ExaminedOnce true (farVisit ext p (terrainDrawSkirts alpha))
        st.m_farMeshes st.heap st1.m_farMeshes ev ∧
      (∀ m ∈ st.m_farMeshes, pending st.heap m = true →
        ev.count (Event.recycleNormalMap m) = 1)) ∧
    (∀ (recycle : Bool) (visit : MeshId → TerrainPatchMesh → List Event) (fuel i : Nat)
      (l : List MeshId) (h : Heap) (log : List Event) (m : MeshId) (o : TerrainPatchMesh),
      l[i]? = some m → h m = some o → o.m_shouldDelete = true →
      sweepLoop recycle visit (fuel + 1) i l h log
        = sweepLoop recycle visit fuel i (swapRemove l i) (h.set m (sweepCell (h m)))
            (log ++ cellEvents recycle visit h m) ∧
      (i + 1 < l.length → (swapRemove l i)[i]? = l.getLast?)) := by
  refine ⟨?_, ?_, ?_, ?_, ?_⟩
  · obtain ⟨kept, order, heq, hord, hkept⟩ := sphericalWaterPass_spec st hw
    exact ⟨_, _, heq, rfl,
      examinedOnce_of false waterVisit waterVisit_draws _ kept order _ hw hord hkept,
      fun m hm hp => count_drawWater _ order _ hw hord m hm hp⟩
  · obtain ⟨kept, order, heq, hord, hkept⟩ := sphericalTerrainPass_spec ext p q alpha st ht
    exact ⟨_, _, heq, rfl,
      examinedOnce_of true _ (sphericalVisit_draws _ _ _ _ _) _ kept order _ ht hord hkept,
      fun m hm hp => count_recycle _ (sphericalVisit_draws _ _ _ _ _) _ order _ ht hord
        m hm hp⟩
  · obtain ⟨kept, order, heq, hord, hkept⟩ := farWaterPass_spec st hfw
    exact ⟨_, _, heq, rfl,
      examinedOnce_of false waterVisit waterVisit_draws _ kept order _ hfw hord hkept,
      fun m hm hp => count_drawWater _ order _ hfw hord m hm hp⟩
  · obtain ⟨kept, order, heq, hord, hkept⟩ := farTerrainPass_spec ext p alpha st hft
    exact ⟨_, _, heq, rfl,
      examinedOnce_of true _ (farVisit_draws _ _ _) _ kept order _ hft hord hkept,
      fun m hm hp => count_recycle _ (farVisit_draws _ _ _) _ order _ hft hord m hm hp⟩
  · intro recycle visit fuel i l h log m o hget ho hdel
    exact ⟨sweepLoop_delete recycle visit fuel i l h log m o hget ho hdel,
      fun hi => swapRemove_slot l i hi⟩

/-- C12, the scenario: the spherical terrain list `[1, 2, 3, 5, 4]` has the pending
meshes 1, 2 and 4.  Removing 1 brings the pending last entry 4 to the cursor, which
is examined next and removed, then 5 is drawn, 2 removed and 3 drawn; the far
terrain list `[3, 1]` loses its pending last entry. -/
theorem sweep_examines_each_once_witness :
    logOf (sphericalTerrainPass scenarioExt ⟨0, 0, 0⟩ ⟨0, 0, 0, 1⟩ 1 runState)
      = [Event.recycleNormalMap 1, Event.deleteMesh 1, Event.recycleNormalMap 4,
          Event.deleteMesh 4, Event.draw 5 true, Event.recycleNormalMap 2,
          Event.deleteMesh 2, Event.draw 3 true] ∧
    listsOf (sphericalTerrainPass scenarioExt ⟨0, 0, 0⟩ ⟨0, 0, 0, 1⟩ 1 runState)
      = ([5, 3], [], [3, 1], []) ∧
    listsOf (farTerrainPass scenarioExt ⟨0, 0, 0⟩ 1 runState)
      = ([1, 2, 3, 5, 4], [], [3], []) ∧
    (∃ st1 ev,
      sphericalTerrainPass scenarioExt ⟨0, 0, 0⟩ ⟨0, 0, 0, 1⟩ 1 runState = .ok st1 ∧
      st1.log = runState.log ++ ev ∧
      ExaminedOnce true
        (sphericalVisit scenarioExt ⟨0, 0, 0⟩
          (scenarioExt.rotate (scenarioExt.inverse ⟨0, 0, 0, 1⟩) ⟨0, 0, 0⟩) ⟨0, 0, 0, 1⟩
          (terrainDrawSkirts 1))
        runState.m_meshes runState.heap st1.m_meshes ev ∧
      (∀ m ∈ runState.m_meshes, pending runState.heap m = true →
        ev.count (Event.recycleNormalMap m) = 1)) :=
  ⟨by decide!, by decide!, by decide!,
    (sweep_examines_each_once scenarioExt ⟨0, 0, 0⟩ ⟨0, 0, 0, 1⟩ 1 runState
      ⟨by decide, by decide⟩ ⟨by decide, by decide⟩ ⟨by decide, by decide⟩
      ⟨by decide, by decide⟩).2.1⟩

/-! ## What a sort leaves alone -/

theorem sameMembers_heapAfter (D : MeshId → ℚ) (l : List MeshId) (h : Heap) :
    SameMembers h (heapAfter D l h) := by
  intro k
  unfold heapAfter
  by_cases hk : k ∈ l
  · refine ⟨fun hc => by simp [hk, hc], ?_⟩
    intro o ho
    exact ⟨{ o with distance2 := D k }, by simp [hk, ho], rfl, rfl, rfl, rfl, rfl⟩
  · simp only [hk, if_false]
    exact ⟨fun hc => hc, fun o ho => ⟨o, ho, rfl, rfl, rfl, rfl, rfl⟩⟩

/-- C14: over terrain lists of live meshes, `sortSpericalMeshes` returns and leaves
the spherical water list, both far lists, `m_closestFarDistance2` and the trace
unchanged, and `sortFarMeshes` returns and leaves the far water list, both
spherical lists, `m_closestSphericalDistance2` and the trace unchanged; neither
changes the water handle, the pending-deletion flag or the renderable flag of any
mesh, nor frees one. -/
theorem sort_leaves_rest_unchanged (gcp : MeshId → f64v3 → f64v3) (sentinel : ℚ)
    (p : f64v3) (st : State)
    (hs : ∀ m ∈ st.m_meshes, (st.heap m).isSome = true)
    (hf : ∀ m ∈ st.m_farMeshes, (st.heap m).isSome = true) :
    (∃ st1, sortSpericalMeshes gcp sentinel p st = .ok st1 ∧
      st1.m_waterMeshes = st.m_waterMeshes ∧ st1.m_farMeshes = st.m_farMeshes ∧
      st1.m_farWaterMeshes = st.m_farWaterMeshes ∧
      st1.m_closestFarDistance2 = st.m_closestFarDistance2 ∧ st1.log = st.log ∧
      SameMembers st.heap st1.heap) ∧
    (∃ st2, sortFarMeshes gcp sentinel p st = .ok st2 ∧
      st2.m_farWaterMeshes = st.m_farWaterMeshes ∧ st2.m_meshes = st.m_meshes ∧
      st2.m_waterMeshes = st.m_waterMeshes ∧
      st2.m_closestSphericalDistance2 = st.m_closestSphericalDistance2 ∧
      st2.log = st.log ∧ SameMembers st.heap st2.heap) :=
  ⟨⟨_, sortSpericalMeshes_eq gcp sentinel p st hs, rfl, rfl, rfl, rfl, rfl,
      sameMembers_heapAfter _ _ _⟩,
    ⟨_, sortFarMeshes_eq gcp sentinel p st hf, rfl, rfl, rfl, rfl, rfl,
      sameMembers_heapAfter _ _ _⟩⟩

/-- C14, the scenario: sorting the spherical terrain list of `sweepState`, whose
mesh 1 has its closest point at `(1, 0, 0)` and the others at `(5, 0, 0)`, from the
origin and from `(6, 0, 0)`, rearranges nothing but that list. -/
theorem sort_leaves_rest_unchanged_witness :
    listsOf (sortSpericalMeshes scenarioClosestPoint 1000000 ⟨0, 0, 0⟩ sweepState)
      = ([1, 5, 4, 3], [3, 4, 1], [2], [6, 2]) ∧
    listsOf (sortSpericalMeshes scenarioClosestPoint 1000000 ⟨6, 0, 0⟩
        { sweepState with m_meshes := [3, 1, 4] })
      = ([4, 3, 1], [3, 4, 1], [2], [6, 2]) ∧
    (∃ st1, sortSpericalMeshes scenarioClosestPoint 1000000 ⟨0, 0, 0⟩ sweepState = .ok st1 ∧
      st1.m_waterMeshes = sweepState.m_waterMeshes ∧
      st1.m_farMeshes = sweepState.m_farMeshes ∧
      st1.m_farWaterMeshes = sweepState.m_farWaterMeshes ∧
      st1.m_closestFarDistance2 = sweepState.m_closestFarDistance2 ∧
      st1.log = sweepState.log ∧ SameMembers sweepState.heap st1.heap) :=
  ⟨by decide!, by decide!,
    (sort_leaves_rest_unchanged scenarioClosestPoint 1000000 ⟨0, 0, 0⟩ sweepState
      (by decide) (by decide)).1⟩

/-! ## Termination of the sweeps -/

theorem swapRemove_length (l : List MeshId) (i : Nat) :
    (swapRemove l i).length = l.length - 1 := by
  unfold swapRemove
  cases hl : l.getLast? with
  | none =>
    rw [List.getLast?_eq_none_iff] at hl
    subst hl
    rfl
  | some b => simp

theorem getElem?_some_lt (l : List MeshId) (i : Nat) (m : MeshId) (h : l[i]? = some m) :
    i < l.length := by
  by_contra hc
  rw [List.getElem?_eq_none (not_lt.1 hc)] at h
  cases h

theorem sweepLoop_fuel (recycle : Bool) (visit : MeshId → TerrainPatchMesh → List Event) :
    ∀ (fuel i : Nat) (l : List MeshId) (h : Heap) (log : List Event),
      l.length - i ≤ fuel → sweepLoop recycle visit fuel i l h log ≠ .error .outOfFuel := by
  intro fuel
  induction fuel with
  | zero =>
    intro i l h log hle
    have : ¬ i < l.length := by omega
    simp [sweepLoop, this]
  | succ n ih =>
    intro i l h log hle
    rw [sweepLoop]
    cases hget : l[i]? with
    | none => simp
    | some m =>
      have hi := getElem?_some_lt l i m hget
      cases hm : h m with
      | none => simp [hm]
      | some o =>
        simp only [hm]
        have hsw : (swapRemove l i).length - i ≤ n := by
          rw [swapRemove_length]
          omega
        by_cases hd : o.m_shouldDelete = true
        · by_cases hw : o.m_wvbo = 0
          · simp only [hd, if_true, hw, ne_eq, not_true_eq_false, if_false]
            exact ih _ _ _ _ hsw
          · simp only [hd, if_true, hw, ne_eq, not_false_eq_true]
            exact ih _ _ _ _ hsw
        · have hd2 : o.m_shouldDelete = false := by simpa using hd
          simp only [hd2, Bool.false_eq_true, if_false]
          exact ih _ _ _ _ (by omega)

theorem sweepLoop_short (recycle : Bool) (visit : MeshId → TerrainPatchMesh → List Event) :
    ∀ (fuel : Nat) (pre rest : List MeshId) (h : Heap) (log : List Event),
      rest.Nodup → (∀ m ∈ rest, (h m).isSome = true) → fuel < rest.length →
      sweepLoop recycle visit fuel pre.length (pre ++ rest) h log = .error .outOfFuel := by
  intro fuel
  induction fuel with
  | zero =>
    intro pre rest h log _ _ hlt
    have hne : rest ≠ [] := by
      intro hc
      subst hc
      simp at hlt
    simp [sweepLoop, hne]
  | succ n ih =>
    intro pre rest h log hnd hlive hlt
    cases rest with
    | nil => simp at hlt
    | cons m post =>
      have hget : (pre ++ m :: post)[pre.length]? = some m := by
        rw [List.getElem?_append_right (Nat.le_refl _)]
        simp
      obtain ⟨o, ho⟩ := Option.isSome_iff_exists.1 (hlive m (List.mem_cons_self _ _))
      have hmp : m ∉ post := (List.nodup_cons.1 hnd).1
      have hndp : post.Nodup := (List.nodup_cons.1 hnd).2
      have hlen : n < post.length := by
        simp only [List.length_cons] at hlt
        omega
      cases hdel : o.m_shouldDelete with
      | true =>
        obtain ⟨post2, hsw, hperm2⟩ := swapRemove_append pre post m
        rw [sweepLoop_delete recycle visit n _ _ h log m o hget ho hdel, hsw]
        have hne : ∀ k ∈ post2, k ≠ m := fun k hk hkm => hmp (hkm ▸ hperm2.mem_iff.1 hk)
        apply ih pre post2 _ _ (hperm2.nodup_iff.2 hndp)
        · intro k hk
          rw [Heap.set_other _ _ _ _ (hne k hk)]
          exact hlive k (List.mem_cons_of_mem _ (hperm2.mem_iff.1 hk))
        · rw [hperm2.length_eq]
          exact hlen
      | false =>
        rw [sweepLoop_keep recycle visit n _ _ h log m o hget ho hdel]
        have hpre : pre ++ m :: post = (pre ++ [m]) ++ post := by simp
        have hlen2 : pre.length + 1 = (pre ++ [m]).length := by simp
        rw [hpre, hlen2]
        exact ih (pre ++ [m]) post h _ hndp
          (fun k hk => hlive k (List.mem_cons_of_mem _ hk)) hlen

theorem sweepLoop_step (recycle : Bool) (visit : MeshId → TerrainPatchMesh → List Event)
    (fuel i : Nat) (l : List MeshId) (h : Heap) (log : List Event) (m : MeshId)
    (o : TerrainPatchMesh) (hget : l[i]? = some m) (ho : h m = some o) :
    i < l.length ∧
    ∃ (i2 : Nat) (l2 : List MeshId) (h2 : Heap) (log2 : List Event),
      sweepLoop recycle visit (fuel + 1) i l h log = sweepLoop recycle visit fuel i2 l2 h2 log2 ∧
      ((i2 = i + 1 ∧ l2 = l) ∨ (i2 = i ∧ l2.length + 1 = l.length)) ∧
      l2.length - i2 < l.length - i ∧ i2 ≤ l2.length := by
  have hi := getElem?_some_lt l i m hget
  refine ⟨hi, ?_⟩
  cases hdel : o.m_shouldDelete with
  | true =>
    refine ⟨i, swapRemove l i, _, _,
      sweepLoop_delete recycle visit fuel i l h log m o hget ho hdel, Or.inr ⟨rfl, ?_⟩, ?_, ?_⟩
    · rw [swapRemove_length]; omega
    · rw [swapRemove_length]; omega
    · rw [swapRemove_length]; omega
  | false =>
    exact ⟨i + 1, l, _, _, sweepLoop_keep recycle visit fuel i l h log m o hget ho hdel,
      Or.inl ⟨rfl, rfl⟩, by omega, by omega⟩

theorem pass_not_outOfFuel (recycle : Bool) (visit : MeshId → TerrainPatchMesh → List Event)
    (l : List MeshId) (h : Heap) (log : List Event) :
    sweep recycle visit l h log ≠ .error .outOfFuel :=
  sweepLoop_fuel recycle visit l.length 0 l h log (by omega)

theorem sphericalWaterPass_fuel (st : State) : sphericalWaterPass st ≠ .error .outOfFuel := by
  intro hc
  unfold sphericalWaterPass at hc
  split at hc
  · split at hc
    · next e he =>
      cases hc
      exact pass_not_outOfFuel _ _ _ _ _ he
    · cases hc
  · cases hc

theorem sphericalTerrainPass_fuel (ext : Externals) (p : f64v3) (q : f64q) (alpha : ℚ)
    (st : State) : sphericalTerrainPass ext p q alpha st ≠ .error .outOfFuel := by
  intro hc
  unfold sphericalTerrainPass at hc
  simp only at hc
  split at hc
  · split at hc
    · next e he =>
      cases hc
      exact pass_not_outOfFuel _ _ _ _ _ he
    · cases hc
  · cases hc

theorem farWaterPass_fuel (st : State) : farWaterPass st ≠ .error .outOfFuel := by
  intro hc
  unfold farWaterPass at hc
  split at hc
  · split at hc
    · next e he =>
      cases hc
      exact pass_not_outOfFuel _ _ _ _ _ he
    · cases hc
  · cases hc

theorem farTerrainPass_fuel (ext : Externals) (p : f64v3) (alpha : ℚ) (st : State) :
    farTerrainPass ext p alpha st ≠ .error .outOfFuel := by
  intro hc
  unfold farTerrainPass at hc
  split at hc
  · split at hc
    · next e he =>
      cases hc
      exact pass_not_outOfFuel _ _ _ _ _ he
    · cases hc
  · cases hc

/-- C15: the index-cursor loop over a duplicate-free list `l` of live meshes returns
after exactly `l.length` iterations: with `l.length` iterations allowed it returns,
with fewer it is cut off.  For every list at all, the iteration bound `l.length` is
never what stops the loop, in any of the four sweeps.  Every iteration reads the
list at a cursor `i < l.length`, and either advances the cursor by one or shrinks
the list by one, so `length - cursor` strictly decreases and the cursor never
exceeds the length of the list. -/
theorem sweep_terminates (recycle : Bool) (visit : MeshId → TerrainPatchMesh → List Event)
    (l : List MeshId) (h : Heap) (log : List Event) (hok : ListOk l h) :
    (∃ r, sweepLoop recycle visit l.length 0 l h log = .ok r) ∧
    (∀ fuel, fuel < l.length →
      sweepLoop recycle visit fuel 0 l h log = .error .outOfFuel) ∧
    (∀ (l2 : List MeshId) (h2 : Heap) (log2 : List Event),
      sweep recycle visit l2 h2 log2 ≠ .error .outOfFuel) ∧
    (∀ (ext : Externals) (p : f64v3) (q : f64q) (alpha : ℚ) (st : State),
      sphericalWaterPass st ≠ .error .outOfFuel ∧
      sphericalTerrainPass ext p q alpha st ≠ .error .outOfFuel ∧
      farWaterPass st ≠ .error .outOfFuel ∧
      farTerrainPass ext p alpha st ≠ .error .outOfFuel) ∧
    (∀ (fuel i : Nat) (l2 : List MeshId) (h2 : Heap) (log2 : List Event) (m : MeshId)
      (o : TerrainPatchMesh), l2[i]? = some m → h2 m = some o →
      i < l2.length ∧
      ∃ (i3 : Nat) (l3 : List MeshId) (h3 : Heap) (log3 : List Event),
        sweepLoop recycle visit (fuel + 1) i l2 h2 log2
          = sweepLoop recycle visit fuel i3 l3 h3 log3 ∧
        ((i3 = i + 1 ∧ l3 = l2) ∨ (i3 = i ∧ l3.length + 1 = l2.length)) ∧
        l3.length - i3 < l2.length - i ∧ i3 ≤ l3.length) := by
  refine ⟨?_, ?_, fun l2 h2 log2 => pass_not_outOfFuel recycle visit l2 h2 log2,
    fun ext p q alpha st => ⟨sphericalWaterPass_fuel st,
      sphericalTerrainPass_fuel ext p q alpha st, farWaterPass_fuel st,
      farTerrainPass_fuel ext p alpha st⟩,
    fun fuel i l2 h2 log2 m o hget ho =>
      sweepLoop_step recycle visit fuel i l2 h2 log2 m o hget ho⟩
  · obtain ⟨kept, order, heq, _, _⟩ := sweep_spec recycle visit l h log hok
    exact ⟨_, heq⟩
  · intro fuel hlt
    exact sweepLoop_short recycle visit fuel [] l h log hok.1 hok.2 hlt

/-- C15, the scenario: a water sweep over the five meshes `[1, 2, 3, 5, 4]`, three of
them pending, is cut off with four iterations allowed and returns with five. -/
theorem sweep_terminates_witness :
    ranOutOfFuel (sweepLoop false waterVisit 4 0 [1, 2, 3, 5, 4] runHeap []) = true ∧
    ranOutOfFuel (sweepLoop false waterVisit 5 0 [1, 2, 3, 5, 4] runHeap []) = false ∧
    (∃ r, sweepLoop false waterVisit [1, 2, 3, 5, 4].length 0 [1, 2, 3, 5, 4] runHeap []
      = .ok r) ∧
    (∀ fuel, fuel < [1, 2, 3, 5, 4].length →
      sweepLoop false waterVisit fuel 0 [1, 2, 3, 5, 4] runHeap [] = .error .outOfFuel) :=
  ⟨by decide, by decide,
    (sweep_terminates false waterVisit [1, 2, 3, 5, 4] runHeap [] ⟨by decide, by decide⟩).1,
    (sweep_terminates false waterVisit [1, 2, 3, 5, 4] runHeap []
      ⟨by decide, by decide⟩).2.1⟩

/-! ## Recycling the normal map -/

theorem no_recycle_in_water (h : Heap) (order : List MeshId) (k : MeshId) :
    Event.recycleNormalMap k ∉ order.flatMap (cellEvents false waterVisit h) := by
  intro hc
  obtain ⟨j, _, hj⟩ := List.mem_flatMap.1 hc
  unfold cellEvents at hj
  cases hm : h j with
  | none => simp [hm] at hj
  | some o =>
    simp only [hm] at hj
    by_cases hd : o.m_shouldDelete = true
    · by_cases hw : o.m_wvbo = 0 <;> simp [hd, hw] at hj
    · have hd2 : o.m_shouldDelete = false := by simpa using hd
      simp [hd2, waterVisit] at hj

theorem count_of_not_listed (recycle : Bool) (visit : MeshId → TerrainPatchMesh → List Event)
    (hv : VisitDraws visit) (h : Heap) (l order : List MeshId) (hnd : l.Nodup)
    (hord : order.Perm l) (e : Event) (hm : e.mesh ∉ l) :
    (order.flatMap (cellEvents recycle visit h)).count e = 0 := by
  rw [count_sweep_events recycle visit hv.own h l order hnd hord]
  simp [hm]

theorem terrain_cell_split (visit : MeshId → TerrainPatchMesh → List Event)
    (l order : List MeshId) (h : Heap) (m : MeshId) (o : TerrainPatchMesh)
    (hmem : m ∈ l) (ho : h m = some o) (hd : o.m_shouldDelete = true)
    (hord : order.Perm l) :
    ∃ pre post, order.flatMap (cellEvents true visit h)
      = pre ++ Event.recycleNormalMap m ::
          (if o.m_wvbo ≠ 0 then Event.freeBuffer m else Event.deleteMesh m) :: post := by
  obtain ⟨o1, o2, hsplit⟩ := List.append_of_mem (hord.mem_iff.2 hmem)
  refine ⟨o1.flatMap (cellEvents true visit h), o2.flatMap (cellEvents true visit h), ?_⟩
  rw [hsplit, List.flatMap_append, List.flatMap_cons]
  simp [cellEvents, ho, hd]

/-- The state of a pending mesh of the terrain list `T` after the water sweep of
its tier, whether or not it holds a water buffer: the object is live with an empty
handle, and the sweep has not freed it. -/
theorem water_sweep_leaves_pending (T W kept order : List MeshId) (h : Heap)
    (hok : TierOk T W h) (m : MeshId) (o : TerrainPatchMesh) (hmT : m ∈ T)
    (ho : h m = some o) (hd : o.m_shouldDelete = true) (hord : order.Perm W)
    (hkept : kept.Perm (W.filter (fun k => !pending h k))) :
    (∃ o2, heapTarget W h m = some o2 ∧ o2.m_wvbo = 0 ∧ o2.m_shouldDelete = true) ∧
    (order.flatMap (cellEvents false waterVisit h)).count (Event.deleteMesh m) = 0 ∧
    (order.flatMap (cellEvents false waterVisit h)).count (Event.recycleNormalMap m) = 0 := by
  have hrec : (order.flatMap (cellEvents false waterVisit h)).count
      (Event.recycleNormalMap m) = 0 :=
    List.count_eq_zero.2 (no_recycle_in_water h order m)
  obtain ⟨o3, ho3, hiff⟩ := hok.2.2.1 m hmT
  rw [ho] at ho3
  cases ho3
  by_cases hw : o.m_wvbo = 0
  · have hmW : m ∉ W := fun hc => (hiff.2 hc) hw
    obtain ⟨a1, a2, _, _⟩ := core_absent false waterVisit waterVisit_draws W kept order h m
      hok.2.1 hmW hord hkept
    exact ⟨⟨o, by rw [a1]; exact ho, hw, hd⟩, a2, hrec⟩
  · obtain ⟨a1, a2, _, _⟩ := core_defer false waterVisit waterVisit_draws W kept order h m o
      hok.2.1 (hiff.1 hw) ho hw hd hord hkept
    exact ⟨⟨_, a1, rfl, hd⟩, a2, hrec⟩

theorem recycledOnce_of_split (m : MeshId) (ev1 ev2 pre post : List Event)
    (h1 : ev1.count (Event.deleteMesh m) = 0)
    (h2 : ev1.count (Event.recycleNormalMap m) = 0)
    (h3 : ev2.count (Event.recycleNormalMap m) = 1)
    (h4 : ev2.count (Event.deleteMesh m) = 1)
    (hsplit : ev2 = pre ++ Event.recycleNormalMap m :: Event.deleteMesh m :: post) :
    RecycledOnceBeforeFree m (ev1 ++ ev2) := by
  refine ⟨by rw [List.count_append, h2, h3], by rw [List.count_append, h1, h4],
    ev1 ++ pre, Event.deleteMesh m :: post, ?_, List.mem_cons_self _ _⟩
  rw [hsplit, List.append_assoc]

/-- Scenario A on the spherical tier, with or without a water buffer: the pending
mesh goes through one whole `drawSphericalMeshes` call. -/
theorem spherical_recycle_water_first (ext : Externals) (p : f64v3) (q : f64q) (alpha : ℚ)
    (A : List MeshId) (st : State) (hinv : Inv A st) (m : MeshId) (o : TerrainPatchMesh)
    (ho : st.heap m = some o) (hd : o.m_shouldDelete = true) (hmT : m ∈ st.m_meshes) :
    ∃ st2 ev, drawSphericalMeshes ext p q alpha st = .ok st2 ∧ st2.log = st.log ++ ev ∧
      RecycledOnceBeforeFree m ev := by
  obtain ⟨k1, o1, heq1, hord1, hkept1, hinv1⟩ := sphericalWaterPass_inv A st hinv
  obtain ⟨⟨oa, hoa, hwa, hda⟩, a2, a3⟩ := water_sweep_leaves_pending st.m_meshes
    st.m_waterMeshes k1 o1 st.heap hinv.1 m o hmT ho hd hord1 hkept1
  obtain ⟨k2, o2, heq2, hord2, hkept2, _⟩ :=
    sphericalTerrainPass_inv ext p q alpha A _ hinv1
  obtain ⟨_, b2, _, _⟩ := core_delete true
    (sphericalVisit ext p (ext.rotate (ext.inverse q) p) q (terrainDrawSkirts alpha))
    (sphericalVisit_draws _ _ _ _ _) st.m_meshes k2 o2
    (heapTarget st.m_waterMeshes st.heap) m oa hinv.1.1 hmT hoa hwa hda hord2 hkept2
  have b3 := count_recycle
    (sphericalVisit ext p (ext.rotate (ext.inverse q) p) q (terrainDrawSkirts alpha))
    (sphericalVisit_draws _ _ _ _ _) st.m_meshes o2 (heapTarget st.m_waterMeshes st.heap)
    hinv1.1.terrain hord2 m hmT (by simp [pending, hoa, hda])
  obtain ⟨pre, post, hsplit⟩ := terrain_cell_split
    (sphericalVisit ext p (ext.rotate (ext.inverse q) p) q (terrainDrawSkirts alpha))
    st.m_meshes o2 (heapTarget st.m_waterMeshes st.heap) m oa hmT hoa hda hord2
  simp only [hwa, ne_eq, not_true_eq_false, if_false] at hsplit
  exact ⟨_, _, drawSphericalMeshes_of _ _ _ _ _ _ _ heq1 heq2, List.append_assoc _ _ _,
    recycledOnce_of_split m _ _ pre post a2 a3 b3 b2 hsplit⟩

theorem terrain_cell_split_pre (visit : MeshId → TerrainPatchMesh → List Event)
    (hv : VisitDraws visit) (l order : List MeshId) (h : Heap) (m : MeshId)
    (o : TerrainPatchMesh) (hnd : l.Nodup) (hmem : m ∈ l) (ho : h m = some o)
    (hd : o.m_shouldDelete = true) (hord : order.Perm l) :
    ∃ pre post, order.flatMap (cellEvents true visit h)
      = pre ++ Event.recycleNormalMap m ::
          (if o.m_wvbo ≠ 0 then Event.freeBuffer m else Event.deleteMesh m) :: post ∧
      Event.deleteMesh m ∉ pre := by
  obtain ⟨o1, o2, hsplit⟩ := List.append_of_mem (hord.mem_iff.2 hmem)
  have hndo : (o1 ++ m :: o2).Nodup := hsplit ▸ hord.nodup_iff.2 hnd
  have hm1 : m ∉ o1 := by
    intro hc
    have := (List.nodup_append.1 hndo).2.2 hc (List.mem_cons_self m o2)
    exact this
  refine ⟨o1.flatMap (cellEvents true visit h), o2.flatMap (cellEvents true visit h), ?_, ?_⟩
  · rw [hsplit, List.flatMap_append, List.flatMap_cons]
    simp [cellEvents, ho, hd]
  · intro hc
    obtain ⟨k, hk, hke⟩ := List.mem_flatMap.1 hc
    have := cellEvents_mesh true visit hv.own h k _ hke
    simp only [Event.mesh] at this
    exact hm1 (this ▸ hk)

theorem recycledOnce_of_parts (m : MeshId) (ev pre rest : List Event)
    (hsplit : ev = pre ++ Event.recycleNormalMap m :: rest)
    (hpre : Event.deleteMesh m ∉ pre)
    (hr : ev.count (Event.recycleNormalMap m) = 1)
    (hdel : ev.count (Event.deleteMesh m) = 1) : RecycledOnceBeforeFree m ev := by
  refine ⟨hr, hdel, pre, rest, hsplit, ?_⟩
  have h0 : pre.count (Event.deleteMesh m) = 0 := List.count_eq_zero.2 hpre
  rw [hsplit, List.count_append, h0, List.count_cons] at hdel
  simp at hdel
  exact List.count_pos_iff.1 (by omega)

theorem recycledOnce_of_three (m : MeshId) (ev1 ev2 ev3 pre post : List Event) (x : Event)
    (hsplit : ev1 = pre ++ Event.recycleNormalMap m :: x :: post)
    (hpre : Event.deleteMesh m ∉ pre)
    (r1 : ev1.count (Event.recycleNormalMap m) = 1)
    (r2 : ev2.count (Event.recycleNormalMap m) = 0)
    (r3 : ev3.count (Event.recycleNormalMap m) = 0)
    (d : ev1.count (Event.deleteMesh m) + ev2.count (Event.deleteMesh m)
      + ev3.count (Event.deleteMesh m) = 1) :
    RecycledOnceBeforeFree m (ev1 ++ (ev2 ++ ev3)) := by
  refine recycledOnce_of_parts m _ pre (x :: post ++ (ev2 ++ ev3)) ?_ hpre ?_ ?_
  · rw [hsplit]
    simp only [List.append_assoc, List.cons_append]
  · rw [List.count_append, List.count_append, r1, r2, r3]
  · rw [List.count_append, List.count_append]
    omega

/-- Scenario B on the spherical tier, with or without a water buffer: the pending
mesh is met by the terrain pass of one call, and then the next whole
`drawSphericalMeshes` call runs. -/
theorem spherical_recycle_terrain_first (ext : Externals) (p p2 : f64v3) (q q2 : f64q)
    (alpha alpha2 : ℚ) (A : List MeshId) (st : State) (hinv : Inv A st) (m : MeshId)
    (o : TerrainPatchMesh) (ho : st.heap m = some o) (hd : o.m_shouldDelete = true)
    (hmT : m ∈ st.m_meshes) :
    ∃ st1 st2 ev, sphericalTerrainPass ext p q alpha st = .ok st1 ∧
      drawSphericalMeshes ext p2 q2 alpha2 st1 = .ok st2 ∧ st2.log = st.log ++ ev ∧
      RecycledOnceBeforeFree m ev := by
  obtain ⟨k1, o1, heq1, hord1, hkept1, hinv1⟩ :=
    sphericalTerrainPass_inv ext p q alpha A st hinv
  obtain ⟨k2, o2, heq2, hord2, hkept2, hinv2⟩ := sphericalWaterPass_inv A _ hinv1
  obtain ⟨k3, o3, heq3, hord3, hkept3, _⟩ :=
    sphericalTerrainPass_inv ext p2 q2 alpha2 A _ hinv2
  have r1 := count_recycle
    (sphericalVisit ext p (ext.rotate (ext.inverse q) p) q (terrainDrawSkirts alpha))
    (sphericalVisit_draws _ _ _ _ _) st.m_meshes o1 st.heap hinv.1.terrain hord1 m hmT
    (by simp [pending, ho, hd])
  have r2 : (o2.flatMap (cellEvents false waterVisit (heapTarget st.m_meshes st.heap))).count
      (Event.recycleNormalMap m) = 0 := List.count_eq_zero.2 (no_recycle_in_water _ o2 m)
  obtain ⟨pre, post, hsplit, hpre⟩ := terrain_cell_split_pre
    (sphericalVisit ext p (ext.rotate (ext.inverse q) p) q (terrainDrawSkirts alpha))
    (sphericalVisit_draws _ _ _ _ _) st.m_meshes o1 st.heap m o hinv.1.1 hmT ho hd hord1
  obtain ⟨o4, ho4, hiff⟩ := hinv.1.2.2.1 m hmT
  rw [ho] at ho4
  cases ho4
  have hdsum_rec : ∀ (m3 : m ∉ k1),
      (o3.flatMap (cellEvents true
        (sphericalVisit ext p2 (ext.rotate (ext.inverse q2) p2) q2 (terrainDrawSkirts alpha2))
        (heapTarget st.m_waterMeshes (heapTarget st.m_meshes st.heap)))).count
          (Event.recycleNormalMap m) = 0 ∧
      (o3.flatMap (cellEvents true
        (sphericalVisit ext p2 (ext.rotate (ext.inverse q2) p2) q2 (terrainDrawSkirts alpha2))
        (heapTarget st.m_waterMeshes (heapTarget st.m_meshes st.heap)))).count
          (Event.deleteMesh m) = 0 := fun m3 =>
    ⟨count_of_not_listed true _ (sphericalVisit_draws _ _ _ _ _) _ k1 o3 hinv1.1.1 hord3 _ m3,
      count_of_not_listed true _ (sphericalVisit_draws _ _ _ _ _) _ k1 o3 hinv1.1.1 hord3 _ m3⟩
  refine ⟨_, _, _, heq1, drawSphericalMeshes_of _ _ _ _ _ _ _ heq2 heq3,
    (List.append_assoc _ _ _).trans (List.append_assoc _ _ _), ?_⟩
  by_cases hw : o.m_wvbo = 0
  · have hmW : m ∉ st.m_waterMeshes := fun hc => (hiff.2 hc) hw
    obtain ⟨_, a2, _, a4⟩ := core_delete true
      (sphericalVisit ext p (ext.rotate (ext.inverse q) p) q (terrainDrawSkirts alpha))
      (sphericalVisit_draws _ _ _ _ _) st.m_meshes k1 o1 st.heap m o hinv.1.1 hmT ho hw hd
      hord1 hkept1
    have b2 := count_of_not_listed false waterVisit waterVisit_draws
      (heapTarget st.m_meshes st.heap) st.m_waterMeshes o2 hinv.1.2.1 hord2
      (Event.deleteMesh m) hmW
    obtain ⟨c1, c2⟩ := hdsum_rec a4
    exact recycledOnce_of_three m _ _ _ pre post _ hsplit hpre r1 r2 c1
      (by rw [a2, b2, c2])
  · have hmW : m ∈ st.m_waterMeshes := hiff.1 hw
    obtain ⟨a1, a2, _, a4⟩ := core_defer true
      (sphericalVisit ext p (ext.rotate (ext.inverse q) p) q (terrainDrawSkirts alpha))
      (sphericalVisit_draws _ _ _ _ _) st.m_meshes k1 o1 st.heap m o hinv.1.1 hmT ho hw hd
      hord1 hkept1
    obtain ⟨_, b2, _, _⟩ := core_delete false waterVisit waterVisit_draws
      st.m_waterMeshes k2 o2 (heapTarget st.m_meshes st.heap) m { o with m_wvbo := 0 }
      hinv.1.2.1 hmW a1 rfl hd hord2 hkept2
    obtain ⟨c1, c2⟩ := hdsum_rec a4
    exact recycledOnce_of_three m _ _ _ pre post _ hsplit hpre r1 r2 c1
      (by rw [a2, b2, c2])

/-- Scenario A on the far tier, with or without a water buffer: the pending
mesh goes through one whole `drawFarMeshes` call. -/
theorem far_recycle_water_first (ext : Externals) (p : f64v3) (alpha : ℚ)
    (A : List MeshId) (st : State) (hinv : Inv A st) (m : MeshId) (o : TerrainPatchMesh)
    (ho : st.heap m = some o) (hd : o.m_shouldDelete = true) (hmT : m ∈ st.m_farMeshes) :
    ∃ st2 ev, drawFarMeshes ext p alpha st = .ok st2 ∧ st2.log = st.log ++ ev ∧
      RecycledOnceBeforeFree m ev := by
  obtain ⟨k1, o1, heq1, hord1, hkept1, hinv1⟩ := farWaterPass_inv A st hinv
  obtain ⟨⟨oa, hoa, hwa, hda⟩, a2, a3⟩ := water_sweep_leaves_pending st.m_farMeshes
    st.m_farWaterMeshes k1 o1 st.heap hinv.2.1 m o hmT ho hd hord1 hkept1
  obtain ⟨k2, o2, heq2, hord2, hkept2, _⟩ :=
    farTerrainPass_inv ext p alpha A _ hinv1
  obtain ⟨_, b2, _, _⟩ := core_delete true
    (farVisit ext p (terrainDrawSkirts alpha))
    (farVisit_draws _ _ _) st.m_farMeshes k2 o2
    (heapTarget st.m_farWaterMeshes st.heap) m oa hinv.2.1.1 hmT hoa hwa hda hord2 hkept2
  have b3 := count_recycle
    (farVisit ext p (terrainDrawSkirts alpha))
    (farVisit_draws _ _ _) st.m_farMeshes o2 (heapTarget st.m_farWaterMeshes st.heap)
    hinv1.2.1.terrain hord2 m hmT (by simp [pending, hoa, hda])
  obtain ⟨pre, post, hsplit⟩ := terrain_cell_split
    (farVisit ext p (terrainDrawSkirts alpha))
    st.m_farMeshes o2 (heapTarget st.m_farWaterMeshes st.heap) m oa hmT hoa hda hord2
  simp only [hwa, ne_eq, not_true_eq_false, if_false] at hsplit
  exact ⟨_, _, drawFarMeshes_of _ _ _ _ _ _ heq1 heq2, List.append_assoc _ _ _,
    recycledOnce_of_split m _ _ pre post a2 a3 b3 b2 hsplit⟩

/-- Scenario B on the far tier, with or without a water buffer: the pending
mesh is met by the terrain pass of one call, and then the next whole
`drawFarMeshes` call runs. -/
theorem far_recycle_terrain_first (ext : Externals) (p p2 : f64v3)
    (alpha alpha2 : ℚ) (A : List MeshId) (st : State) (hinv : Inv A st) (m : MeshId)
    (o : TerrainPatchMesh) (ho : st.heap m = some o) (hd : o.m_shouldDelete = true)
    (hmT : m ∈ st.m_farMeshes) :
    ∃ st1 st2 ev, farTerrainPass ext p alpha st = .ok st1 ∧
      drawFarMeshes ext p2 alpha2 st1 = .ok st2 ∧ st2.log = st.log ++ ev ∧
      RecycledOnceBeforeFree m ev := by
  obtain ⟨k1, o1, heq1, hord1, hkept1, hinv1⟩ :=
    farTerrainPass_inv ext p alpha A st hinv
  obtain ⟨k2, o2, heq2, hord2, hkept2, hinv2⟩ := farWaterPass_inv A _ hinv1
  obtain ⟨k3, o3, heq3, hord3, hkept3, _⟩ :=
    farTerrainPass_inv ext p2 alpha2 A _ hinv2
  have r1 := count_recycle
    (farVisit ext p (terrainDrawSkirts alpha))
    (farVisit_draws _ _ _) st.m_farMeshes o1 st.heap hinv.2.1.terrain hord1 m hmT
    (by simp [pending, ho, hd])
  have r2 : (o2.flatMap (cellEvents false waterVisit (heapTarget st.m_farMeshes st.heap))).count
      (Event.recycleNormalMap m) = 0 := List.count_eq_zero.2 (no_recycle_in_water _ o2 m)
  obtain ⟨pre, post, hsplit, hpre⟩ := terrain_cell_split_pre
    (farVisit ext p (terrainDrawSkirts alpha))
    (farVisit_draws _ _ _) st.m_farMeshes o1 st.heap m o hinv.2.1.1 hmT ho hd hord1
  obtain ⟨o4, ho4, hiff⟩ := hinv.2.1.2.2.1 m hmT
  rw [ho] at ho4
  cases ho4
  have hdsum_rec : ∀ (m3 : m ∉ k1),
      (o3.flatMap (cellEvents true
        (farVisit ext p2 (terrainDrawSkirts alpha2))
        (heapTarget st.m_farWaterMeshes (heapTarget st.m_farMeshes st.heap)))).count
          (Event.recycleNormalMap m) = 0 ∧
      (o3.flatMap (cellEvents true
        (farVisit ext p2 (terrainDrawSkirts alpha2))
        (heapTarget st.m_farWaterMeshes (heapTarget st.m_farMeshes st.heap)))).count
          (Event.deleteMesh m) = 0 := fun m3 =>
    ⟨count_of_not_listed true _ (farVisit_draws _ _ _) _ k1 o3 hinv1.2.1.1 hord3 _ m3,
      count_of_not_listed true _ (farVisit_draws _ _ _) _ k1 o3 hinv1.2.1.1 hord3 _ m3⟩
  refine ⟨_, _, _, heq1, drawFarMeshes_of _ _ _ _ _ _ heq2 heq3,
    (List.append_assoc _ _ _).trans (List.append_assoc _ _ _), ?_⟩
  by_cases hw : o.m_wvbo = 0
  · have hmW : m ∉ st.m_farWaterMeshes := fun hc => (hiff.2 hc) hw
    obtain ⟨_, a2, _, a4⟩ := core_delete true
      (farVisit ext p (terrainDrawSkirts alpha))
      (farVisit_draws _ _ _) st.m_farMeshes k1 o1 st.heap m o hinv.2.1.1 hmT ho hw hd
      hord1 hkept1
    have b2 := count_of_not_listed false waterVisit waterVisit_draws
      (heapTarget st.m_farMeshes st.heap) st.m_farWaterMeshes o2 hinv.2.1.2.1 hord2
      (Event.deleteMesh m) hmW
    obtain ⟨c1, c2⟩ := hdsum_rec a4
    exact recycledOnce_of_three m _ _ _ pre post _ hsplit hpre r1 r2 c1
      (by rw [a2, b2, c2])
  · have hmW : m ∈ st.m_farWaterMeshes := hiff.1 hw
    obtain ⟨a1, a2, _, a4⟩ := core_defer true
      (farVisit ext p (terrainDrawSkirts alpha))
      (farVisit_draws _ _ _) st.m_farMeshes k1 o1 st.heap m o hinv.2.1.1 hmT ho hw hd
      hord1 hkept1
    obtain ⟨_, b2, _, _⟩ := core_delete false waterVisit waterVisit_draws
      st.m_farWaterMeshes k2 o2 (heapTarget st.m_farMeshes st.heap) m { o with m_wvbo := 0 }
      hinv.2.1.2.1 hmW a1 rfl hd hord2 hkept2
    obtain ⟨c1, c2⟩ := hdsum_rec a4
    exact recycledOnce_of_three m _ _ _ pre post _ hsplit hpre r1 r2 c1
      (by rw [a2, b2, c2])

/-- C13: in a reachable state, let `m` be a live mesh of a terrain list that is
pending deletion, with or without a water buffer.  Whether it goes through one
whole draw call (water pass, then terrain pass), or is met first by the terrain
pass and then by the next whole draw call, every pass returns, and the calls made
recycle the normal map of `m` exactly once and free the mesh object exactly once,
the recycling first.  A water pass makes no `recycleNormalMap` call at all.  This
holds for both tiers. -/
theorem normal_map_recycled_once (ext : Externals) (sentinel : ℚ) (A : List MeshId)
    (st : State) (hr : Reachable ext sentinel A st) (m : MeshId) (o : TerrainPatchMesh)
    (ho : st.heap m = some o) (hd : o.m_shouldDelete = true)
    (p p2 : f64v3) (q q2 : f64q) (alpha alpha2 : ℚ) :
    (m ∈ st.m_meshes →
      (∃ st2 ev, drawSphericalMeshes ext p q alpha st = .ok st2 ∧ st2.log = st.log ++ ev ∧
        RecycledOnceBeforeFree m ev) ∧
      (∃ st1 st2 ev, sphericalTerrainPass ext p q alpha st = .ok st1 ∧
        drawSphericalMeshes ext p2 q2 alpha2 st1 = .ok st2 ∧ st2.log = st.log ++ ev ∧
        RecycledOnceBeforeFree m ev)) ∧
    (m ∈ st.m_farMeshes →
      (∃ st2 ev, drawFarMeshes ext p alpha st = .ok st2 ∧ st2.log = st.log ++ ev ∧
        RecycledOnceBeforeFree m ev) ∧
      (∃ st1 st2 ev, farTerrainPass ext p alpha st = .ok st1 ∧
        drawFarMeshes ext p2 alpha2 st1 = .ok st2 ∧ st2.log = st.log ++ ev ∧
        RecycledOnceBeforeFree m ev)) ∧
    (∃ st1 ev, sphericalWaterPass st = .ok st1 ∧ st1.log = st.log ++ ev ∧
      ∀ k, Event.recycleNormalMap k ∉ ev) ∧
    (∃ st1 ev, farWaterPass st = .ok st1 ∧ st1.log = st.log ++ ev ∧
      ∀ k, Event.recycleNormalMap k ∉ ev) := by
  have hinv := reachable_inv ext sentinel A st hr
  refine ⟨fun hm => ⟨spherical_recycle_water_first ext p q alpha A st hinv m o ho hd hm,
      spherical_recycle_terrain_first ext p p2 q q2 alpha alpha2 A st hinv m o ho hd hm⟩,
    fun hm => ⟨far_recycle_water_first ext p alpha A st hinv m o ho hd hm,
      far_recycle_terrain_first ext p p2 alpha alpha2 A st hinv m o ho hd hm⟩, ?_, ?_⟩
  · obtain ⟨k1, o1, heq1, _, _, _⟩ := sphericalWaterPass_inv A st hinv
    exact ⟨_, _, heq1, rfl, fun k => no_recycle_in_water _ o1 k⟩
  · obtain ⟨k1, o1, heq1, _, _, _⟩ := farWaterPass_inv A st hinv
    exact ⟨_, _, heq1, rfl, fun k => no_recycle_in_water _ o1 k⟩

/-- C13, the scenario: in `drawState` the pending mesh 1 of the spherical tier holds
a water buffer and the pending mesh 2 of the far tier holds none.  In each order of
the passes the trace shows one `recycleNormalMap` per mesh, before its `delete`. -/
theorem normal_map_recycled_once_witness :
    logOf (drawSphericalMeshes scenarioExt ⟨0, 0, 0⟩ ⟨0, 0, 0, 1⟩ 1 drawState)
      = [Event.drawWater 3, Event.freeBuffer 1, Event.draw 3 true, Event.draw 5 true,
          Event.recycleNormalMap 1, Event.deleteMesh 1] ∧
    logOf (drawSphericalMeshes scenarioExt ⟨0, 0, 0⟩ ⟨0, 0, 0, 1⟩ 1
        (okState (sphericalTerrainPass scenarioExt ⟨0, 0, 0⟩ ⟨0, 0, 0, 1⟩ 1 drawState)
          emptyState))
      = [Event.draw 3 true, Event.draw 5 true, Event.recycleNormalMap 1,
          Event.freeBuffer 1, Event.drawWater 3, Event.deleteMesh 1, Event.draw 3 true,
          Event.draw 5 true] ∧
    logOf (drawFarMeshes scenarioExt ⟨0, 0, 0⟩ 1 drawState)
      = [Event.drawWater 4, Event.draw 4 true, Event.recycleNormalMap 2,
          Event.deleteMesh 2] ∧
    ((∃ st2 ev, drawSphericalMeshes scenarioExt ⟨0, 0, 0⟩ ⟨0, 0, 0, 1⟩ 1 drawState = .ok st2 ∧
        st2.log = drawState.log ++ ev ∧ RecycledOnceBeforeFree 1 ev) ∧
      (∃ st1 st2 ev,
        sphericalTerrainPass scenarioExt ⟨0, 0, 0⟩ ⟨0, 0, 0, 1⟩ 1 drawState = .ok st1 ∧
        drawSphericalMeshes scenarioExt ⟨0, 0, 0⟩ ⟨0, 0, 0, 1⟩ 1 st1 = .ok st2 ∧
        st2.log = drawState.log ++ ev ∧ RecycledOnceBeforeFree 1 ev)) ∧
    ((∃ st2 ev, drawFarMeshes scenarioExt ⟨0, 0, 0⟩ 1 drawState = .ok st2 ∧
        st2.log = drawState.log ++ ev ∧ RecycledOnceBeforeFree 2 ev) ∧
      (∃ st1 st2 ev, farTerrainPass scenarioExt ⟨0, 0, 0⟩ 1 drawState = .ok st1 ∧
        drawFarMeshes scenarioExt ⟨0, 0, 0⟩ 1 st1 = .ok st2 ∧
        st2.log = drawState.log ++ ev ∧ RecycledOnceBeforeFree 2 ev)) :=
  ⟨by decide!, by decide!, by decide!,
    (normal_map_recycled_once scenarioExt 1000000 [2, 1, 5, 4, 3] drawState
      drawState_reachable 1
      { scenarioMesh with m_wvbo := 7, m_shouldDelete := true, m_isRenderable := true }
      (by decide!) rfl ⟨0, 0, 0⟩ ⟨0, 0, 0⟩ ⟨0, 0, 0, 1⟩ ⟨0, 0, 0, 1⟩ 1 1).1 (by decide),
    (normal_map_recycled_once scenarioExt 1000000 [2, 1, 5, 4, 3] drawState
      drawState_reachable 2
      { scenarioMesh with m_shouldDelete := true, m_isRenderable := true }
      (by decide!) rfl ⟨0, 0, 0⟩ ⟨0, 0, 0⟩ ⟨0, 0, 0, 1⟩ ⟨0, 0, 0, 1⟩ 1 1).2.1 (by decide)⟩

/-! ## The destructor -/

theorem deleteAll_eq (l : List MeshId) (h : Heap) (log : List Event) (hnd : l.Nodup)
    (hlive : ∀ m ∈ l, (h m).isSome = true) :
    deleteAll l h log = .ok (heapWithout l h, log ++ l.map Event.deleteMesh) := by
  induction l generalizing h log with
  | nil =>
    have hh : heapWithout [] h = h := by
      funext k
      simp [heapWithout]
    simp [deleteAll, hh]
  | cons x xs ih =>
    obtain ⟨o, ho⟩ := Option.isSome_iff_exists.1 (hlive x (List.mem_cons_self _ _))
    have hx : x ∉ xs := (List.nodup_cons.1 hnd).1
    unfold deleteAll
    simp only [ho]
    rw [ih (h.set x none) _ (List.nodup_cons.1 hnd).2]
    · have hh : heapWithout xs (h.set x none) = heapWithout (x :: xs) h := by
        funext k
        unfold heapWithout
        by_cases hk : k = x
        · subst hk
          simp [hx, Heap.set_same]
        · by_cases hkx : k ∈ xs
          · simp [hkx]
          · simp [hkx, hk, Heap.set_other]
      rw [hh]
      simp [List.append_assoc]
    · intro m hm
      have hmx : m ≠ x := fun hc => hx (hc ▸ hm)
      rw [Heap.set_other _ _ _ _ hmx]
      exact hlive m (List.mem_cons_of_mem _ hm)

theorem count_deleteMesh_map (l : List MeshId) (m : MeshId) (hnd : l.Nodup) :
    (l.map Event.deleteMesh).count (Event.deleteMesh m) = if m ∈ l then 1 else 0 := by
  induction l with
  | nil => simp
  | cons x xs ih =>
    have hx : x ∉ xs := (List.nodup_cons.1 hnd).1
    rw [List.map_cons, List.count_cons, ih (List.nodup_cons.1 hnd).2]
    by_cases hmx : m = x
    · subst hmx
      simp [hx]
    · have : x ≠ m := fun hc => hmx hc.symm
      by_cases hm : m ∈ xs
      · simp [hm, hmx, this]
      · simp [hm, hmx, this]

theorem destructor_eq (A : List MeshId) (st : State) (hinv : Inv A st) :
    destructor st
      = .ok { st with
          heap := heapWithout st.m_farMeshes (heapWithout st.m_meshes st.heap)
          log := st.log ++ (st.m_meshes.map Event.deleteMesh
            ++ st.m_farMeshes.map Event.deleteMesh) } := by
  have h1 := deleteAll_eq st.m_meshes st.heap st.log hinv.1.1 hinv.1.terrain.2
  have hlive2 : ∀ m ∈ st.m_farMeshes,
      ((heapWithout st.m_meshes st.heap) m).isSome = true := by
    intro m hm
    have hmT : m ∉ st.m_meshes := fun hc => hinv.2.2.1 m (Or.inl hc) (Or.inl hm)
    simp only [heapWithout, hmT, if_false]
    exact hinv.2.1.terrain.2 m hm
  have h2 := deleteAll_eq st.m_farMeshes (heapWithout st.m_meshes st.heap)
    (st.log ++ st.m_meshes.map Event.deleteMesh) hinv.2.1.1 hlive2
  unfold destructor
  rw [h1]
  simp only
  rw [h2]
  simp [List.append_assoc]

theorem reachedState3_reachable : Reachable scenarioExt 1000000 [1, 3] reachedState3 :=
  Reachable.farTerrain [1, 3] reachedState2 reachedState3 ⟨0, 0, 0⟩ 1
    (Reachable.add [3] reachedState1 reachedState2 1 false
      (Reachable.add [] emptyState reachedState1 3 true
        (Reachable.init emptyState rfl rfl rfl rfl) (by decide) rfl)
      (by decide) rfl)
    rfl

/-- C16: in every reachable state the destructor returns; it frees every mesh of
the spherical terrain list and of the far terrain list exactly once, makes no
other call, and frees no other mesh.  A mesh that is only in a water list (its
deletion was deferred by the terrain sweep: empty handle, pending deletion) is
still a live object after the destructor. -/
theorem destructor_frees_terrain_meshes (ext : Externals) (sentinel : ℚ) (A : List MeshId)
    (st : State) (hr : Reachable ext sentinel A st) :
    ∃ st1 ev, destructor st = .ok st1 ∧ st1.log = st.log ++ ev ∧
      (∀ m, ev.count (Event.deleteMesh m)
        = if m ∈ st.m_meshes ∨ m ∈ st.m_farMeshes then 1 else 0) ∧
      (∀ e ∈ ev, ∃ m, e = Event.deleteMesh m) ∧
      (∀ m, (m ∈ st.m_meshes ∨ m ∈ st.m_farMeshes) → st1.heap m = none) ∧
      (∀ m, m ∉ st.m_meshes → m ∉ st.m_farMeshes → st1.heap m = st.heap m) ∧
      (∀ m, (m ∈ st.m_waterMeshes ∨ m ∈ st.m_farWaterMeshes) →
        m ∉ st.m_meshes → m ∉ st.m_farMeshes →
        ∃ o, st1.heap m = some o ∧ o.m_wvbo = 0 ∧ o.m_shouldDelete = true) := by
  have hinv := reachable_inv ext sentinel A st hr
  have hkeep : ∀ m, m ∉ st.m_meshes → m ∉ st.m_farMeshes →
      heapWithout st.m_farMeshes (heapWithout st.m_meshes st.heap) m = st.heap m := by
    intro m h1 h2
    simp [heapWithout, h1, h2]
  refine ⟨_, _, destructor_eq A st hinv, rfl, ?_, ?_, ?_, hkeep, ?_⟩
  · intro m
    rw [List.count_append, count_deleteMesh_map _ m hinv.1.1,
      count_deleteMesh_map _ m hinv.2.1.1]
    by_cases h1 : m ∈ st.m_meshes
    · have h2 : m ∉ st.m_farMeshes := fun hc => hinv.2.2.1 m (Or.inl h1) (Or.inl hc)
      simp [h1, h2]
    · by_cases h2 : m ∈ st.m_farMeshes
      · simp [h1, h2]
      · simp [h1, h2]
  · intro e he
    rcases List.mem_append.1 he with h1 | h1
    · obtain ⟨m, _, hm⟩ := List.mem_map.1 h1
      exact ⟨m, hm.symm⟩
    · obtain ⟨m, _, hm⟩ := List.mem_map.1 h1
      exact ⟨m, hm.symm⟩
  · intro m hm
    show heapWithout st.m_farMeshes (heapWithout st.m_meshes st.heap) m = none
    unfold heapWithout
    by_cases h2 : m ∈ st.m_farMeshes
    · simp [h2]
    · rcases hm with hm | hm
      · simp [h2, hm]
      · exact absurd hm h2
  · intro m hm h1 h2
    show ∃ o, heapWithout st.m_farMeshes (heapWithout st.m_meshes st.heap) m = some o ∧ _
    rw [hkeep m h1 h2]
    rcases hm with hm | hm
    · obtain ⟨o, ho, himp⟩ := hinv.1.2.2.2 m hm
      exact ⟨o, ho, himp h1⟩
    · obtain ⟨o, ho, himp⟩ := hinv.2.1.2.2.2 m hm
      exact ⟨o, ho, himp h2⟩

/-- C16, the scenario: in `reachedState3` mesh 3 is in both spherical lists and
mesh 1, deferred by the far terrain pass, is in the far water list only.  The
destructor deletes mesh 3 and leaves mesh 1 a live object. -/
theorem destructor_frees_terrain_meshes_witness :
    listsOf (.ok reachedState3) = ([3], [3], [], [1]) ∧
    logOf (destructor reachedState3)
      = [Event.recycleNormalMap 1, Event.freeBuffer 1, Event.deleteMesh 3] ∧
    liveAfter (destructor reachedState3) 3 = false ∧
    liveAfter (destructor reachedState3) 1 = true ∧
    (∃ st1 ev, destructor reachedState3 = .ok st1 ∧ st1.log = reachedState3.log ++ ev ∧
      (∀ m, ev.count (Event.deleteMesh m)
        = if m ∈ reachedState3.m_meshes ∨ m ∈ reachedState3.m_farMeshes then 1 else 0) ∧
      (∀ e ∈ ev, ∃ m, e = Event.deleteMesh m) ∧
      (∀ m, (m ∈ reachedState3.m_meshes ∨ m ∈ reachedState3.m_farMeshes) →
        st1.heap m = none) ∧
      (∀ m, m ∉ reachedState3.m_meshes → m ∉ reachedState3.m_farMeshes →
        st1.heap m = reachedState3.heap m) ∧
      (∀ m, (m ∈ reachedState3.m_waterMeshes ∨ m ∈ reachedState3.m_farWaterMeshes) →
        m ∉ reachedState3.m_meshes → m ∉ reachedState3.m_farMeshes →
        ∃ o, st1.heap m = some o ∧ o.m_wvbo = 0 ∧ o.m_shouldDelete = true)) :=
  ⟨by decide, by decide, by decide, by decide,
    destructor_frees_terrain_meshes scenarioExt 1000000 [1, 3] reachedState3
      reachedState3_reachable⟩

end SoA
